import Mathlib

/-!
# DFXP subtitle decoder (`vod/subtitle/dfxp_format.c`)

A shallow embedding of the timestamp parser, the time-range resolver, the
style model, the cue renderer, the duration estimate and the frame extractor,
followed by the properties established for them.

Conventions of the embedding

* A C string (`u_char*`) is the list of its bytes; every byte at or past the end
  of the list reads as NUL, so the list `s` stands for the memory `s ++ [0, 0, ...]`.
* `int64_t` values are integers kept in `[-2^63, 2^63)` by `wrap64`
  (two's-complement reduction); `uint64_t` values are naturals below `2^64`.
* A computation returns `none` exactly when the C code performs an integer
  division whose result is undefined (division by zero).
-/

namespace Dfxp

set_option maxRecDepth 8000

/-! ## Machine arithmetic -/

/-- Reduction of an integer to the signed 64-bit two's-complement range. -/
def wrap64 (x : Int) : Int :=
  (x + 9223372036854775808) % 18446744073709551616 - 9223372036854775808

/-- The `int64_t` sum. -/
def add64 (a b : Int) : Int := wrap64 (a + b)

/-- The `int64_t` difference. -/
def sub64 (a b : Int) : Int := wrap64 (a - b)

/-- The `int64_t` product. -/
def mul64 (a b : Int) : Int := wrap64 (a * b)

/-- The `int64_t` quotient `a / b` (C division truncates toward zero); `none` when
the divisor is zero or the quotient is not representable. -/
def div64 (a b : Int) : Option Int :=
  if b = 0 then none
  else if a = -9223372036854775808 ∧ b = -1 then none
  else some (Int.tdiv a b)

/-- Conversion `(uint64_t) x` of an `int64_t`. -/
def toU64 (x : Int) : Nat := (x % 18446744073709551616).toNat

/-- Conversion `(int64_t) n` of a `uint64_t`. -/
def toI64 (n : Nat) : Int := wrap64 (n : Int)

/-! ## C strings -/

/-- The bytes of an ASCII string literal. -/
def cstr (s : String) : List Nat := s.toList.map Char.toNat

/-- Read `p[i]`: bytes past the end of the list are NUL. -/
def peek (p : List Nat) (i : Nat) : Nat := p.getD i 0

/-- C `isdigit` on an unsigned byte. -/
def isdigit (c : Nat) : Bool := decide (48 ≤ c) && decide (c ≤ 57)

/-- The `int` value of `c - '0'`. -/
def digitVal (c : Nat) : Int := (c : Int) - 48

/-! ## Timestamp grammar parser (`dfxp_parse_timestamp`, lines 77-225) -/

/-- The constant `DFXP_FRAME_RATE` (line 15). -/
def DFXP_FRAME_RATE : Int := 30

/-- The loop `do { num = num * 10 + (*p++ - '0'); } while (isdigit(*p));`
(lines 93-96 and 152-155). Returns the new `num` and `p`. Every call site has
checked `isdigit(*p)`, so the empty case is never reached. -/
def scan_digits (num : Int) : List Nat → Int × List Nat
  | [] => (num, [])
  | c :: p =>
    let num1 := add64 (mul64 num 10) (digitVal c)
    if isdigit (peek p 0) then scan_digits num1 p else (num1, p)

/-- The loop `do { num = num * 10 + (*p++ - '0'); den *= 10; } while (isdigit(*p));`
(lines 130-134 and 177-181). Returns the new `num`, `den` and `p`. -/
def scan_fraction (num den : Int) : List Nat → Int × Int × List Nat
  | [] => (num, den, [])
  | c :: p =>
    let num1 := add64 (mul64 num 10) (digitVal c)
    let den1 := mul64 den 10
    if isdigit (peek p 0) then scan_fraction num1 den1 p else (num1, den1, p)

/-- Lines 216-221: the check that nothing follows the unit, and the final quotient. -/
def dfxp_offset_result (num mul den : Int) (p : List Nat) : Option Int :=
  if peek p 1 ≠ 0 then some (-1)
  else div64 (mul64 num mul) den

/-- Lines 184-221: the `switch (*p)` on the metric of an offset time. -/
def dfxp_offset_metric (num den : Int) (p : List Nat) : Option Int :=
  if peek p 0 = 104 then                       -- 'h'
    dfxp_offset_result num 3600000 den p
  else if peek p 0 = 109 then                  -- 'm'
    if peek p 1 = 115 then                     -- 's'
      dfxp_offset_result num 1 den (p.drop 1)
    else
      dfxp_offset_result num 60000 den p
  else if peek p 0 = 115 then                  -- 's'
    dfxp_offset_result num 1000 den p
  else if peek p 0 = 102 then                  -- 'f'
    dfxp_offset_result num 1000 (mul64 den DFXP_FRAME_RATE) p
  else
    some (-1)

/-- Lines 165-222: offset time, entered with `p` after the leading digit run. -/
def dfxp_offset_time (num : Int) (p : List Nat) : Option Int :=
  if peek p 0 = 46 then                        -- '.'
    let p1 := p.drop 1
    if !isdigit (peek p1 0) then some (-1)
    else
      let r := scan_fraction num 1 p1
      dfxp_offset_metric r.1 r.2.1 r.2.2
  else
    dfxp_offset_metric num 1 p

/-- Lines 100-164: clock time, entered with `p` after the first `:`. When the
`switch` matches no case, control leaves the `if` and reaches `return -1` (line 224). -/
def dfxp_clock_time (num : Int) (p : List Nat) : Option Int :=
  if !isdigit (peek p 0) || !isdigit (peek p 1) || peek p 2 != 58 ||
      !isdigit (peek p 3) || !isdigit (peek p 4) then
    some (-1)
  else
    let num1 := add64 (add64 (mul64 num 3600)
      ((digitVal (peek p 0) * 10 + digitVal (peek p 1)) * 60))
      (digitVal (peek p 3) * 10 + digitVal (peek p 4))
    let p1 := p.drop 5
    if peek p1 0 = 0 then
      some (mul64 num1 1000)
    else if peek p1 0 = 46 then                -- '.'
      let p2 := p1.drop 1
      if !isdigit (peek p2 0) then some (-1)
      else
        let r := scan_fraction num1 1 p2
        if peek r.2.2 0 ≠ 0 then some (-1)
        else div64 (mul64 r.1 1000) r.2.1
    else if peek p1 0 = 58 then                -- ':'
      let p2 := p1.drop 1
      if !isdigit (peek p2 0) then some (-1)
      else
        let r := scan_digits 0 p2
        if peek r.2 0 ≠ 0 then some (-1)
        else (div64 (mul64 r.1 1000) DFXP_FRAME_RATE).map (fun q => add64 (mul64 num1 1000) q)
    else
      some (-1)

/-- The function `dfxp_parse_timestamp` (lines 77-225): milliseconds, or `-1`. -/
def dfxp_parse_timestamp (ts : List Nat) : Option Int :=
  if !isdigit (peek ts 0) then some (-1)
  else
    let r := scan_digits 0 ts
    if peek r.2 0 = 58 then                    -- ':'
      dfxp_clock_time r.1 (r.2.drop 1)
    else
      dfxp_offset_time r.1 r.2

/-! ## Vocabulary for stating the grammar -/

/-- The number denoted by a run of decimal digits, continuing from `acc`. -/
def digitsFrom (acc : Nat) (ds : List Nat) : Nat :=
  ds.foldl (fun a c => a * 10 + (c - 48)) acc

/-- The number denoted by a run of decimal digits. -/
def digitsValue (ds : List Nat) : Nat := digitsFrom 0 ds

/-- A run of one or more decimal digits (`D+`). -/
def IsDigits (ds : List Nat) : Prop := ds ≠ [] ∧ ∀ c ∈ ds, isdigit c = true

instance (ds : List Nat) : Decidable (IsDigits ds) := by
  unfold IsDigits; infer_instance

/-- The clock-form string `H ':' m1 m2 ':' s1 s2` followed by `suffix`. -/
def clockString (H : List Nat) (m1 m2 s1 s2 : Nat) (suffix : List Nat) : List Nat :=
  H ++ 58 :: m1 :: m2 :: 58 :: s1 :: s2 :: suffix

/-- The seconds denoted by the fields `H`, `m1 m2`, `s1 s2` of a clock-form string. -/
def clockSeconds (H : List Nat) (m1 m2 s1 s2 : Nat) : Nat :=
  digitsValue H * 3600 + digitsValue [m1, m2] * 60 + digitsValue [s1, s2]

/-- The units of an offset time. -/
inductive Metric where
  | h | m | ms | s | f
  deriving DecidableEq, Repr

/-- The bytes spelling a unit. -/
def Metric.bytes : Metric → List Nat
  | .h => [104]
  | .m => [109]
  | .ms => [109, 115]
  | .s => [115]
  | .f => [102]

/-- The multiplier `mul` the parser selects for a unit. -/
def Metric.mul : Metric → Nat
  | .h => 3600000
  | .m => 60000
  | .ms => 1
  | .s => 1000
  | .f => 1000

/-- The extra factor of the denominator for a unit (`DFXP_FRAME_RATE` for frames). -/
def Metric.den : Metric → Nat
  | .f => 30
  | _ => 1

/-- The offset-form string `N [ '.' frac ] unit`; an empty `frac` means no fraction. -/
def offsetString (N frac : List Nat) (u : Metric) : List Nat :=
  N ++ ((if frac = [] then [] else 46 :: frac) ++ u.bytes)

/-- The value `floor(num * mul / den)` of an offset-form string. -/
def offsetValue (N frac : List Nat) (u : Metric) : Nat :=
  digitsValue (N ++ frac) * u.mul / (10 ^ frac.length * u.den)

/-- The grammar `D+ ':' DD ':' DD ( end | '.' D+ | ':' D+ )`. -/
def ClockForm (s : List Nat) : Prop :=
  ∃ H m1 m2 s1 s2 suffix, IsDigits H ∧ IsDigits [m1, m2] ∧ IsDigits [s1, s2] ∧
    (suffix = [] ∨ (∃ F, IsDigits F ∧ suffix = 46 :: F) ∨ (∃ FF, IsDigits FF ∧ suffix = 58 :: FF)) ∧
    s = clockString H m1 m2 s1 s2 suffix

/-- The grammar `D+ ('.' D+)? ('h'|'m'|'ms'|'s'|'f')`. -/
def OffsetForm (s : List Nat) : Prop :=
  ∃ N frac u, IsDigits N ∧ (frac = [] ∨ IsDigits frac) ∧ s = offsetString N frac u

/-! ## The document tree (libxml2 `xmlNode`, as far as the decoder reads it) -/

/-- The node types the decoder distinguishes (`xmlElementType`); every other type
(comment, processing instruction, entity reference, ...) is `other`. -/
inductive XmlType where
  | XML_ELEMENT_NODE | XML_TEXT_NODE | XML_CDATA_SECTION_NODE | other
  deriving DecidableEq, Repr

/-- A child node of an attribute: its `type` and `content`. -/
structure XmlAttrChild where
  type : XmlType
  content : List Nat
  deriving DecidableEq, Repr

/-- An attribute (`xmlAttr`): its `name` and its `children` list. -/
structure XmlAttr where
  name : List Nat
  children : List XmlAttrChild
  deriving DecidableEq, Repr

/-- A node of the document tree. A node pointer is represented by the list made of
the node and its following siblings (`next` is the tail, `NULL` the empty list);
`children` is the pointer to the first child. -/
inductive XmlNode where
  | element (name : List Nat) (properties : List XmlAttr) (children : List XmlNode)
  | text (content : List Nat)
  | cdata (content : List Nat)
  | other
  deriving Repr

/-- The field `node->type`. -/
def XmlNode.type : XmlNode → XmlType
  | .element _ _ _ => .XML_ELEMENT_NODE
  | .text _ => .XML_TEXT_NODE
  | .cdata _ => .XML_CDATA_SECTION_NODE
  | .other => .other

/-- The field `node->name` (read on element nodes only). -/
def XmlNode.name : XmlNode → List Nat
  | .element name _ _ => name
  | _ => []

/-- The field `node->properties`. -/
def XmlNode.properties : XmlNode → List XmlAttr
  | .element _ properties _ => properties
  | _ => []

/-- The field `node->children`. -/
def XmlNode.children : XmlNode → List XmlNode
  | .element _ _ children => children
  | _ => []

/-- The field `node->content` of a text or CDATA node. -/
def XmlNode.content : XmlNode → List Nat
  | .text content => content
  | .cdata content => content
  | _ => []

/-- libxml2 `xmlHasProp`: the first attribute of the node carrying the name. -/
def xmlHasProp (node : XmlNode) (name : List Nat) : Option XmlAttr :=
  node.properties.find? (fun a => a.name == name)

/-- libxml2 `xmlDocGetRootElement`: the first element among the children of the
document, as a node pointer. A document is the list of its top-level nodes. -/
def xmlDocGetRootElement : List XmlNode → List XmlNode
  | [] => []
  | n :: ns => if n.type = .XML_ELEMENT_NODE then n :: ns else xmlDocGetRootElement ns

/-- The constant `DFXP_DURATION_ESTIMATE_NODES` (line 13). -/
def DFXP_DURATION_ESTIMATE_NODES : Nat := 10

/-- The constant `DFXP_MAX_STACK_DEPTH` (line 14). -/
def DFXP_MAX_STACK_DEPTH : Nat := 10

def DFXP_ELEMENT_P : List Nat := cstr "p"
def DFXP_ELEMENT_BR : List Nat := cstr "br"
def DFXP_ELEMENT_SPAN : List Nat := cstr "span"
def DFXP_ELEMENT_DIV : List Nat := cstr "div"

def DFXP_ATTR_BEGIN : List Nat := cstr "begin"
def DFXP_ATTR_END : List Nat := cstr "end"
def DFXP_ATTR_DUR : List Nat := cstr "dur"

/-- The function `dfxp_get_xml_prop` (lines 59-75): the value of an attribute that has
exactly one child, of text or CDATA type; `none` is `NULL`. -/
def dfxp_get_xml_prop (node : XmlNode) (name : List Nat) : Option (List Nat) :=
  match xmlHasProp node name with
  | none => none
  | some prop =>
    match prop.children with
    | [c] =>
      if c.type ≠ .XML_TEXT_NODE ∧ c.type ≠ .XML_CDATA_SECTION_NODE then none
      else some c.content
    | _ => none

/-! ## Time-range resolver (lines 227-279) -/

/-- The struct `dfxp_timestamp_t`. -/
structure dfxp_timestamp_t where
  start_time : Int
  end_time : Int
  deriving DecidableEq, Repr

/-- The function `dfxp_parse_timestamp0` (lines 232-243): the pair of the returned
flag and the value stored in `*ts`. -/
def dfxp_parse_timestamp0 (node : XmlNode) (name : List Nat) : Option (Bool × Int) :=
  match dfxp_get_xml_prop node name with
  | none => some (false, -1)
  | some attr =>
    match dfxp_parse_timestamp attr with
    | none => none
    | some ts => some (decide (ts ≥ 0), ts)

/-- The function `dfxp_extract_time` (lines 245-265): the pair of the returned flag and
the contents of `*t` on return. -/
def dfxp_extract_time (node : XmlNode) (t : dfxp_timestamp_t) (try_end_only : Bool) :
    Option (Bool × dfxp_timestamp_t) :=
  match dfxp_parse_timestamp0 node DFXP_ATTR_END with
  | none => none
  | some (r1, e) =>
    let t1 : dfxp_timestamp_t := { t with end_time := e }
    if r1 && try_end_only then
      some (true, t1)                -- wanted end only
    else
      match dfxp_parse_timestamp0 node DFXP_ATTR_BEGIN with
      | none => none
      | some (r2, s) =>
        let t2 : dfxp_timestamp_t := { t1 with start_time := s }
        if r2 && !try_end_only then
          some (true, t2)            -- wanted start, end
        else if t2.start_time < 0 then
          some (false, t2)
        else
          match dfxp_parse_timestamp0 node DFXP_ATTR_DUR with
          | none => none
          | some (r3, d) =>
            let t3 : dfxp_timestamp_t := { t2 with end_time := d }
            if !r3 then
              some (false, t3)       -- either dur or start doesn't exist
            else
              some (true, { t3 with end_time := add64 t3.end_time t3.start_time })

/-- The function `dfxp_clamp` (lines 267-279). -/
def dfxp_clamp (v lo hi : Int) : Int :=
  if v < lo then lo
  else if v > hi then hi
  else v

/-! ## C string helpers -/

/-- C `strlen`: the number of bytes before the first NUL. -/
def vod_strlen (s : List Nat) : Nat := (s.takeWhile (fun c => c != 0)).length

/-- `vod_strcmp(a, b) == 0`: equality of the two strings up to their first NUL. -/
def vod_streq (a b : List Nat) : Bool :=
  a.takeWhile (fun c => c != 0) == b.takeWhile (fun c => c != 0)

/-- C `isspace` in the "C" locale: space, `\t`, `\n`, `\v`, `\f`, `\r`. -/
def isspace (c : Nat) : Bool := c == 32 || (decide (9 ≤ c) && decide (c ≤ 13))

/-- The function `dfxp_append_string` (lines 496-505), on the bytes written so far. -/
def dfxp_append_string (p : List Nat) (s : List Nat) : List Nat :=
  p ++ s.takeWhile (fun c => c != 0)

/-- The function `dfxp_fake_append_string` (lines 507-511), on the pointer value. -/
def dfxp_fake_append_string (p : Nat) (s : List Nat) : Nat := p + vod_strlen s

/-! ## Style model (lines 513-677) -/

/-- The struct `flag` inside `style`. The decoration bits stay within `0..7` (every
producer is zero, a table value or an OR of the bits 0..2), so the conversions between
`int` and `char` on them are the identity. -/
structure style_flag where
  decoration : Nat
  text : Nat
  display : Nat
  deriving DecidableEq, Repr

/-- The struct `style`; `id` is `NULL` when `none`. -/
structure style where
  id : Option (List Nat)
  flag : style_flag
  deriving DecidableEq, Repr

/-- The struct `region`. -/
structure region where
  id : List Nat
  style : style
  deriving DecidableEq, Repr

def DECO_BOLD : Nat := 0
def DECO_ITALIC : Nat := 1
def DECO_UNDERLINE : Nat := 2
def DECO_SET_BOLD : Nat := 1 <<< DECO_BOLD
def DECO_SET_ITALIC : Nat := 1 <<< DECO_ITALIC
def DECO_SET_UNDERLINE : Nat := 1 <<< DECO_UNDERLINE

/-- An entry of `decorationtab`: `name`, `attr`, `tag[0]`, `tag[1]`. -/
structure decoration_entry where
  name : List Nat
  attr : List Nat
  tag0 : List Nat
  tag1 : List Nat
  deriving DecidableEq, Repr

/-- The table `decorationtab` (lines 532-537), without its terminating `NULL` entry. -/
def decorationtab : List decoration_entry :=
  [ ⟨cstr "bold", cstr "fontWeight", cstr "<b>", cstr "</b>"⟩,
    ⟨cstr "italic", cstr "fontStyle", cstr "<i>", cstr "</i>"⟩,
    ⟨cstr "underline", cstr "textDecoration", cstr "<u>", cstr "</u>"⟩ ]

/-- An entry of `textaligntab` and `displayaligntab`: `name`, `attr`, `vtt`. -/
structure align_entry where
  name : List Nat
  attr : List Nat
  vtt : List Nat
  deriving DecidableEq, Repr

def TA_DEFAULT : Nat := 0
def TA_START : Nat := 1
def TA_CENTER : Nat := 2
def TA_END : Nat := 3
def TA_LEFT : Nat := 4
def TA_RIGHT : Nat := 5

/-- The table `textaligntab` (lines 541-549), without its terminating `NULL` entry. The
line declaring the array is absent from the source; its entries have the layout of
`displayaligntab`. -/
def textaligntab : List align_entry :=
  [ ⟨cstr "", cstr "textAlign", cstr " "⟩,
    ⟨cstr "start", cstr "textAlign", cstr " position:15% align:start "⟩,
    ⟨cstr "center", cstr "textAlign", cstr " position:50% align:middle"⟩,
    ⟨cstr "end", cstr "textAlign", cstr " size:100% position:85% align:end"⟩,
    ⟨cstr "left", cstr "textAlign", cstr " position:15% align:start"⟩,
    ⟨cstr "right", cstr "textAlign", cstr " size:100% position:85% align:end"⟩ ]

def DA_DEFAULT : Nat := 0
def DA_BEFORE : Nat := 1
def DA_CENTER : Nat := 2
def DA_AFTER : Nat := 3

/-- The table `displayaligntab` (lines 551-558), without its terminating `NULL` entry. -/
def displayaligntab : List align_entry :=
  [ ⟨cstr "", cstr "displayAlign", cstr " "⟩,
    ⟨cstr "before", cstr "displayAlign", cstr " line:10%"⟩,
    ⟨cstr "center", cstr "displayAlign", cstr " line:50%"⟩,
    ⟨cstr "after", cstr "displayAlign", cstr " line:100%"⟩ ]

/-- The table `regiontab` (lines 564-569), without its terminating `NULL` entry. -/
def regiontab : List region :=
  [ ⟨cstr "lowerThird", ⟨some (cstr "defaultSpeaker"), ⟨DECO_SET_BOLD, TA_CENTER, DA_AFTER⟩⟩⟩,
    ⟨cstr "middleThird", ⟨some (cstr "defaultSpeaker"), ⟨DECO_SET_BOLD, TA_CENTER, DA_CENTER⟩⟩⟩,
    ⟨cstr "upperThird", ⟨some (cstr "defaultSpeaker"), ⟨DECO_SET_BOLD, TA_CENTER, DA_BEFORE⟩⟩⟩ ]

/-- The function `dfxp_has_attr_value` (lines 571-576). -/
def dfxp_has_attr_value (n : XmlNode) (name value : List Nat) : Bool :=
  match dfxp_get_xml_prop n name with
  | none => false
  | some attr => vod_streq attr value

/-- The table `syle_containers` (lines 607-614). -/
def syle_containers : List (List Nat) :=
  [cstr "p", cstr "div", cstr "region", cstr "span", cstr "body"]

/-- The function `dfxp_can_contain_style` (lines 617-625). -/
def dfxp_can_contain_style (n : XmlNode) : Bool :=
  syle_containers.any (fun c => vod_streq n.name c)

/-- The loop of `dfxp_add_textflags` from table index `i` on. -/
def dfxp_add_textflags_loop (n : XmlNode) : Nat → List decoration_entry → Nat → Nat
  | _, [], flag => flag
  | i, e :: tab, flag =>
    dfxp_add_textflags_loop n (i + 1) tab
      (flag ||| ((if dfxp_has_attr_value n e.attr e.name then 1 else 0) <<< i))

/-- The function `dfxp_add_textflags` (lines 629-636). -/
def dfxp_add_textflags (n : XmlNode) (flag : Nat) : Nat :=
  dfxp_add_textflags_loop n 0 decorationtab flag

/-- The search loops of `dfxp_parse_style`: the index of the first table entry,
counting from `i`, whose attribute has the entry's name as value. -/
def dfxp_find_align (n : XmlNode) : Nat → List align_entry → Option Nat
  | _, [] => none
  | i, e :: tab =>
    if dfxp_has_attr_value n e.attr e.name then some i else dfxp_find_align n (i + 1) tab

/-- The first loop of `dfxp_parse_style` (lines 647-658): the first region of the table
named by the `region` attribute. -/
def dfxp_find_region (n : XmlNode) : List region → Option region
  | [] => none
  | r :: tab =>
    if dfxp_has_attr_value n (cstr "region") r.id then some r else dfxp_find_region n tab

/-- The function `dfxp_parse_style` (lines 644-677): the contents of `*s` on return. -/
def dfxp_parse_style (n : XmlNode) (s : style) : style :=
  let s1 : style :=
    match dfxp_find_region n regiontab with
    | some r => r.style
    | none => s
  let s2 : style :=
    match dfxp_find_align n 0 textaligntab with
    | some i => { s1 with flag := { s1.flag with text := i } }
    | none => s1
  let s3 : style :=
    match dfxp_find_align n 0 displayaligntab with
    | some i => { s2 with flag := { s2.flag with display := i } }
    | none => s2
  { s3 with flag := { s3.flag with
      decoration := s3.flag.decoration ||| dfxp_add_textflags n s3.flag.decoration } }

/-! ## Text and tag renderer (lines 679-846)

The output pointer `p` is generic: the measure pass (`dfxp_fake_append_string`) runs on
the pointer value, the write pass (`dfxp_append_string`) on the bytes written so far. -/

/-- One of the two loops of `dfxp_append_tag` over the given table entries with their
indices: entry `i` contributes its tag when bit `i` of `flag` is set. -/
def dfxp_append_tag_loop {α : Type} (appendfunc : α → List Nat → α) (flag : Nat) (close : Bool) :
    List (Nat × decoration_entry) → α → α
  | [], p => p
  | (i, e) :: tab, p =>
    dfxp_append_tag_loop appendfunc flag close tab
      (if flag &&& (1 <<< i) ≠ 0 then appendfunc p (if close then e.tag1 else e.tag0) else p)

/-- The function `dfxp_append_tag` (lines 686-720). The closing loop starts at the
terminating table entry (index 3), whose bit is never set in a decoration flag, and
then visits the entries in reverse order. -/
def dfxp_append_tag {α : Type} (p : α) (flag parentflag : Nat) (close : Bool)
    (appendfunc : α → List Nat → α) : α :=
  let flag1 := flag &&& (flag ^^^ parentflag)
  if flag1 = 0 then p
  else if !close then dfxp_append_tag_loop appendfunc flag1 false decorationtab.enum p
  else dfxp_append_tag_loop appendfunc flag1 true decorationtab.enum.reverse p

/-- The function `dfxp_append_style` (lines 726-734). -/
def dfxp_append_style (p : List Nat) (s : style) : List Nat :=
  let p1 :=
    if s.flag.text ≠ 0 then
      dfxp_append_string p ((textaligntab.get? s.flag.text).elim [] align_entry.vtt)
    else p
  if s.flag.display ≠ 0 then
    dfxp_append_string p1 ((displayaligntab.get? s.flag.display).elim [] align_entry.vtt)
  else p1

mutual
/-- One iteration of the loop of `dfxp_append_text_content` (lines 747-799) on a node
met at stack depth `depth` with local flag `lflag`, up to the point where the loop
moves to the node's next sibling; for a `span` that is entered this covers the open
tag, the traversal of its children and the close tag written when they are exhausted
(lines 750-760), after which `lflag` has its saved value again. -/
def dfxp_append_text_node {α : Type} (appendfunc : α → List Nat → α) (flag : Nat)
    (depth lflag : Nat) : XmlNode → α → α
  | .text content, p => appendfunc p content
  | .cdata content, p => appendfunc p content
  | .other, p => p
  | .element name properties children, p =>
    if vod_streq name DFXP_ELEMENT_BR then
      appendfunc p (cstr "\n")
    else if !vod_streq name DFXP_ELEMENT_SPAN || children.isEmpty ||
        decide (depth ≥ DFXP_MAX_STACK_DEPTH) then
      p
    else
      let lflag1 := dfxp_add_textflags (.element name properties children) flag
      let p1 := dfxp_append_tag p lflag1 lflag false appendfunc
      let p2 := dfxp_append_text_nodes appendfunc flag (depth + 1) lflag1 children p1
      dfxp_append_tag p2 lflag1 lflag true appendfunc
/-- The loop of `dfxp_append_text_content` over a node and its following siblings. -/
def dfxp_append_text_nodes {α : Type} (appendfunc : α → List Nat → α) (flag : Nat)
    (depth lflag : Nat) : List XmlNode → α → α
  | [], p => p
  | node :: next, p =>
    dfxp_append_text_nodes appendfunc flag depth lflag next
      (dfxp_append_text_node appendfunc flag depth lflag node p)
end

/-- The function `dfxp_append_text_content` (lines 736-802): the explicit stack of the
C loop holds, for every entered `span`, its next sibling and the saved local flag;
here the traversal of the children of a `span` is the recursive call, at depth + 1. -/
def dfxp_append_text_content {α : Type} (node : List XmlNode) (p : α) (flag : Nat)
    (appendfunc : α → List Nat → α) : α :=
  dfxp_append_text_nodes appendfunc flag 0 0 node p

def DECORATION_SCRATCH_SPACE : Nat := 64

/-- Modelled from the spec: the type `vod_status_t`, whose declaration is not among
the sources; the spec lists the statuses "ok", "not found", "alloc failed",
"unexpected" and "bad data". -/
inductive vod_status_t where
  | VOD_OK | VOD_NOT_FOUND | VOD_ALLOC_FAILED | VOD_UNEXPECTED | VOD_BAD_DATA
  deriving DecidableEq, Repr

/-- Modelled from the spec: the struct `vod_str_t`, whose declaration is not among the
sources: a length `len` and the bytes `data`. -/
structure vod_str_t where
  len : Nat
  data : List Nat
  deriving DecidableEq, Repr

/-- The loop at lines 829-831 on the bytes from `textstart` to `end`: the number of
bytes it advances `textstart` by, and the bytes afterwards. -/
def dfxp_blank_leading_space : List Nat → Nat × List Nat
  | [] => (0, [])
  | c :: cs =>
    if isspace c then
      let r := dfxp_blank_leading_space cs
      (r.1 + 1, 32 :: r.2)
    else (0, c :: cs)

/-- The function `dfxp_get_frame_body` (lines 806-846): the returned status and
`*result`. The pool allocation is taken to succeed. -/
def dfxp_get_frame_body (node : List XmlNode) (s : style) : vod_status_t × vod_str_t :=
  let measured : Nat := dfxp_append_text_content node 0 s.flag.decoration dfxp_fake_append_string
  if measured = 0 then (.VOD_NOT_FOUND, ⟨0, []⟩)
  else
    let alloc_size := measured + DECORATION_SCRATCH_SPACE
    let head := dfxp_append_style [] s ++ [32]
    let textstart := head.length
    let buf := dfxp_append_text_content node head s.flag.decoration dfxp_append_string
    let r := dfxp_blank_leading_space (buf.drop textstart)
    let buf1 := (buf.take textstart ++ r.2).set (textstart + r.1 - 1) 10
    let buf2 := buf1 ++ [10, 10]
    if buf2.length > alloc_size then (.VOD_UNEXPECTED, ⟨0, []⟩)
    else (.VOD_OK, ⟨buf2.length, buf2⟩)

/-! ## Vocabulary for the renderer properties -/

/-- The write pass and the measure pass of one renderer step agree: the write pass
appends a fixed byte string, the measure pass adds its length. -/
def RenderAgree (f : List Nat → List Nat) (g : Nat → Nat) : Prop :=
  ∃ out : List Nat, (∀ p, f p = p ++ out) ∧ (∀ n, g n = n + out.length)

/-- The open tags of the decoration bits of `d`, in table order. -/
def open_tags (d : Nat) : List Nat :=
  (if d.testBit DECO_BOLD then cstr "<b>" else []) ++
  (if d.testBit DECO_ITALIC then cstr "<i>" else []) ++
  (if d.testBit DECO_UNDERLINE then cstr "<u>" else [])

/-- The close tags of the decoration bits of `d`, in reverse table order. -/
def close_tags (d : Nat) : List Nat :=
  (if d.testBit DECO_UNDERLINE then cstr "</u>" else []) ++
  (if d.testBit DECO_ITALIC then cstr "</i>" else []) ++
  (if d.testBit DECO_BOLD then cstr "</b>" else [])

/-- The alignment annotation of a style: the text-align string followed by the
display-align string, each omitted when its index is the default 0. -/
def align_settings (s : style) : List Nat :=
  (if s.flag.text = TA_DEFAULT then []
    else (textaligntab.get? s.flag.text).elim [] align_entry.vtt) ++
  (if s.flag.display = DA_DEFAULT then []
    else (displayaligntab.get? s.flag.display).elim [] align_entry.vtt)

/-- The length of the maximal run of whitespace bytes at the start of `T`. -/
def leading_space (T : List Nat) : Nat := (T.takeWhile isspace).length
/-! ## Reference definition of the style of a node -/

/-- The value of an attribute of a node as a C string (its bytes before the first
NUL), when the node has the attribute. -/
def attr_string (n : XmlNode) (name : List Nat) : Option (List Nat) :=
  (dfxp_get_xml_prop n name).map (fun v => v.takeWhile (fun c => c != 0))

/-- The presets named `lowerThird`, `middleThird` and `upperThird`: bold, text-align
center, display-align after, center and before. -/
def region_preset (v : List Nat) : Option style :=
  if v = cstr "lowerThird" then
    some ⟨some (cstr "defaultSpeaker"), ⟨DECO_SET_BOLD, TA_CENTER, DA_AFTER⟩⟩
  else if v = cstr "middleThird" then
    some ⟨some (cstr "defaultSpeaker"), ⟨DECO_SET_BOLD, TA_CENTER, DA_CENTER⟩⟩
  else if v = cstr "upperThird" then
    some ⟨some (cstr "defaultSpeaker"), ⟨DECO_SET_BOLD, TA_CENTER, DA_BEFORE⟩⟩
  else none

/-- The names of the text-align table, in table order. -/
def text_align_names : List (List Nat) :=
  [cstr "", cstr "start", cstr "center", cstr "end", cstr "left", cstr "right"]

/-- The names of the display-align table, in table order. -/
def display_align_names : List (List Nat) :=
  [cstr "", cstr "before", cstr "center", cstr "after"]

/-- The reference definition of the style of a node, given the inherited style. -/
def dfxp_parse_style_ref (n : XmlNode) (inherited : style) : style :=
  let base : style :=
    ((attr_string n (cstr "region")).bind region_preset).getD inherited
  { id := base.id,
    flag :=
      { text := ((attr_string n (cstr "textAlign")).bind
          (fun v => text_align_names.indexOf? v)).getD base.flag.text,
        display := ((attr_string n (cstr "displayAlign")).bind
          (fun v => display_align_names.indexOf? v)).getD base.flag.display,
        decoration := base.flag.decoration |||
          (if attr_string n (cstr "fontWeight") = some (cstr "bold") then DECO_SET_BOLD else 0) |||
          (if attr_string n (cstr "fontStyle") = some (cstr "italic") then DECO_SET_ITALIC
            else 0) |||
          (if attr_string n (cstr "textDecoration") = some (cstr "underline") then
            DECO_SET_UNDERLINE else 0) } }
/-! ## Frame extractor (`dfxp_parse_frames`, lines 848-1069) -/

/-- The `uint64_t` difference. -/
def sub_u64 (a b : Nat) : Nat := (a + 18446744073709551616 - b % 18446744073709551616) % 18446744073709551616

/-- Modelled from the spec: the struct `input_frame_t`, whose declaration
(`media_format.h`) is not among the sources; the spec's Frame is `{text payload,
start time, duration, presentation delay, content length}` without field widths. The
fields are those the function writes: `offset` holds the rendered text the stored
pointer refers to, `duration` and `pts_delay` hold the assigned 64-bit value. -/
structure input_frame_t where
  offset : List Nat
  size : Nat
  key_frame : Nat
  duration : Int
  pts_delay : Int
  deriving DecidableEq, Repr

/-- Modelled from the spec: the struct `media_track_t`, whose declaration
(`media_format.h`) is not among the sources; the spec's Track carries
`{first_frame_time_offset, total_frames_duration, first_frame_index,
total_frames_size}` without field widths. The time fields hold the assigned 64-bit
value. -/
structure media_track_t where
  first_frame_time_offset : Int
  total_frames_duration : Int
  first_frame_index : Nat
  total_frames_size : Nat
  deriving DecidableEq, Repr

/-- Modelled from the spec: the struct `media_parse_params_t`, whose declaration
(`media_format.h`) is not among the sources; the spec's inputs are a requested time
window, a clipping base time and clip bound, and a flag selecting relative-timestamp
mode. The fields are what the function reads: whether `parse_type` has a bit of
`PARSE_FLAG_FRAMES_ALL`, whether it has `PARSE_FLAG_RELATIVE_TIMESTAMPS`,
`range->start`, `range->end`, `clip_from`, `clip_to` (the function stores all four in
`uint64_t` locals), and the track descriptor as handed in. -/
structure media_parse_params_t where
  frames_all : Bool
  relative_timestamps : Bool
  range_start : Nat
  range_end : Nat
  clip_from : Nat
  clip_to : Nat
  track : media_track_t
  deriving DecidableEq, Repr

/-- The local `start` (line 912). -/
def pf_start (P : media_parse_params_t) : Nat :=
  (P.range_start + P.clip_from) % 18446744073709551616

/-- The local `base_time` (lines 914-925). -/
def pf_base_time (P : media_parse_params_t) : Nat :=
  if P.relative_timestamps then pf_start P else P.clip_from % 18446744073709551616

/-- The local `clip_to` (lines 914-925). -/
def pf_clip_to (P : media_parse_params_t) : Nat :=
  if P.relative_timestamps then sub_u64 P.range_end P.range_start
  else P.clip_to % 18446744073709551616

/-- The local `end` (lines 914-925). -/
def pf_end (P : media_parse_params_t) : Nat :=
  if P.relative_timestamps then pf_clip_to P else P.range_end % 18446744073709551616

/-- How the function stands: inside the loop, returned with a status, or stopped by an
undefined integer division in the timestamp parser. -/
inductive pf_control where
  | running
  | returned (rc : vod_status_t)
  | crashed
  deriving DecidableEq, Repr

/-- The locals and outputs that the handling of a `p` element reads and writes: `t`,
`last_start_time`, the frames array, `cur_frame`, the track descriptor, and whether the
function is still in its loop. The frames array is `frames` followed by `cur_frame`
when that is not `NULL`. -/
structure pf_output where
  t : dfxp_timestamp_t
  last_start_time : Int
  frames : List input_frame_t
  cur_frame : Option input_frame_t
  track : media_track_t
  control : pf_control
  deriving DecidableEq, Repr

/-- The frames array. -/
def pf_output.all_frames (q : pf_output) : List input_frame_t :=
  q.frames ++ q.cur_frame.toList

/-- The clipping of lines 1013-1014. -/
def dfxp_clip (P : media_parse_params_t) (t : dfxp_timestamp_t) : dfxp_timestamp_t :=
  { start_time := dfxp_clamp (toI64 (sub_u64 (toU64 t.start_time) (pf_base_time P))) 0
      (toI64 (pf_clip_to P)),
    end_time := dfxp_clamp (toI64 (sub_u64 (toU64 t.end_time) (pf_base_time P))) 0
      (toI64 (pf_clip_to P)) }

/-- Lines 1030-1061: the cue with clipped times `t` and rendered body `text`. -/
def dfxp_add_frame (P : media_parse_params_t) (t : dfxp_timestamp_t) (text : vod_str_t)
    (q : pf_output) : pf_output :=
  -- adjust the duration of the previous frame
  let cur_frame1 := q.cur_frame.map
    (fun f => { f with duration := sub64 t.start_time q.last_start_time })
  let track1 : media_track_t :=
    match q.cur_frame with
    | some _ => q.track
    | none => { q.track with first_frame_time_offset := t.start_time }
  if toU64 t.start_time ≥ pf_end P then
    { q with
      t := t, cur_frame := cur_frame1,
      track := { track1 with
        total_frames_duration := sub64 t.start_time track1.first_frame_time_offset },
      control := .returned .VOD_OK }
  else
    -- add the frame
    let frame : input_frame_t :=
      { offset := text.data, size := text.len, pts_delay := sub64 t.end_time t.start_time,
        key_frame := 0, duration := 0 }
    { q with
      t := t, frames := q.frames ++ cur_frame1.toList, cur_frame := some frame,
      track := { track1 with total_frames_size := track1.total_frames_size + frame.size },
      last_start_time := t.start_time }

/-- Lines 1001-1061: the handling of a `p` element once `dfxp_extract_time` has stored
the times `t`. A `continue` leaves `control` at `running`. The `duration` of a frame is
not initialised when the frame is pushed; it is zero here until it is assigned. -/
def dfxp_filter_cue (P : media_parse_params_t) (node : XmlNode) (sty : style)
    (t : dfxp_timestamp_t) (q : pf_output) : pf_output :=
  if toU64 t.end_time < pf_start P then
    { q with t := t,
             track := { q.track with first_frame_index := q.track.first_frame_index + 1 } }
  else if t.start_time ≥ t.end_time then
    { q with t := t }
  else
    match dfxp_get_frame_body node.children sty with
    | (.VOD_NOT_FOUND, _) => { q with t := dfxp_clip P t }
    | (.VOD_OK, text) => dfxp_add_frame P (dfxp_clip P t) text q
    | (rc, _) => { q with t := dfxp_clip P t, control := .returned rc }

/-- Lines 992-1061: the handling of the `p` element `node` with computed style `sty`,
`last_div` being the node that pointer refers to (`none` for `NULL`). -/
def dfxp_handle_p (P : media_parse_params_t) (node : XmlNode) (sty : style)
    (last_div : Option XmlNode) (q : pf_output) : pf_output :=
  match dfxp_extract_time node q.t false with
  | none => { q with control := .crashed }
  | some (true, t1) => dfxp_filter_cue P node sty t1 q
  | some (false, t1) =>
    match last_div with
    | none => { q with t := t1 }
    | some div =>
      match dfxp_extract_time div t1 false with
      | none => { q with control := .crashed }
      | some (true, t2) => dfxp_filter_cue P node sty t2 q
      | some (false, t2) => { q with t := t2 }

/-- Lines 932-939: the end of the traversal (`cur_node == NULL` at depth 0), followed
by the return at line 1068. -/
def dfxp_finish (q : pf_output) : pf_output :=
  match q.cur_frame with
  | some f =>
    { q with
      cur_frame := some { f with duration := sub64 q.t.end_time q.t.start_time },
      track := { q.track with
        total_frames_duration := sub64 q.t.end_time q.track.first_frame_time_offset },
      control := .returned .VOD_OK }
  | none => { q with control := .returned .VOD_OK }

/-- An entry of the local array `stack`: the node pointer and the style. -/
structure pf_entry where
  node : List XmlNode
  style : style

/-- The local state of `dfxp_parse_frames`.

* `stack` lists the entries `stack[depth-1], ..., stack[0]`; `depth` is its length.
* `last_div`, when not `NULL`, always points to a node held in a stack entry (it is
  assigned the node being pushed, line 981, and reset when that entry is popped, line
  946), so the pointer is kept as the index of that entry together with the node.
* `out` holds the remaining locals and the outputs. -/
structure pf_state where
  cur_node : List XmlNode
  stack : List pf_entry
  style : style
  last_div : Option (Nat × XmlNode)
  out : pf_output

/-- Lines 942-949: the value of `last_div` after the entry at index `depth` is popped. -/
def pf_pop_last_div (last_div : Option (Nat × XmlNode)) (depth : Nat) : Option (Nat × XmlNode) :=
  match last_div with
  | some (i, div) => if i = depth then none else some (i, div)
  | none => none

/-- Lines 961-969: the style computed for an element node; `parent` is
`stack[depth-1].style` when `depth > 0`, and `cur` the current value of `style`. -/
def pf_node_style (node : XmlNode) (parent : Option style) (cur : style) : style :=
  let style0 : style :=
    match parent with
    | none => cur
    | some ps => ps
  if dfxp_can_contain_style node then dfxp_parse_style node style0 else style0

/-- The style held by `stack[depth-1]`, when `depth > 0`. -/
def pf_parent_style (stack : List pf_entry) : Option style :=
  stack.head?.map pf_entry.style

/-- One iteration of the `for` loop (lines 927-1062), including the loop increment
`cur_node = cur_node->next` that follows every `continue`. When the loop is left (by
`break`, which leads to the return at line 1068, or by `return`), `out.control` is no
longer `running` and the other locals are dead. -/
def pf_step (P : media_parse_params_t) (s : pf_state) : pf_state :=
  match s.out.control with
  | .returned _ => s
  | .crashed => s
  | .running =>
    match s.cur_node with
    | [] =>
      match s.stack with
      | [] => { s with out := dfxp_finish s.out }           -- depth == 0
      | e :: stack1 =>
        -- depth--; cur_node = stack[depth].node; style = stack[depth].style;
        { s with
          stack := stack1, cur_node := e.node.tail, style := e.style,
          last_div := pf_pop_last_div s.last_div stack1.length }
    | node :: next =>
      if node.type ≠ .XML_ELEMENT_NODE then { s with cur_node := next }
      else
        let style1 := pf_node_style node (pf_parent_style s.stack) s.style
        if !vod_streq node.name DFXP_ELEMENT_P then
          if node.children.isEmpty || s.stack.length == DFXP_MAX_STACK_DEPTH then
            { s with style := style1, cur_node := next }
          else
            { s with
              style := style1,
              last_div :=
                if vod_streq node.name DFXP_ELEMENT_DIV then some (s.stack.length, node)
                else s.last_div,
              stack := { node := node :: next, style := style1 } :: s.stack,
              cur_node := node.children }
        else
          { s with
            style := style1, cur_node := next,
            out := dfxp_handle_p P node style1 (s.last_div.map Prod.snd) s.out }

/-- The loop run for at most `fuel` iterations. -/
def pf_run (P : media_parse_params_t) : Nat → pf_state → pf_state
  | 0, s => s
  | fuel + 1, s => pf_run P fuel (pf_step P s)

mutual
/-- The number of nodes of the subtree of a node. -/
def xml_node_count : XmlNode → Nat
  | .element _ _ children => 1 + xml_nodes_count children
  | .text _ => 1
  | .cdata _ => 1
  | .other => 1
/-- The number of nodes of a forest. -/
def xml_nodes_count : List XmlNode → Nat
  | [] => 0
  | node :: next => xml_node_count node + xml_nodes_count next
end

/-- The initial value `{0}` of the local `style` (line 885). -/
def pf_zero_style : style :=
  { id := none, flag := { decoration := 0, text := 0, display := 0 } }

/-- The state on entry to the loop (lines 861-927). -/
def pf_init (doc : List XmlNode) (P : media_parse_params_t) : pf_state :=
  { cur_node := xmlDocGetRootElement doc, stack := [],
    style := pf_zero_style,
    last_div := none,
    out := { t := { start_time := 0, end_time := 0 }, last_start_time := 0,
             frames := [], cur_frame := none, track := P.track, control := .running } }

/-- The function `dfxp_parse_frames` (lines 848-1069) on the parsed document
`metadata->context`: the locals and outputs on return. Every node costs at most two
iterations (its visit and the pop of its stack entry), so the loop is given
`2 * nodes + 1` iterations, after which it has been left. Array allocation is taken
to succeed. -/
def dfxp_parse_frames (doc : List XmlNode) (P : media_parse_params_t) : pf_output :=
  if !P.frames_all then { (pf_init doc P).out with control := .returned .VOD_OK }
  else (pf_run P (2 * xml_nodes_count doc + 1) (pf_init doc P)).out

/-! ## Duration estimate (`dfxp_get_duration`, lines 281-351) -/

/-- How `dfxp_get_duration` stands: inside the loop, returned, or stopped by an
undefined integer division in the timestamp parser. -/
inductive gd_control where
  | running
  | returned
  | crashed
  deriving DecidableEq, Repr

/-- The local state of `dfxp_get_duration`. The loop walks through `prev`, so a node
pointer is here the list made of the node and its preceding siblings, nearest first
(`prev` is the tail, `NULL` the empty list). `node_stack` lists the entries
`node_stack[node_stack_pos-1], ..., node_stack[0]`; `node_stack_pos` is its length. -/
structure gd_state where
  cur_node : List XmlNode
  node_stack : List (List XmlNode)
  nodes_left : Int
  result : Int
  ts : dfxp_timestamp_t
  control : gd_control

/-- Lines 314-318 and 337-341: `dfxp_extract_time(cur_node, &ts, 1)`, whose return
value is not read, followed by the update of `result`. -/
def gd_extract (node : XmlNode) (s : gd_state) : gd_state :=
  match dfxp_extract_time node s.ts true with
  | none => { s with control := .crashed }
  | some (_, ts1) =>
    { s with ts := ts1, result := if ts1.end_time > s.result then ts1.end_time else s.result }

/-- One iteration of the `for` loop (lines 292-348), including the loop increment
`cur_node = cur_node->prev` that follows every `continue`. -/
def gd_step (s : gd_state) : gd_state :=
  match s.control with
  | .returned => s
  | .crashed => s
  | .running =>
    match s.cur_node with
    | [] =>
      match s.node_stack with
      | [] => { s with control := .returned }
      | e :: stack1 =>
        -- cur_node = node_stack[--node_stack_pos]; continue;
        { s with node_stack := stack1, cur_node := e.tail }
    | node :: prev =>
      if node.type ≠ .XML_ELEMENT_NODE then { s with cur_node := prev }
      else
        -- timestamp information can be inside a div tag too
        let s1 := if vod_streq node.name DFXP_ELEMENT_DIV then gd_extract node s else s
        match s1.control with
        | .running =>
          if !vod_streq node.name DFXP_ELEMENT_P then
            -- recurse into non-p nodes
            if node.children.isEmpty ||
                decide (s1.node_stack.length ≥ DFXP_MAX_STACK_DEPTH) then
              { s1 with cur_node := prev }
            else
              { s1 with
                node_stack := (node :: prev) :: s1.node_stack,
                cur_node := node.children.reverse }
          else
            -- timestamp information can be inside a p tag
            let s2 := gd_extract node s1
            match s2.control with
            | .running =>
              if s2.nodes_left - 1 ≤ 0 then
                { s2 with nodes_left := s2.nodes_left - 1, control := .returned }
              else
                { s2 with nodes_left := s2.nodes_left - 1, cur_node := prev }
            | _ => s2
        | _ => s1

/-- The loop run for at most `fuel` iterations. -/
def gd_run : Nat → gd_state → gd_state
  | 0, s => s
  | fuel + 1, s => gd_run fuel (gd_step s)

/-- The pointer `xmlDocGetRootElement(doc)` as the loop walks it: the first element
among the children of the document, followed by the nodes before it, nearest first
(`before` collects them). -/
def xml_root_prev (before : List XmlNode) : List XmlNode → List XmlNode
  | [] => []
  | n :: ns =>
    if n.type = .XML_ELEMENT_NODE then n :: before else xml_root_prev (n :: before) ns

/-- The state on entry to the loop (lines 284-292). -/
def gd_init (doc : List XmlNode) : gd_state :=
  { cur_node := xml_root_prev [] doc, node_stack := [],
    nodes_left := DFXP_DURATION_ESTIMATE_NODES, result := 0,
    ts := { start_time := 0, end_time := 0 }, control := .running }

/-- The function `dfxp_get_duration` (lines 281-351): the locals when the loop has been
given `2 * nodes + 1` iterations (every node costs at most two, its visit and the pop
of its stack entry). The value returned is `(uint64_t) result`. -/
def dfxp_get_duration (doc : List XmlNode) : gd_state :=
  gd_run (2 * xml_nodes_count doc + 1) (gd_init doc)

/-- The resolved end time of an element: the end time `dfxp_extract_time` stores when
it reports success with `want_end_only` set. -/
def resolved_end (node : XmlNode) : Option Int :=
  match dfxp_extract_time node ⟨0, 0⟩ true with
  | some (true, t) => some t.end_time
  | _ => none

mutual
/-- The `div` and `p` elements of the subtree of a node that are not nested inside a
`p` element, in document order. -/
def xml_timed_node : XmlNode → List XmlNode
  | .element name properties children =>
    if vod_streq name DFXP_ELEMENT_P then [.element name properties children]
    else
      (if vod_streq name DFXP_ELEMENT_DIV then [.element name properties children] else []) ++
        xml_timed_nodes children
  | .text _ => []
  | .cdata _ => []
  | .other => []
/-- The same for a list of nodes. -/
def xml_timed_nodes : List XmlNode → List XmlNode
  | [] => []
  | node :: next => xml_timed_node node ++ xml_timed_nodes next
end

mutual
/-- No element of the subtree of a node has more than `DFXP_MAX_STACK_DEPTH` element
ancestors, `depth` being the number of element ancestors of the node itself. -/
def xml_depth_ok_node (depth : Nat) : XmlNode → Bool
  | .element _ _ children =>
    decide (depth ≤ DFXP_MAX_STACK_DEPTH) && xml_depth_ok (depth + 1) children
  | .text _ => true
  | .cdata _ => true
  | .other => true
/-- The same for a list of nodes with `depth` element ancestors each. -/
def xml_depth_ok (depth : Nat) : List XmlNode → Bool
  | [] => true
  | node :: next => xml_depth_ok_node depth node && xml_depth_ok depth next
end

mutual
/-- The number of `p` elements of the subtree of a node. -/
def xml_p_count_node : XmlNode → Nat
  | .element name _ children =>
    (if vod_streq name DFXP_ELEMENT_P then 1 else 0) + xml_p_count children
  | .text _ => 0
  | .cdata _ => 0
  | .other => 0
/-- The number of `p` elements of the subtrees of a list of nodes. -/
def xml_p_count : List XmlNode → Nat
  | [] => 0
  | node :: next => xml_p_count_node node + xml_p_count next
end

mutual
/-- The number of loop iterations `dfxp_get_duration` spends on a node met with
`depth` entries on the stack. -/
def gd_cost_node (depth : Nat) : XmlNode → Nat
  | .text _ => 1
  | .cdata _ => 1
  | .other => 1
  | .element name _ children =>
    if !vod_streq name DFXP_ELEMENT_P then
      if children.isEmpty || decide (depth ≥ DFXP_MAX_STACK_DEPTH) then 1
      else 1 + gd_cost_nodes (depth + 1) children + 1
    else 1
/-- The same for a list of nodes. -/
def gd_cost_nodes (depth : Nat) : List XmlNode → Nat
  | [] => 0
  | node :: next => gd_cost_node depth node + gd_cost_nodes depth next
end

/-- The root element of the document, as a list of at most one node. -/
def xml_root (doc : List XmlNode) : List XmlNode := (xmlDocGetRootElement doc).take 1

/-- The number of `p` elements among the given elements. -/
def timed_p_count (es : List XmlNode) : Nat :=
  (es.filter (fun e => vod_streq e.name DFXP_ELEMENT_P)).length

/-- The resolved end times of the given elements. -/
def resolved_ends (es : List XmlNode) : List Int := es.filterMap resolved_end

/-- After `k` iterations from the running state `s` the traversal stands at `rest` with
the stack of `s`, having examined the elements `es`: `nodes_left` has gone down by the
number of `p` elements among them and `result` is the maximum of its previous value
and their resolved end times. -/
def GdReach (k : Nat) (s : gd_state) (rest : List XmlNode) (es : List XmlNode) : Prop :=
  ∃ ts1, gd_run k s =
    { s with cur_node := rest, nodes_left := s.nodes_left - (timed_p_count es : Nat),
             result := (resolved_ends es).foldl max s.result, ts := ts1 }

/-- The value `dfxp_get_duration` returns: `result` converted to `uint64_t`. -/
def gd_return (s : gd_state) : Nat := toU64 s.result

/-- The locals of `dfxp_get_duration` other than the position in the tree:
`nodes_left`, `result`, `ts`, and how the function stands. -/
structure gd_acc where
  nodes_left : Int
  result : Int
  ts : dfxp_timestamp_t
  control : gd_control
  deriving DecidableEq, Repr

/-- The locals of a state other than the position in the tree. -/
def gd_state.acc (s : gd_state) : gd_acc := ⟨s.nodes_left, s.result, s.ts, s.control⟩

/-- The state with the given position (`cur_node`, `node_stack`) and locals. -/
def gd_at (cur : List XmlNode) (S : List (List XmlNode)) (a : gd_acc) : gd_state :=
  ⟨cur, S, a.nodes_left, a.result, a.ts, a.control⟩

/-- Lines 314-318 and 337-341 (`gd_extract`) on the locals. -/
def gd_acc_extract (node : XmlNode) (a : gd_acc) : gd_acc :=
  (gd_extract node (gd_at [] [] a)).acc

/-- Lines 343-347: `nodes_left--` and the test that ends the scan. -/
def gd_acc_count (a : gd_acc) : gd_acc :=
  if a.nodes_left - 1 ≤ 0 then { a with nodes_left := a.nodes_left - 1, control := .returned }
  else { a with nodes_left := a.nodes_left - 1 }

mutual
/-- The effect on the locals of the iterations of the loop of `dfxp_get_duration` spent
on a node met with `depth` entries on the stack and on the nodes below it. -/
def gd_walk_node (depth : Nat) : XmlNode → gd_acc → gd_acc
  | .text _, a => a
  | .cdata _, a => a
  | .other, a => a
  | .element name properties children, a =>
    match a.control with
    | .running =>
      let a1 :=
        if vod_streq name DFXP_ELEMENT_DIV then
          gd_acc_extract (.element name properties children) a
        else a
      match a1.control with
      | .running =>
        if !vod_streq name DFXP_ELEMENT_P then
          if children.isEmpty || decide (depth ≥ DFXP_MAX_STACK_DEPTH) then a1
          else gd_walk_nodes (depth + 1) children a1
        else
          let a2 := gd_acc_extract (.element name properties children) a1
          match a2.control with
          | .running => gd_acc_count a2
          | _ => a2
      | _ => a1
    | _ => a
/-- The same for a list of siblings, which the loop walks from the last to the first. -/
def gd_walk_nodes (depth : Nat) : List XmlNode → gd_acc → gd_acc
  | [], a => a
  | node :: next, a => gd_walk_node depth node (gd_walk_nodes depth next a)
end

/-- The locals on entry to the loop (lines 284-292). -/
def gd_acc_init : gd_acc :=
  ⟨DFXP_DURATION_ESTIMATE_NODES, 0, ⟨0, 0⟩, .running⟩

/-- The `break` at line 299 when the tree is exhausted. -/
def gd_acc_finish (a : gd_acc) : gd_acc :=
  match a.control with
  | .running => { a with control := .returned }
  | _ => a

/-- After `k` iterations from the position `cur` with stack `S` and locals `a` the
locals are `w`, and, if the loop has not been left, the traversal stands at `rest` with
the same stack. -/
def GdSim (k : Nat) (cur : List XmlNode) (S : List (List XmlNode)) (a : gd_acc)
    (rest : List XmlNode) (w : gd_acc) : Prop :=
  (gd_run k (gd_at cur S a)).acc = w ∧
  (w.control = .running → gd_run k (gd_at cur S a) = gd_at rest S w)

mutual
/-- The subtree of a node with the attributes of all its `p` elements removed. -/
def xml_strip_node : XmlNode → XmlNode
  | .element name properties children =>
    .element name (if vod_streq name DFXP_ELEMENT_P then [] else properties)
      (xml_strip_nodes children)
  | .text content => .text content
  | .cdata content => .cdata content
  | .other => .other
/-- The same for a list of nodes. -/
def xml_strip_nodes : List XmlNode → List XmlNode
  | [] => []
  | node :: next => xml_strip_node node :: xml_strip_nodes next
end

mutual
/-- The subtree of a node, met with `depth` element ancestors, in which only the last
`DFXP_DURATION_ESTIMATE_NODES` reachable `p` elements of the document keep their
attributes: `k` is the number of reachable `p` elements that follow the node in
document order (a `p` element is reachable when it has at most `DFXP_MAX_STACK_DEPTH`
element ancestors, none of them a `p`). Returns the subtree and the count including
the reachable `p` elements of the subtree. -/
def xml_keep_node (depth : Nat) : XmlNode → Nat → XmlNode × Nat
  | .element name properties children, k =>
    if vod_streq name DFXP_ELEMENT_P then
      (.element name (if k < DFXP_DURATION_ESTIMATE_NODES then properties else [])
        (xml_strip_nodes children), k + 1)
    else if children.isEmpty || decide (depth ≥ DFXP_MAX_STACK_DEPTH) then
      (.element name properties (xml_strip_nodes children), k)
    else
      ((.element name properties (xml_keep_nodes (depth + 1) children k).1),
        (xml_keep_nodes (depth + 1) children k).2)
  | .text content, k => (.text content, k)
  | .cdata content, k => (.cdata content, k)
  | .other, k => (.other, k)
/-- The same for a list of siblings, counted from the last to the first. -/
def xml_keep_nodes (depth : Nat) : List XmlNode → Nat → List XmlNode × Nat
  | [], k => ([], k)
  | node :: next, k =>
    ((xml_keep_node depth node (xml_keep_nodes depth next k).2).1 ::
        (xml_keep_nodes depth next k).1,
      (xml_keep_node depth node (xml_keep_nodes depth next k).2).2)
end

/-- The tree of the root element in which only the last `DFXP_DURATION_ESTIMATE_NODES`
reachable `p` elements keep their attributes. -/
def xml_keep (doc : List XmlNode) : List XmlNode := (xml_keep_nodes 0 (xml_root doc) 0).1

/-- The locals `a` agree with `k` reachable `p` elements having been examined: as long
as the loop runs, `nodes_left` is what is left of `DFXP_DURATION_ESTIMATE_NODES`, and
it is positive. -/
def GdInv (a : gd_acc) (k : Nat) : Prop :=
  0 ≤ a.nodes_left ∧ a.nodes_left ≤ (DFXP_DURATION_ESTIMATE_NODES : Nat) ∧
  (a.control = .running →
    a.nodes_left = (DFXP_DURATION_ESTIMATE_NODES : Nat) - (k : Nat) ∧
    k < DFXP_DURATION_ESTIMATE_NODES)
/-! ## Vocabulary for stating the properties of the frame extractor -/

/-- A `p` element as the traversal meets it: the node, the style computed for it, and
the node `last_div` points to at that moment. -/
structure pf_visit where
  node : XmlNode
  style : style
  last_div : Option XmlNode

mutual
/-- The `p` elements met while the traversal handles one node at stack depth `depth`
(document order), and the values of `style` and `last_div` when it moves on to the
node's next sibling. -/
def pf_visits_node (depth : Nat) (parent : Option style) :
    XmlNode → style × Option (Nat × XmlNode) → List pf_visit × (style × Option (Nat × XmlNode))
  | .text _, c => ([], c)
  | .cdata _, c => ([], c)
  | .other, c => ([], c)
  | .element name properties children, c =>
    let node := XmlNode.element name properties children
    let style1 := pf_node_style node parent c.1
    if !vod_streq name DFXP_ELEMENT_P then
      if children.isEmpty || depth == DFXP_MAX_STACK_DEPTH then ([], (style1, c.2))
      else
        let last_div := if vod_streq name DFXP_ELEMENT_DIV then some (depth, node) else c.2
        let r := pf_visits_nodes (depth + 1) (some style1) children (style1, last_div)
        (r.1, (style1, pf_pop_last_div r.2.2 depth))
    else
      ([{ node := node, style := style1, last_div := c.2.map Prod.snd }], (style1, c.2))
/-- The `p` elements met while the traversal handles a node and its following siblings. -/
def pf_visits_nodes (depth : Nat) (parent : Option style) :
    List XmlNode → style × Option (Nat × XmlNode) → List pf_visit × (style × Option (Nat × XmlNode))
  | [], c => ([], c)
  | node :: next, c =>
    let r1 := pf_visits_node depth parent node c
    let r2 := pf_visits_nodes depth parent next r1.2
    (r1.1 ++ r2.1, r2.2)
end

/-- The `p` elements of a document in the order the traversal of `dfxp_parse_frames`
meets them. -/
def pf_visits (doc : List XmlNode) : List pf_visit :=
  (pf_visits_nodes 0 none (xmlDocGetRootElement doc) (pf_zero_style, none)).1

mutual
/-- The number of loop iterations spent on a node at stack depth `depth`. -/
def pf_cost_node (depth : Nat) : XmlNode → Nat
  | .text _ => 1
  | .cdata _ => 1
  | .other => 1
  | .element name _ children =>
    if !vod_streq name DFXP_ELEMENT_P then
      if children.isEmpty || depth == DFXP_MAX_STACK_DEPTH then 1
      else 1 + pf_cost_nodes (depth + 1) children + 1
    else 1
/-- The number of loop iterations spent on a node and its following siblings. -/
def pf_cost_nodes (depth : Nat) : List XmlNode → Nat
  | [] => 0
  | node :: next => pf_cost_node depth node + pf_cost_nodes depth next
end

/-- The handling of a list of visited `p` elements, one after the other, as long as
the function has not left its loop. -/
def pf_fold (P : media_parse_params_t) : List pf_visit → pf_output → pf_output
  | [], q => q
  | v :: vs, q =>
    match q.control with
    | .running => pf_fold P vs (dfxp_handle_p P v.node v.style v.last_div q)
    | _ => q

/-- The outcome of `dfxp_parse_frames` in terms of the `p` elements met: they are
handled in order, and if the loop is not left on the way, the end of the traversal
finishes the last frame. -/
def pf_result (doc : List XmlNode) (P : media_parse_params_t) : pf_output :=
  match (pf_fold P (pf_visits doc) (pf_init doc P).out).control with
  | .running => dfxp_finish (pf_fold P (pf_visits doc) (pf_init doc P).out)
  | _ => pf_fold P (pf_visits doc) (pf_init doc P).out

/-- After `k` iterations from state `s` the locals and outputs are those obtained by
handling the visited `p` elements `r.1`, and, if the loop has not been left, the
traversal stands at `next` with the stack of `s` and the style and `last_div` of `r.2`. -/
def PfReach (P : media_parse_params_t) (k : Nat) (s : pf_state) (next : List XmlNode)
    (r : List pf_visit × (style × Option (Nat × XmlNode))) : Prop :=
  (pf_run P k s).out = pf_fold P r.1 s.out ∧
  ((pf_fold P r.1 s.out).control = .running →
    pf_run P k s = { s with cur_node := next, style := r.2.1, last_div := r.2.2,
                            out := pf_fold P r.1 s.out })

/-- A cue that passed all filters: its clipped times and its rendered body. -/
structure pf_cue where
  t : dfxp_timestamp_t
  text : vod_str_t
  deriving DecidableEq, Repr

/-- How the handling of a visited `p` element ends: the timestamp parser divides by
zero (`crash`); neither the element nor `last_div` resolves; the cue ends before the
window; its start is not before its end; its body is empty; rendering fails with a
status; or it passes all filters. Each case but the first carries the times left in
the local `t`. -/
inductive pf_class where
  | crash
  | unresolved (t : dfxp_timestamp_t)
  | before (t : dfxp_timestamp_t)
  | not_positive (t : dfxp_timestamp_t)
  | no_body (t : dfxp_timestamp_t)
  | failed (rc : vod_status_t) (t : dfxp_timestamp_t)
  | cue (c : pf_cue)
  deriving DecidableEq, Repr

/-- The time range of a visited `p` element as lines 993-999 resolve it: the flag
tells whether `dfxp_extract_time` reported success on the element or else on
`last_div`; `none` when the timestamp parser divides by zero. -/
def pf_resolve (v : pf_visit) : Option (Bool × dfxp_timestamp_t) :=
  match dfxp_extract_time v.node ⟨0, 0⟩ false with
  | none => none
  | some (true, t1) => some (true, t1)
  | some (false, t1) =>
    match v.last_div with
    | none => some (false, t1)
    | some div => dfxp_extract_time div t1 false

/-- The filters of lines 1001-1028 applied to a visited `p` element. -/
def pf_classify (P : media_parse_params_t) (v : pf_visit) : pf_class :=
  match pf_resolve v with
  | none => .crash
  | some (false, t) => .unresolved t
  | some (true, t) =>
    if toU64 t.end_time < pf_start P then .before t
    else if t.start_time ≥ t.end_time then .not_positive t
    else
      match dfxp_get_frame_body v.node.children v.style with
      | (.VOD_NOT_FOUND, _) => .no_body (dfxp_clip P t)
      | (.VOD_OK, text) => .cue ⟨dfxp_clip P t, text⟩
      | (rc, _) => .failed rc (dfxp_clip P t)

/-- The effect on the locals and outputs of handling a `p` element of a given class. -/
def pf_apply (P : media_parse_params_t) (c : pf_class) (q : pf_output) : pf_output :=
  match c with
  | .crash => { q with control := .crashed }
  | .unresolved t => { q with t := t }
  | .before t =>
    { q with t := t,
             track := { q.track with first_frame_index := q.track.first_frame_index + 1 } }
  | .not_positive t => { q with t := t }
  | .no_body t => { q with t := t }
  | .failed rc t => { q with t := t, control := .returned rc }
  | .cue c => dfxp_add_frame P c.t c.text q

/-- The cue of a class, if it passed all filters. -/
def pf_class.cue? : pf_class → Option pf_cue
  | .cue c => some c
  | _ => none

/-- The class of a cue that ends before the window. -/
def pf_class.is_before : pf_class → Bool
  | .before _ => true
  | _ => false

/-- The cues of a document: the `p` elements, in the order of the traversal, that
pass all filters (resolved, not before the window, start before end, non-empty body),
with their clipped times and rendered bodies. -/
def pf_cues (P : media_parse_params_t) (doc : List XmlNode) : List pf_cue :=
  (pf_visits doc).filterMap (fun v => (pf_classify P v).cue?)

/-- The clipped start of the cue has reached the window end (line 1040). -/
def cue_at_end (P : media_parse_params_t) (c : pf_cue) : Bool :=
  decide (toU64 c.t.start_time ≥ pf_end P)

/-- The handling of a `p` element of this class leaves the loop. -/
def pf_stops (P : media_parse_params_t) : pf_class → Bool
  | .crash => true
  | .failed _ _ => true
  | .cue c => cue_at_end P c
  | _ => false

/-- The `p` elements the traversal examines: those met up to and including the first
one whose handling leaves the loop. -/
def pf_examined (P : media_parse_params_t) : List pf_visit → List pf_visit
  | [] => []
  | v :: vs => if pf_stops P (pf_classify P v) then [v] else v :: pf_examined P vs

/-- The cue ends before the window: it resolves and its end time, as the unsigned
value line 1001 compares, is below the window start. -/
def pf_is_before (P : media_parse_params_t) (v : pf_visit) : Bool :=
  match pf_resolve v with
  | some (true, t) => decide (toU64 t.end_time < pf_start P)
  | _ => false

/-- The cue passes all filters and starts before the window end: it is emitted. -/
def pf_is_emitted (P : media_parse_params_t) (v : pf_visit) : Bool :=
  match pf_classify P v with
  | .cue c => !cue_at_end P c
  | _ => false

/-- The frame pushed for a cue (lines 1047-1058), its `duration` not yet assigned. -/
def pf_frame_of (c : pf_cue) : input_frame_t :=
  { offset := c.text.data, size := c.text.len, key_frame := 0, duration := 0,
    pts_delay := sub64 c.t.end_time c.t.start_time }

/-- The frames of the cues that are followed by another cue, each with the duration
from its own clipped start to the clipped start of the next cue. -/
def gap_frames : List pf_cue → List input_frame_t
  | [] => []
  | [_] => []
  | c :: c1 :: rest =>
    { pf_frame_of c with duration := sub64 c1.t.start_time c.t.start_time } ::
      gap_frames (c1 :: rest)

/-- The state of the loop after the cues `pre` have been emitted and `nb` cues before
the window have been skipped: all frames but the last are final, the last one is
pending in `cur_frame`. -/
structure PfInv (P : media_parse_params_t) (pre : List pf_cue) (nb : Nat) (q : pf_output) :
    Prop where
  running : q.control = .running
  frames : q.frames = gap_frames pre
  cur : q.cur_frame = pre.getLast?.map pf_frame_of
  last_start : ∀ c, pre.getLast? = some c → q.last_start_time = c.t.start_time
  first_offset : ∀ c, pre.head? = some c → q.track.first_frame_time_offset = c.t.start_time
  index : q.track.first_frame_index = P.track.first_frame_index + nb

/-! ## Vocabulary for the frame properties -/

/-- The value is representable as `int64_t`. -/
def In64 (v : Int) : Prop := -9223372036854775808 ≤ v ∧ v < 9223372036854775808

/-- The frame `f` carries the body of the cue `c` and its presentation delay, the
64-bit difference of the clipped end and start. -/
def frame_of_cue (f : input_frame_t) (c : pf_cue) : Prop :=
  f.offset = c.text.data ∧ f.size = c.text.len ∧ f.key_frame = 0 ∧
    f.pts_delay = sub64 c.t.end_time c.t.start_time

mutual
/-- The `p` elements of the subtree of a node that are not nested inside a `p` element,
in document order, each with the number of its element ancestors; `depth` is that
number for the node itself. -/
def xml_p_elements_node (depth : Nat) : XmlNode → List (XmlNode × Nat)
  | .element name properties children =>
    if vod_streq name DFXP_ELEMENT_P then [(.element name properties children, depth)]
    else xml_p_elements (depth + 1) children
  | .text _ => []
  | .cdata _ => []
  | .other => []
/-- The same for a node and its following siblings. -/
def xml_p_elements (depth : Nat) : List XmlNode → List (XmlNode × Nat)
  | [] => []
  | node :: next => xml_p_elements_node depth node ++ xml_p_elements depth next
end

/-- The nodes `inner` below `k` nested `div` elements. -/
def xml_wrap : Nat → List XmlNode → List XmlNode
  | 0, inner => inner
  | k + 1, inner => [.element (cstr "div") [] (xml_wrap k inner)]
/-! ## Example documents -/

/-- An attribute `name="value"` as the XML parser builds it: one text child. -/
def xml_attr (name value : String) : XmlAttr :=
  { name := cstr name, children := [{ type := .XML_TEXT_NODE, content := cstr value }] }

/-- The element `<p begin=".." end="..">text</p>`. -/
def xml_cue (b e text : String) : XmlNode :=
  .element (cstr "p") [xml_attr "begin" b, xml_attr "end" e] [.text (cstr text)]

/-- The document `<tt><body><div>` with the given children of the `div`. -/
def xml_doc (cues : List XmlNode) : List XmlNode :=
  [.element (cstr "tt") [] [.element (cstr "body") [] [.element (cstr "div") [] cues]]]

/-- Three cues with begin 0s, 2s, 5s and end 1s, 3s, 6s. -/
def example_three_cues : List XmlNode :=
  xml_doc [xml_cue "0s" "1s" "a", xml_cue "2s" "3s" "b", xml_cue "5s" "6s" "c"]

/-- A cue from 0s to 1s followed by a `p` element without timing attributes. -/
def example_trailing_p : List XmlNode :=
  xml_doc [xml_cue "0s" "1s" "a", .element (cstr "p") [] [.text (cstr "x")]]

/-- Cues at 0s-1s (before the window), 3s-4s, 20s-21s (at the window end), 30s-31s. -/
def example_window_cues : List XmlNode :=
  xml_doc [xml_cue "0s" "1s" "a", xml_cue "3s" "4s" "b", xml_cue "20s" "21s" "c",
    xml_cue "30s" "31s" "d"]

/-- The element `<p begin="1s" dur="2s">`. -/
def example_begin_dur : XmlNode :=
  .element (cstr "p") [xml_attr "begin" "1s", xml_attr "dur" "2s"] [.text (cstr "a")]

/-- The element `<p begin="1s">`. -/
def example_begin_only : XmlNode :=
  .element (cstr "p") [xml_attr "begin" "1s"] [.text (cstr "a")]

/-- The full window: absolute timestamps, no clipping below `2^63 - 1`. -/
def example_full_window : media_parse_params_t :=
  { frames_all := true, relative_timestamps := false, range_start := 0,
    range_end := 18446744073709551615, clip_from := 0, clip_to := 9223372036854775807,
    track := ⟨0, 0, 0, 0⟩ }

/-- The window from 2s to 10s, absolute timestamps. -/
def example_window : media_parse_params_t :=
  { frames_all := true, relative_timestamps := false, range_start := 2000,
    range_end := 10000, clip_from := 0, clip_to := 9223372036854775807,
    track := ⟨0, 0, 0, 0⟩ }

/-- The cue body `<span fontWeight="bold"><span fontStyle="italic">text</span></span>`. -/
def example_bold_italic : List XmlNode :=
  [.element (cstr "span") [xml_attr "fontWeight" "bold"]
    [.element (cstr "span") [xml_attr "fontStyle" "italic"] [.text (cstr "text")]]]

/-- The cue body `<span fontWeight="bold"><span fontWeight="bold">text</span></span>`. -/
def example_bold_bold : List XmlNode :=
  [.element (cstr "span") [xml_attr "fontWeight" "bold"]
    [.element (cstr "span") [xml_attr "fontWeight" "bold"] [.text (cstr "text")]]]

/-- The cue body ` hi` (one leading space). -/
def example_body : List XmlNode := [.text (cstr " hi")]

/-- The style with no decoration, text-align `center` and display-align `after`. -/
def example_style : style := ⟨none, ⟨0, TA_CENTER, DA_AFTER⟩⟩

/-- The element `<p region="lowerThird" begin="0s" end="1s">a</p>`. -/
def example_region_p : XmlNode :=
  .element (cstr "p") [xml_attr "region" "lowerThird", xml_attr "begin" "0s",
    xml_attr "end" "1s"] [.text (cstr "a")]

/-- The document `<tt><body><div fontStyle="italic">` holding `example_region_p`. -/
def example_region_doc : List XmlNode :=
  [.element (cstr "tt") [] [.element (cstr "body") []
    [.element (cstr "div") [xml_attr "fontStyle" "italic"] [example_region_p]]]]

/-- The element `<p begin="0s" end="1s">a</p>` carries none of the style attributes. -/
def example_plain_p : XmlNode := xml_cue "0s" "1s" "a"

/-- The document `<tt><body><div begin="5s" end="10s"><div><p begin="0s"
end="1s">a</p></div><p>b</p></div></body></tt>`: the second `p` has no timing of its
own and follows a nested `div`. -/
def example_nested_div : List XmlNode :=
  [.element (cstr "tt") [] [.element (cstr "body") []
    [.element (cstr "div") [xml_attr "begin" "5s", xml_attr "end" "10s"]
      [.element (cstr "div") [] [xml_cue "0s" "1s" "a"],
        .element (cstr "p") [] [.text (cstr "b")]]]]]

/-- The same document without the inner `div` around the first `p`. -/
def example_flat_div : List XmlNode :=
  [.element (cstr "tt") [] [.element (cstr "body") []
    [.element (cstr "div") [xml_attr "begin" "5s", xml_attr "end" "10s"]
      [xml_cue "0s" "1s" "a", .element (cstr "p") [] [.text (cstr "b")]]]]]

/-- A document nested to depth 20: ten nested `div` elements holding the cue `a` and
ten further nested `div` elements, which hold the cue `b`. -/
def example_depth_20 : List XmlNode :=
  xml_wrap 10 [xml_cue "0s" "1s" "a", .element (cstr "div") []
    (xml_wrap 9 [xml_cue "2s" "3s" "b"])]

/-- The document `<tt><body><div end="9s"><p begin="1s" dur="2s">a</p><p end="4s">b</p>
</div><div begin="5s" dur="7s">c</div></body></tt>`. -/
def example_duration_doc : List XmlNode :=
  [.other, .element (cstr "tt") [] [.element (cstr "body") []
    [.element (cstr "div") [xml_attr "end" "9s"]
      [example_begin_dur, .element (cstr "p") [xml_attr "end" "4s"] [.text (cstr "b")]],
     .element (cstr "div") [xml_attr "begin" "5s", xml_attr "dur" "7s"]
      [.text (cstr "c")]]]]

/-- The cues `<p begin=".." end="..">x</p>` with the given end times in seconds: the
i-th begins at `0s`. -/
def example_cues_ending (ends : List String) : List XmlNode :=
  ends.map (fun e => xml_cue "0s" e "x")

/-- Eleven cues in one `div`; the first ends at 99s, the others at 1s .. 10s. -/
def example_eleven_cues : List XmlNode :=
  xml_doc (example_cues_ending ["99s", "1s", "2s", "3s", "4s", "5s", "6s", "7s", "8s", "9s", "10s"])

/-- The same document with the `end` of the first cue altered to 50s. -/
def example_eleven_cues_altered : List XmlNode :=
  xml_doc (example_cues_ending ["50s", "1s", "2s", "3s", "4s", "5s", "6s", "7s", "8s", "9s", "10s"])

/-- The cue body `a<span>b</span>c<br/>`: text, a span without attributes, text, `br`. -/
def example_plain_span : List XmlNode :=
  [.text (cstr "a"), .element (cstr "span") [] [.text (cstr "b")], .text (cstr "c"),
    .element (cstr "br") [] []]

/-- The document `<tt><body><div><p begin="0s" end="0.0…0s">x</p></div></body></tt>`
whose `end` has a fraction of 64 zeros: one `p` element, with three element ancestors. -/
def example_zero_divisor_doc : List XmlNode :=
  xml_doc [xml_cue "0s"
    "0.0000000000000000000000000000000000000000000000000000000000000000s" "x"]
/-! # Properties

## Lemmas on machine arithmetic and digit runs -/

theorem wrap64_of_range {x : Int} (h1 : -9223372036854775808 ≤ x)
    (h2 : x < 9223372036854775808) : wrap64 x = x := by
  unfold wrap64; omega

theorem wrap64_natCast {n : Nat} (h : n < 9223372036854775808) : wrap64 (n : Int) = n :=
  wrap64_of_range (by omega) (by omega)

theorem isdigit_iff {c : Nat} : isdigit c = true ↔ 48 ≤ c ∧ c ≤ 57 := by
  simp [isdigit]

theorem digitVal_of_isdigit {c : Nat} (h : isdigit c = true) :
    digitVal c = ((c - 48 : Nat) : Int) := by
  have := isdigit_iff.mp h
  unfold digitVal; omega

theorem digitsFrom_cons (acc c : Nat) (ds : List Nat) :
    digitsFrom acc (c :: ds) = digitsFrom (acc * 10 + (c - 48)) ds := rfl

theorem le_digitsFrom (acc : Nat) (ds : List Nat) : acc ≤ digitsFrom acc ds := by
  induction ds generalizing acc with
  | nil => exact Nat.le_refl _
  | cons c ds ih =>
    rw [digitsFrom_cons]
    exact Nat.le_trans (by omega) (ih _)

theorem digitsFrom_eq (acc : Nat) (ds : List Nat) :
    digitsFrom acc ds = acc * 10 ^ ds.length + digitsValue ds := by
  induction ds generalizing acc with
  | nil => simp [digitsValue, digitsFrom]
  | cons c ds ih =>
    have h1 : digitsValue (c :: ds) = (c - 48) * 10 ^ ds.length + digitsValue ds := by
      show digitsFrom 0 (c :: ds) = _
      rw [digitsFrom_cons, ih]; simp
    rw [digitsFrom_cons, ih, h1]
    simp only [List.length_cons, pow_succ]
    ring

theorem add64_mul64_digit (acc c : Nat) (hc : isdigit c = true)
    (hb : acc * 10 + (c - 48) < 9223372036854775808) :
    add64 (mul64 (acc : Int) 10) (digitVal c) = ((acc * 10 + (c - 48) : Nat) : Int) := by
  have h := isdigit_iff.mp hc
  have h1 : mul64 (acc : Int) 10 = (acc : Int) * 10 := wrap64_of_range (by omega) (by omega)
  rw [h1]
  unfold add64 digitVal
  rw [wrap64_of_range (by omega) (by omega)]
  omega

theorem peek_cons_zero (c : Nat) (p : List Nat) : peek (c :: p) 0 = c := rfl

theorem scan_digits_cons (num : Int) (c : Nat) (p : List Nat) :
    scan_digits num (c :: p) =
      if isdigit (peek p 0) then scan_digits (add64 (mul64 num 10) (digitVal c)) p
      else (add64 (mul64 num 10) (digitVal c), p) := rfl

theorem scan_fraction_cons (num den : Int) (c : Nat) (p : List Nat) :
    scan_fraction num den (c :: p) =
      if isdigit (peek p 0) then
        scan_fraction (add64 (mul64 num 10) (digitVal c)) (mul64 den 10) p
      else (add64 (mul64 num 10) (digitVal c), mul64 den 10, p) := rfl

theorem scan_digits_run (ds rest : List Nat) (acc : Nat) (hne : ds ≠ [])
    (hd : ∀ c ∈ ds, isdigit c = true) (hr : isdigit (peek rest 0) = false)
    (hb : digitsFrom acc ds < 9223372036854775808) :
    scan_digits (acc : Int) (ds ++ rest) = (((digitsFrom acc ds : Nat) : Int), rest) := by
  induction ds generalizing acc with
  | nil => exact absurd rfl hne
  | cons c ds ih =>
    have hc : isdigit c = true := hd c (List.mem_cons_self _ _)
    rw [digitsFrom_cons] at hb ⊢
    have hle := le_digitsFrom (acc * 10 + (c - 48)) ds
    have hnum := add64_mul64_digit acc c hc (by omega)
    rw [List.cons_append, scan_digits_cons, hnum]
    cases ds with
    | nil =>
      rw [List.nil_append, hr]; rfl
    | cons d ds =>
      have hd1 : isdigit d = true := hd d (by simp)
      rw [List.cons_append, peek_cons_zero, hd1, if_pos rfl]
      exact ih (acc * 10 + (c - 48)) (by simp) (fun x hx => hd x (List.mem_cons_of_mem _ hx)) hb

theorem scan_fraction_run (ds rest : List Nat) (acc den : Nat) (hne : ds ≠ [])
    (hd : ∀ c ∈ ds, isdigit c = true) (hr : isdigit (peek rest 0) = false)
    (hb : digitsFrom acc ds < 9223372036854775808)
    (hden : den * 10 ^ ds.length < 9223372036854775808) :
    scan_fraction (acc : Int) (den : Int) (ds ++ rest) =
      (((digitsFrom acc ds : Nat) : Int), ((den * 10 ^ ds.length : Nat) : Int), rest) := by
  induction ds generalizing acc den with
  | nil => exact absurd rfl hne
  | cons c ds ih =>
    have hc : isdigit c = true := hd c (List.mem_cons_self _ _)
    rw [digitsFrom_cons] at hb ⊢
    have hle := le_digitsFrom (acc * 10 + (c - 48)) ds
    have hnum := add64_mul64_digit acc c hc (by omega)
    have hpow : 1 ≤ 10 ^ ds.length := Nat.one_le_pow _ _ (by omega)
    have hrw : den * 10 ^ (c :: ds).length = den * 10 * 10 ^ ds.length := by
      simp only [List.length_cons, pow_succ]; ring
    rw [hrw] at hden ⊢
    have hden1 : den * 10 ≤ den * 10 * 10 ^ ds.length := Nat.le_mul_of_pos_right _ hpow
    have hdm : mul64 (den : Int) 10 = ((den * 10 : Nat) : Int) := by
      unfold mul64; rw [wrap64_of_range (by omega) (by omega)]; simp
    rw [List.cons_append, scan_fraction_cons, hnum, hdm]
    cases ds with
    | nil =>
      rw [List.nil_append, hr]; simp [digitsFrom]
    | cons d ds =>
      have hd1 : isdigit d = true := hd d (by simp)
      rw [List.cons_append, peek_cons_zero, hd1, if_pos rfl]
      exact ih (acc * 10 + (c - 48)) (den * 10) (by simp)
        (fun x hx => hd x (List.mem_cons_of_mem _ hx)) hb hden

theorem isdigit_peek_append {ds : List Nat} (h : IsDigits ds) (rest : List Nat) :
    isdigit (peek (ds ++ rest) 0) = true := by
  obtain ⟨hne, hd⟩ := h
  cases ds with
  | nil => exact absurd rfl hne
  | cons c ds => exact hd c (List.mem_cons_self _ _)

theorem digitsValue_pair (a b : Nat) : digitsValue [a, b] = (a - 48) * 10 + (b - 48) := by
  simp [digitsValue, digitsFrom]

theorem parse_clock_prefix (H rest : List Nat) (hH : IsDigits H)
    (hb : digitsValue H < 9223372036854775808) :
    dfxp_parse_timestamp (H ++ 58 :: rest) = dfxp_clock_time (digitsValue H : Nat) rest := by
  have h1 := isdigit_peek_append hH (58 :: rest)
  have h2 := scan_digits_run H (58 :: rest) 0 hH.1 hH.2 rfl hb
  simp only [Nat.cast_zero] at h2
  unfold dfxp_parse_timestamp
  rw [h1, h2]
  simp [peek, digitsValue]

theorem clock_seconds_eq (n m1 m2 s1 s2 : Nat) (hm1 : isdigit m1 = true)
    (hm2 : isdigit m2 = true) (hs1 : isdigit s1 = true) (hs2 : isdigit s2 = true)
    (hb : n * 3600 + ((m1 - 48) * 10 + (m2 - 48)) * 60 + ((s1 - 48) * 10 + (s2 - 48))
      < 9223372036854775808) :
    add64 (add64 (mul64 (n : Int) 3600) ((digitVal m1 * 10 + digitVal m2) * 60))
      (digitVal s1 * 10 + digitVal s2) =
    ((n * 3600 + ((m1 - 48) * 10 + (m2 - 48)) * 60 + ((s1 - 48) * 10 + (s2 - 48)) : Nat) : Int) := by
  have a1 := isdigit_iff.mp hm1
  have a2 := isdigit_iff.mp hm2
  have a3 := isdigit_iff.mp hs1
  have a4 := isdigit_iff.mp hs2
  unfold add64 mul64 digitVal
  rw [wrap64_of_range (x := (n : Int) * 3600) (by omega) (by omega)]
  rw [wrap64_of_range (x := (n : Int) * 3600 + _) (by omega) (by omega)]
  rw [wrap64_of_range (by omega) (by omega)]
  omega

theorem clock_time_fields (n m1 m2 s1 s2 : Nat) (suffix : List Nat) (hm1 : isdigit m1 = true)
    (hm2 : isdigit m2 = true) (hs1 : isdigit s1 = true) (hs2 : isdigit s2 = true)
    (hb : n * 3600 + digitsValue [m1, m2] * 60 + digitsValue [s1, s2] < 9223372036854775808) :
    dfxp_clock_time (n : Int) (m1 :: m2 :: 58 :: s1 :: s2 :: suffix) =
      let num1 : Int := ((n * 3600 + digitsValue [m1, m2] * 60 + digitsValue [s1, s2] : Nat) : Int)
      if peek suffix 0 = 0 then some (mul64 num1 1000)
      else if peek suffix 0 = 46 then
        if !isdigit (peek (suffix.drop 1) 0) then some (-1)
        else
          let r := scan_fraction num1 1 (suffix.drop 1)
          if peek r.2.2 0 ≠ 0 then some (-1) else div64 (mul64 r.1 1000) r.2.1
      else if peek suffix 0 = 58 then
        if !isdigit (peek (suffix.drop 1) 0) then some (-1)
        else
          let r := scan_digits 0 (suffix.drop 1)
          if peek r.2 0 ≠ 0 then some (-1)
          else (div64 (mul64 r.1 1000) 30).map (fun q => add64 (mul64 num1 1000) q)
      else some (-1) := by
  rw [digitsValue_pair, digitsValue_pair] at hb ⊢
  have h := clock_seconds_eq n m1 m2 s1 s2 hm1 hm2 hs1 hs2 hb
  unfold dfxp_clock_time DFXP_FRAME_RATE
  simp only [peek, List.getD_cons_zero, List.getD_cons_succ, hm1, hm2, hs1, hs2, h]
  simp

theorem div64_natCast (a b : Nat) (hb : 0 < b) :
    div64 (a : Int) (b : Int) = some (((a / b : Nat)) : Int) := by
  unfold div64
  have h1 : (b : Int) ≠ 0 := by omega
  have h2 : ¬ ((a : Int) = -9223372036854775808 ∧ (b : Int) = -1) := by omega
  rw [if_neg h1, if_neg h2, Int.tdiv_eq_ediv (by omega) (by omega)]
  simp

theorem mul64_natCast (a b : Nat) (h : a * b < 9223372036854775808) :
    mul64 (a : Int) (b : Int) = ((a * b : Nat) : Int) := by
  unfold mul64
  rw [← Nat.cast_mul]
  exact wrap64_natCast h

theorem peek_not_digit_nil : isdigit (peek [] 0) = false := rfl

/-- C1: for a clock-form string `H:MM:SS` with an optional suffix, and provided no
64-bit overflow occurs, `dfxp_parse_timestamp` returns `(H*3600 + MM*60 + SS) * 1000`
without a suffix, `floor(((H*3600 + MM*60 + SS) * 10^k + F) * 1000 / 10^k)` for the
suffix `.F` of `k` digits, and `(H*3600 + MM*60 + SS) * 1000 + floor(FF * 1000 / 30)` for
the suffix `:FF`; `1:02:03.5` gives 3723500 and `00:00:01:15` gives 1500. -/
theorem dfxp_parse_timestamp_clock_form (H : List Nat) (m1 m2 s1 s2 : Nat)
    (hH : IsDigits H) (hM : IsDigits [m1, m2]) (hS : IsDigits [s1, s2]) :
    (clockSeconds H m1 m2 s1 s2 * 1000 < 2 ^ 63 →
      dfxp_parse_timestamp (clockString H m1 m2 s1 s2 []) =
        some ((clockSeconds H m1 m2 s1 s2 * 1000 : Nat) : Int)) ∧
    (∀ F : List Nat, IsDigits F → 10 ^ F.length < 2 ^ 63 →
      (clockSeconds H m1 m2 s1 s2 * 10 ^ F.length + digitsValue F) * 1000 < 2 ^ 63 →
      dfxp_parse_timestamp (clockString H m1 m2 s1 s2 (46 :: F)) =
        some (((clockSeconds H m1 m2 s1 s2 * 10 ^ F.length + digitsValue F) * 1000
          / 10 ^ F.length : Nat) : Int)) ∧
    (∀ FF : List Nat, IsDigits FF → digitsValue FF * 1000 < 2 ^ 63 →
      clockSeconds H m1 m2 s1 s2 * 1000 + digitsValue FF * 1000 / 30 < 2 ^ 63 →
      dfxp_parse_timestamp (clockString H m1 m2 s1 s2 (58 :: FF)) =
        some ((clockSeconds H m1 m2 s1 s2 * 1000 + digitsValue FF * 1000 / 30 : Nat) : Int)) ∧
    dfxp_parse_timestamp (cstr "1:02:03.5") = some 3723500 ∧
    dfxp_parse_timestamp (cstr "00:00:01:15") = some 1500 := by
  have hm1 : isdigit m1 = true := hM.2 m1 (by simp)
  have hm2 : isdigit m2 = true := hM.2 m2 (by simp)
  have hs1 : isdigit s1 = true := hS.2 s1 (by simp)
  have hs2 : isdigit s2 = true := hS.2 s2 (by simp)
  have key : ∀ suffix : List Nat, clockSeconds H m1 m2 s1 s2 < 9223372036854775808 →
      dfxp_parse_timestamp (clockString H m1 m2 s1 s2 suffix) =
        dfxp_clock_time (digitsValue H : Nat) (m1 :: m2 :: 58 :: s1 :: s2 :: suffix) := by
    intro suffix hb
    unfold clockSeconds at hb
    exact parse_clock_prefix H _ hH (by omega)
  have k1000 : ∀ a : Nat, a * 1000 < 9223372036854775808 →
      mul64 (a : Int) 1000 = ((a * 1000 : Nat) : Int) := fun a h => mul64_natCast a 1000 h
  simp only [clockSeconds] at key ⊢
  refine ⟨?_, ?_, ?_, by decide, by decide⟩
  · intro hb
    norm_num at hb
    rw [key [] (by omega), clock_time_fields _ _ _ _ _ _ hm1 hm2 hs1 hs2 (by omega)]
    simp only [peek, List.getD_nil, if_true]
    rw [k1000 _ hb]
  · intro F hF hden hb
    norm_num at hb hden
    have hpow : 0 < 10 ^ F.length := Nat.pos_pow_of_pos _ (by omega)
    have hsec : digitsValue H * 3600 + digitsValue [m1, m2] * 60 + digitsValue [s1, s2]
        < 9223372036854775808 := by
      have := Nat.mul_le_mul_left
        (digitsValue H * 3600 + digitsValue [m1, m2] * 60 + digitsValue [s1, s2]) hpow
      omega
    rw [key _ hsec, clock_time_fields _ _ _ _ _ _ hm1 hm2 hs1 hs2 hsec]
    have hF0 := isdigit_peek_append hF []
    rw [List.append_nil] at hF0
    have hrun := scan_fraction_run F []
      (digitsValue H * 3600 + digitsValue [m1, m2] * 60 + digitsValue [s1, s2]) 1 hF.1 hF.2 rfl
      (by rw [digitsFrom_eq]; omega) (by omega)
    rw [List.append_nil, digitsFrom_eq, Nat.cast_one, Nat.one_mul] at hrun
    simp only [peek, List.getD_cons_zero, List.drop_succ_cons, List.drop_zero]
    simp only [peek] at hF0
    simp only [hF0, hrun, List.getD_nil]
    rw [k1000 _ hb]
    exact div64_natCast _ _ hpow
  · intro FF hF hfb hb
    norm_num at hb hfb
    have hsec : digitsValue H * 3600 + digitsValue [m1, m2] * 60 + digitsValue [s1, s2]
        < 9223372036854775808 := by omega
    rw [key _ hsec, clock_time_fields _ _ _ _ _ _ hm1 hm2 hs1 hs2 hsec]
    have hF0 := isdigit_peek_append hF []
    rw [List.append_nil] at hF0
    have hrun := scan_digits_run FF [] 0 hF.1 hF.2 rfl (by show digitsValue FF < _; omega)
    rw [List.append_nil, Nat.cast_zero] at hrun
    simp only [peek, List.getD_cons_zero, List.drop_succ_cons, List.drop_zero]
    simp only [peek] at hF0
    simp only [hF0, hrun, List.getD_nil]
    have h30 : div64 (mul64 ((digitsFrom 0 FF : Nat) : Int) 1000) 30 =
        some ((digitsValue FF * 1000 / 30 : Nat) : Int) := by
      show div64 (mul64 ((digitsValue FF : Nat) : Int) 1000) 30 = _
      rw [k1000 _ hfb]
      exact div64_natCast _ 30 (by omega)
    rw [h30, k1000 _ (by omega)]
    simp only [add64, Option.map_some', ← Nat.cast_add]
    rw [wrap64_natCast (by omega)]
    simp

theorem digitsFrom_append (acc : Nat) (a b : List Nat) :
    digitsFrom acc (a ++ b) = digitsFrom (digitsFrom acc a) b := by
  simp [digitsFrom, List.foldl_append]

theorem metric_head_not_digit (u : Metric) (rest : List Nat) :
    isdigit (peek (u.bytes ++ rest) 0) = false := by
  cases u <;> rfl

theorem offset_metric_eval (num den : Nat) (u : Metric)
    (hn : num * u.mul < 9223372036854775808)
    (hd : den * u.den < 9223372036854775808) (hpos : 0 < den) :
    dfxp_offset_metric (num : Int) (den : Int) u.bytes =
      some ((num * u.mul / (den * u.den) : Nat) : Int) := by
  cases u <;>
    simp only [Metric.bytes, Metric.mul, Metric.den, dfxp_offset_metric, dfxp_offset_result, peek,
      DFXP_FRAME_RATE,
      List.getD_cons_zero, List.getD_cons_succ, List.getD_nil, List.drop_succ_cons, List.drop_zero,
      Nat.mul_one] at hn hd ⊢ <;>
    simp only [reduceCtorEq, Nat.reduceEqDiff, if_true, if_false, ne_eq, not_true_eq_false,
      OfNat.ofNat_ne_zero, not_false_eq_true] <;>
    norm_num
  · rw [show (3600000 : Int) = ((3600000 : Nat) : Int) from rfl, mul64_natCast _ _ hn]
    exact div64_natCast _ _ hpos
  · rw [show (60000 : Int) = ((60000 : Nat) : Int) from rfl, mul64_natCast _ _ hn]
    exact div64_natCast _ _ hpos
  · rw [show (1 : Int) = ((1 : Nat) : Int) from rfl, mul64_natCast _ _ (by omega), Nat.mul_one]
    exact div64_natCast _ _ hpos
  · rw [show (1000 : Int) = ((1000 : Nat) : Int) from rfl, mul64_natCast _ _ hn]
    exact div64_natCast _ _ hpos
  · rw [show (1000 : Int) = ((1000 : Nat) : Int) from rfl, mul64_natCast _ _ hn,
      show (30 : Int) = ((30 : Nat) : Int) from rfl, mul64_natCast _ _ hd]
    exact div64_natCast _ _ (by omega)

theorem metric_mul_pos (u : Metric) : 1 ≤ u.mul := by cases u <;> decide

theorem metric_den_pos (u : Metric) : 1 ≤ u.den := by cases u <;> decide

theorem metric_head_ne (u : Metric) (rest : List Nat) :
    peek (u.bytes ++ rest) 0 ≠ 58 ∧ peek (u.bytes ++ rest) 0 ≠ 46 := by
  cases u <;> simp [Metric.bytes, peek]

/-- C2 (amended): for an offset-form string `N[.frac]<unit>`, provided `num * mul` and
`den` fit in a signed 64-bit integer, `dfxp_parse_timestamp` returns
`floor(num * mul / den)` with `num` the digits of `N` and `frac`, `den = 10^k` (times 30
for `f`) and `mul` 3600000, 60000, 1000, 1, 1000 for `h`, `m`, `s`, `ms`, `f`. -/
theorem dfxp_parse_timestamp_offset_form (N frac : List Nat) (u : Metric)
    (hN : IsDigits N) (hF : frac = [] ∨ IsDigits frac)
    (hnum : digitsValue (N ++ frac) * u.mul < 2 ^ 63)
    (hden : 10 ^ frac.length * u.den < 2 ^ 63) :
    dfxp_parse_timestamp (offsetString N frac u) = some ((offsetValue N frac u : Nat) : Int) := by
  norm_num at hnum hden
  have hmul := metric_mul_pos u
  have hdpos := metric_den_pos u
  have hval : digitsValue (N ++ frac) = digitsFrom (digitsValue N) frac := by
    simp [digitsValue, digitsFrom_append]
  have hle1 : digitsValue (N ++ frac) ≤ digitsValue (N ++ frac) * u.mul :=
    Nat.le_mul_of_pos_right _ hmul
  have hle2 : digitsValue N ≤ digitsValue (N ++ frac) := by
    rw [hval]; exact le_digitsFrom _ _
  have hle3 : 10 ^ frac.length ≤ 10 ^ frac.length * u.den := Nat.le_mul_of_pos_right _ hdpos
  have hpow : 0 < 10 ^ frac.length := Nat.pos_pow_of_pos _ (by omega)
  unfold offsetString offsetValue dfxp_parse_timestamp
  rw [isdigit_peek_append hN]
  rcases hF with hF | hF
  · subst hF
    have hrun := scan_digits_run N (u.bytes ++ []) 0 hN.1 hN.2 (metric_head_not_digit u [])
      (by show digitsValue N < _; omega)
    simp only [List.append_nil, Nat.cast_zero] at hrun hnum hle1 ⊢
    have hne := metric_head_ne u []
    rw [List.append_nil] at hne
    simp only [if_true, List.nil_append, hrun, Bool.not_true, Bool.false_eq_true, if_false,
      hne.1, dfxp_offset_time, hne.2]
    have := offset_metric_eval (digitsValue N) 1 u hnum (by simpa using hden) (by omega)
    simpa [digitsValue] using this
  · have hfne : frac ≠ [] := hF.1
    have hrun := scan_digits_run N (46 :: (frac ++ u.bytes)) 0 hN.1 hN.2 rfl
      (by show digitsValue N < _; omega)
    have hfr := scan_fraction_run frac u.bytes (digitsValue N) 1 hF.1 hF.2
      (by simpa using metric_head_not_digit u []) (by omega) (by omega)
    simp only [Nat.cast_zero] at hrun
    change scan_digits 0 _ = (((digitsValue N : Nat) : Int), _) at hrun
    simp only [Nat.cast_one, Nat.one_mul] at hfr
    simp only [if_neg hfne, List.cons_append, hrun, Bool.not_true, Bool.false_eq_true, if_false,
      dfxp_offset_time, peek, List.getD_cons_zero, List.drop_succ_cons, List.drop_zero]
    have hd0 := isdigit_peek_append hF u.bytes
    simp only [peek] at hd0
    simp only [Nat.reduceEqDiff, if_false, if_true, hd0, Bool.not_true,
      Bool.false_eq_true, hfr]
    rw [hval]
    exact offset_metric_eval _ _ u (by rw [← hval]; exact hnum) hden hpow

theorem scan_digits_split (num : Int) (p : List Nat) (h : isdigit (peek p 0) = true) :
    ∃ ds rest, p = ds ++ rest ∧ IsDigits ds ∧ isdigit (peek rest 0) = false ∧
      (scan_digits num p).2 = rest := by
  induction p generalizing num with
  | nil => exact absurd h (by decide)
  | cons c p ih =>
    rw [peek_cons_zero] at h
    rw [scan_digits_cons]
    by_cases hp : isdigit (peek p 0) = true
    · obtain ⟨ds, rest, h1, h2, h3, h4⟩ := ih (add64 (mul64 num 10) (digitVal c)) hp
      refine ⟨c :: ds, rest, by rw [h1]; rfl, ⟨by simp, ?_⟩, h3, by rw [if_pos hp]; exact h4⟩
      intro x hx
      rcases List.mem_cons.mp hx with hx | hx
      · rw [hx]; exact h
      · exact h2.2 x hx
    · refine ⟨[c], p, rfl, ⟨by simp, by simpa using h⟩, by simpa using hp, by rw [if_neg hp]⟩

theorem scan_fraction_split (num den : Int) (p : List Nat) (h : isdigit (peek p 0) = true) :
    ∃ ds rest, p = ds ++ rest ∧ IsDigits ds ∧ isdigit (peek rest 0) = false ∧
      (scan_fraction num den p).2.2 = rest := by
  induction p generalizing num den with
  | nil => exact absurd h (by decide)
  | cons c p ih =>
    rw [peek_cons_zero] at h
    rw [scan_fraction_cons]
    by_cases hp : isdigit (peek p 0) = true
    · obtain ⟨ds, rest, h1, h2, h3, h4⟩ :=
        ih (add64 (mul64 num 10) (digitVal c)) (mul64 den 10) hp
      refine ⟨c :: ds, rest, by rw [h1]; rfl, ⟨by simp, ?_⟩, h3, by rw [if_pos hp]; exact h4⟩
      intro x hx
      rcases List.mem_cons.mp hx with hx | hx
      · rw [hx]; exact h
      · exact h2.2 x hx
    · refine ⟨[c], p, rfl, ⟨by simp, by simpa using h⟩, by simpa using hp, by rw [if_neg hp]⟩

theorem eq_nil_of_peek_zero {p : List Nat} (h0 : ∀ c ∈ p, c ≠ 0) (h : peek p 0 = 0) : p = [] := by
  cases p with
  | nil => rfl
  | cons c p => exact absurd h (h0 c (List.mem_cons_self _ _))

theorem offset_result_cases (num mul den : Int) (p : List Nat) :
    dfxp_offset_result num mul den p = some (-1) ∨ peek p 1 = 0 := by
  unfold dfxp_offset_result
  by_cases h : peek p 1 = 0
  · exact Or.inr h
  · exact Or.inl (if_pos h)

theorem offset_metric_cases (num den : Int) (p : List Nat) (h0 : ∀ c ∈ p, c ≠ 0) :
    dfxp_offset_metric num den p = some (-1) ∨ ∃ u : Metric, p = u.bytes := by
  cases p with
  | nil => exact Or.inl (by simp [dfxp_offset_metric, peek])
  | cons c p =>
    have hp : ∀ x ∈ p, x ≠ 0 := fun x hx => h0 x (List.mem_cons_of_mem _ hx)
    have tail_nil : peek (c :: p) 1 = 0 → p = [] := fun h => eq_nil_of_peek_zero hp h
    unfold dfxp_offset_metric
    rw [peek_cons_zero]
    by_cases h1 : c = 104
    · rw [if_pos h1]
      rcases offset_result_cases num 3600000 den (c :: p) with h | h
      · exact Or.inl h
      · exact Or.inr ⟨.h, by rw [tail_nil h, h1]; rfl⟩
    rw [if_neg h1]
    by_cases h2 : c = 109
    · rw [if_pos h2]
      by_cases h3 : peek (c :: p) 1 = 115
      · rw [if_pos h3]
        cases p with
        | nil => exact absurd h3 (by simp [peek])
        | cons d p =>
          have hd : d = 115 := h3
          have hp2 : ∀ x ∈ p, x ≠ 0 := fun x hx => hp x (List.mem_cons_of_mem _ hx)
          rcases offset_result_cases num 1 den (List.drop 1 (c :: d :: p)) with h | h
          · exact Or.inl h
          · have : p = [] := eq_nil_of_peek_zero hp2 h
            exact Or.inr ⟨.ms, by rw [this, h2, hd]; rfl⟩
      · rw [if_neg h3]
        rcases offset_result_cases num 60000 den (c :: p) with h | h
        · exact Or.inl h
        · exact Or.inr ⟨.m, by rw [tail_nil h, h2]; rfl⟩
    rw [if_neg h2]
    by_cases h4 : c = 115
    · rw [if_pos h4]
      rcases offset_result_cases num 1000 den (c :: p) with h | h
      · exact Or.inl h
      · exact Or.inr ⟨.s, by rw [tail_nil h, h4]; rfl⟩
    rw [if_neg h4]
    by_cases h5 : c = 102
    · rw [if_pos h5]
      rcases offset_result_cases num 1000 (mul64 den DFXP_FRAME_RATE) (c :: p) with h | h
      · exact Or.inl h
      · exact Or.inr ⟨.f, by rw [tail_nil h, h5]; rfl⟩
    rw [if_neg h5]
    exact Or.inl rfl

theorem offset_time_cases (num : Int) (p : List Nat) (h0 : ∀ c ∈ p, c ≠ 0) :
    dfxp_offset_time num p = some (-1) ∨
      ∃ frac u, (frac = [] ∨ IsDigits frac) ∧
        p = (if frac = [] then [] else 46 :: frac) ++ Metric.bytes u := by
  unfold dfxp_offset_time
  by_cases h1 : peek p 0 = 46
  · rw [if_pos h1]
    cases p with
    | nil => exact absurd h1 (by simp [peek])
    | cons c p =>
      have hc : c = 46 := h1
      have hp : ∀ x ∈ p, x ≠ 0 := fun x hx => h0 x (List.mem_cons_of_mem _ hx)
      simp only [List.drop_succ_cons, List.drop_zero]
      by_cases hd : isdigit (peek p 0) = true
      · obtain ⟨ds, rest, e1, e2, _, e4⟩ := scan_fraction_split num 1 p hd
        simp only [hd, Bool.not_true, Bool.false_eq_true, if_false, e4]
        have hrest : ∀ x ∈ rest, x ≠ 0 := fun x hx => hp x (by rw [e1]; simp [hx])
        rcases offset_metric_cases (scan_fraction num 1 p).1 (scan_fraction num 1 p).2.1 rest hrest
          with h | ⟨u, hu⟩
        · exact Or.inl h
        · exact Or.inr ⟨ds, u, Or.inr e2, by rw [if_neg e2.1, hc, e1, hu]; rfl⟩
      · simp [hd]
  · rw [if_neg h1]
    rcases offset_metric_cases num 1 p h0 with h | ⟨u, hu⟩
    · exact Or.inl h
    · exact Or.inr ⟨[], u, Or.inl rfl, by simpa using hu⟩

theorem clock_time_cases (num : Int) (p : List Nat) (h0 : ∀ c ∈ p, c ≠ 0) :
    dfxp_clock_time num p = some (-1) ∨
      ∃ m1 m2 s1 s2 suffix, IsDigits [m1, m2] ∧ IsDigits [s1, s2] ∧
        (suffix = [] ∨ (∃ F, IsDigits F ∧ suffix = 46 :: F) ∨
          (∃ FF, IsDigits FF ∧ suffix = 58 :: FF)) ∧
        p = m1 :: m2 :: 58 :: s1 :: s2 :: suffix := by
  rcases p with _ | ⟨m1, _ | ⟨m2, _ | ⟨c, _ | ⟨s1, _ | ⟨s2, suffix⟩⟩⟩⟩⟩
  · exact Or.inl (by simp [dfxp_clock_time, peek, isdigit])
  · exact Or.inl (by simp [dfxp_clock_time, peek, isdigit])
  · exact Or.inl (by simp [dfxp_clock_time, peek, isdigit])
  · exact Or.inl (by simp [dfxp_clock_time, peek, isdigit])
  · exact Or.inl (by simp [dfxp_clock_time, peek, isdigit])
  have hs : ∀ x ∈ suffix, x ≠ 0 := fun x hx => h0 x (by simp [hx])
  unfold dfxp_clock_time
  simp only [peek, List.getD_cons_zero, List.getD_cons_succ, List.drop_succ_cons, List.drop_zero]
  by_cases hg : (!isdigit m1 || !isdigit m2 || c != 58 || !isdigit s1 || !isdigit s2) = true
  · exact Or.inl (if_pos hg)
  rw [if_neg hg]
  simp only [Bool.or_eq_true, Bool.not_eq_true', bne_iff_ne, ne_eq, not_or, Bool.not_eq_false,
    Decidable.not_not] at hg
  obtain ⟨⟨⟨⟨g1, g2⟩, g3⟩, g4⟩, g5⟩ := hg
  have hM : IsDigits [m1, m2] := ⟨by simp, by simp [g1, g2]⟩
  have hS : IsDigits [s1, s2] := ⟨by simp, by simp [g4, g5]⟩
  subst g3
  show (if peek suffix 0 = 0 then _ else _) = _ ∨ _
  by_cases e0 : peek suffix 0 = 0
  · exact Or.inr ⟨m1, m2, s1, s2, suffix, hM, hS, Or.inl (eq_nil_of_peek_zero hs e0), rfl⟩
  rw [if_neg e0]
  cases suffix with
  | nil => exact absurd rfl e0
  | cons d q =>
    have hq : ∀ x ∈ q, x ≠ 0 := fun x hx => hs x (List.mem_cons_of_mem _ hx)
    simp only [List.getD_cons_zero, List.drop_succ_cons, List.drop_zero]
    by_cases e1 : d = 46
    · rw [if_pos e1]
      by_cases hd : isdigit (q.getD 0 0) = true
      · simp only [hd, Bool.not_true, Bool.false_eq_true, if_false]
        obtain ⟨ds, rest, a1, a2, _, a4⟩ := scan_fraction_split
          (add64 (add64 (mul64 num 3600) ((digitVal m1 * 10 + digitVal m2) * 60))
            (digitVal s1 * 10 + digitVal s2)) 1 q (show isdigit (peek q 0) = true from hd)
        rw [a4]
        by_cases hr : rest.getD 0 0 = 0
        · have hrest : ∀ x ∈ rest, x ≠ 0 := fun x hx => hq x (by rw [a1]; simp [hx])
          have : rest = [] := eq_nil_of_peek_zero hrest hr
          rw [this, List.append_nil] at a1
          exact Or.inr ⟨m1, m2, s1, s2, d :: q, hM, hS,
            Or.inr (Or.inl ⟨ds, a2, by rw [e1, a1]⟩), rfl⟩
        · exact Or.inl (if_pos hr)
      · have hd1 : isdigit (q.getD 0 0) = false := by simpa using hd
        exact Or.inl (by rw [hd1]; rfl)
    rw [if_neg e1]
    by_cases e2 : d = 58
    · rw [if_pos e2]
      by_cases hd : isdigit (q.getD 0 0) = true
      · simp only [hd, Bool.not_true, Bool.false_eq_true, if_false]
        obtain ⟨ds, rest, a1, a2, _, a4⟩ := scan_digits_split 0 q (show isdigit (peek q 0) = true from hd)
        rw [a4]
        by_cases hr : rest.getD 0 0 = 0
        · have hrest : ∀ x ∈ rest, x ≠ 0 := fun x hx => hq x (by rw [a1]; simp [hx])
          have : rest = [] := eq_nil_of_peek_zero hrest hr
          rw [this, List.append_nil] at a1
          exact Or.inr ⟨m1, m2, s1, s2, d :: q, hM, hS,
            Or.inr (Or.inr ⟨ds, a2, by rw [e2, a1]⟩), rfl⟩
        · exact Or.inl (if_pos hr)
      · have hd1 : isdigit (q.getD 0 0) = false := by simpa using hd
        exact Or.inl (by rw [hd1]; rfl)
    rw [if_neg e2]
    exact Or.inl rfl

/-- C3: `dfxp_parse_timestamp` returns `-1` for every NUL-terminated string that matches
neither the clock-form grammar nor the offset-form grammar. -/
theorem dfxp_parse_timestamp_rejects (s : List Nat) (h0 : ∀ c ∈ s, c ≠ 0)
    (hc : ¬ ClockForm s) (ho : ¬ OffsetForm s) :
    dfxp_parse_timestamp s = some (-1) := by
  unfold dfxp_parse_timestamp
  by_cases hd : isdigit (peek s 0) = true
  · simp only [hd, Bool.not_true, Bool.false_eq_true, if_false]
    obtain ⟨ds, rest, a1, a2, a3, a4⟩ := scan_digits_split 0 s hd
    have hrest : ∀ x ∈ rest, x ≠ 0 := fun x hx => h0 x (by rw [a1]; simp [hx])
    rw [a4]
    by_cases h58 : peek rest 0 = 58
    · rw [if_pos h58]
      cases rest with
      | nil => exact absurd h58 (by simp [peek])
      | cons c p =>
        have hc58 : c = 58 := h58
        have hp : ∀ x ∈ p, x ≠ 0 := fun x hx => hrest x (List.mem_cons_of_mem _ hx)
        rcases clock_time_cases (scan_digits 0 s).1 p hp with h | ⟨m1, m2, s1, s2, suffix, b1, b2, b3, b4⟩
        · exact h
        · exact absurd ⟨ds, m1, m2, s1, s2, suffix, a2, b1, b2, b3, by rw [a1, hc58, b4]; rfl⟩ hc
    · rw [if_neg h58]
      rcases offset_time_cases (scan_digits 0 s).1 rest hrest with h | ⟨frac, u, b1, b2⟩
      · exact h
      · exact absurd ⟨ds, frac, u, a2, b1, by rw [a1, b2]; rfl⟩ ho
  · simp [hd]

/-- Witness for C1: the three clock forms at `1:02:03`, `1:02:03.5` and `00:00:01:15`. -/
theorem dfxp_parse_timestamp_clock_form_witness :
    IsDigits [49] ∧ IsDigits [48, 50] ∧ IsDigits [48, 51] ∧
    dfxp_parse_timestamp (clockString [49] 48 50 48 51 []) = some 3723000 :=
  ⟨by decide, by decide, by decide,
    (dfxp_parse_timestamp_clock_form [49] 48 50 48 51 (by decide) (by decide) (by decide)).1
      (by decide)⟩

/-- C2 (counterexample): `9223372036854775808ms` is an offset-form string (19 digits,
unit `ms`) whose value `floor(num * mul / den)` is `2^63`; `num` overflows and
`dfxp_parse_timestamp` returns `-2^63`. -/
theorem dfxp_parse_timestamp_offset_overflow :
    IsDigits (cstr "9223372036854775808") ∧
    offsetString (cstr "9223372036854775808") [] Metric.ms = cstr "9223372036854775808ms" ∧
    offsetValue (cstr "9223372036854775808") [] Metric.ms = 9223372036854775808 ∧
    dfxp_parse_timestamp (cstr "9223372036854775808ms") = some (-9223372036854775808) ∧
    dfxp_parse_timestamp (offsetString (cstr "9223372036854775808") [] Metric.ms) ≠
      some ((offsetValue (cstr "9223372036854775808") [] Metric.ms : Nat) : Int) := by
  decide

/-- Witness for C2 (amended): `1.5s`, `5ms`, `5m` and `90f`. -/
theorem dfxp_parse_timestamp_offset_form_witness :
    dfxp_parse_timestamp (cstr "1.5s") = some 1500 ∧
    dfxp_parse_timestamp (cstr "5ms") = some 5 ∧
    dfxp_parse_timestamp (cstr "5m") = some 300000 ∧
    dfxp_parse_timestamp (cstr "90f") = some 3000 :=
  ⟨dfxp_parse_timestamp_offset_form [49] [53] Metric.s (by decide) (Or.inr (by decide))
      (by decide) (by decide),
    dfxp_parse_timestamp_offset_form [53] [] Metric.ms (by decide) (Or.inl rfl)
      (by decide) (by decide),
    dfxp_parse_timestamp_offset_form [53] [] Metric.m (by decide) (Or.inl rfl)
      (by decide) (by decide),
    dfxp_parse_timestamp_offset_form [57, 48] [] Metric.f (by decide) (Or.inl rfl)
      (by decide) (by decide)⟩

theorem not_clockForm_nil : ¬ ClockForm [] := by
  rintro ⟨H, m1, m2, s1, s2, suffix, -, -, -, -, h⟩
  cases H <;> simp [clockString] at h

theorem not_offsetForm_nil : ¬ OffsetForm [] := by
  rintro ⟨N, frac, u, hN, -, h⟩
  cases N with
  | nil => exact hN.1 rfl
  | cons c N => simp [offsetString] at h

/-- Witness for C3: the empty string. -/
theorem dfxp_parse_timestamp_rejects_witness :
    (∀ c ∈ ([] : List Nat), c ≠ 0) ∧ ¬ ClockForm [] ∧ ¬ OffsetForm [] ∧
    dfxp_parse_timestamp [] = some (-1) :=
  ⟨by simp, not_clockForm_nil, not_offsetForm_nil,
    dfxp_parse_timestamp_rejects [] (by simp) not_clockForm_nil not_offsetForm_nil⟩
/-! ## Time-range resolver -/

theorem dfxp_parse_timestamp0_nonneg (node : XmlNode) (name : List Nat) (v : Int)
    (h : dfxp_parse_timestamp0 node name = some (true, v)) : 0 ≤ v := by
  unfold dfxp_parse_timestamp0 at h
  split at h
  · cases h
  · split at h
    · cases h
    · rename_i ts _
      simp only [Option.some.injEq, Prod.mk.injEq, decide_eq_true_eq] at h
      rw [← h.2]; exact h.1

theorem dfxp_parse_timestamp0_flag (node : XmlNode) (name : List Nat) (r : Bool) (v : Int)
    (h : dfxp_parse_timestamp0 node name = some (r, v)) : r = decide (0 ≤ v) := by
  unfold dfxp_parse_timestamp0 at h
  split at h
  · simp only [Option.some.injEq, Prod.mk.injEq] at h
    rw [← h.1, ← h.2]; rfl
  · split at h
    · cases h
    · simp only [Option.some.injEq, Prod.mk.injEq] at h
      rw [← h.1, ← h.2]

theorem pf_step_stopped (P : media_parse_params_t) (s : pf_state)
    (h : s.out.control ≠ .running) : pf_step P s = s := by
  unfold pf_step
  cases hc : s.out.control with
  | running => exact absurd hc h
  | returned rc => rfl
  | crashed => rfl

theorem pf_run_stopped (P : media_parse_params_t) (n : Nat) (s : pf_state)
    (h : s.out.control ≠ .running) : pf_run P n s = s := by
  induction n with
  | zero => rfl
  | succ n ih => rw [pf_run, pf_step_stopped P s h, ih]

theorem pf_run_add (P : media_parse_params_t) (a b : Nat) (s : pf_state) :
    pf_run P (a + b) s = pf_run P b (pf_run P a s) := by
  induction a generalizing s with
  | zero => simp [pf_run]
  | succ a ih => rw [Nat.succ_add, pf_run, pf_run, ih]

theorem pf_fold_stopped (P : media_parse_params_t) (vs : List pf_visit) (q : pf_output)
    (h : q.control ≠ .running) : pf_fold P vs q = q := by
  cases vs with
  | nil => rfl
  | cons v vs =>
    unfold pf_fold
    cases hc : q.control with
    | running => exact absurd hc h
    | returned rc => rfl
    | crashed => rfl

theorem pf_fold_append (P : media_parse_params_t) (vs ws : List pf_visit) (q : pf_output) :
    pf_fold P (vs ++ ws) q = pf_fold P ws (pf_fold P vs q) := by
  induction vs generalizing q with
  | nil => rfl
  | cons v vs ih =>
    rw [List.cons_append]
    by_cases hq : q.control = .running
    · simp only [pf_fold, hq]; exact ih _
    · rw [pf_fold_stopped P _ q hq, pf_fold_stopped P _ q hq, pf_fold_stopped P _ q hq]

theorem pf_step_pop (P : media_parse_params_t) (e : pf_entry) (S : List pf_entry) (sty : style)
    (ld : Option (Nat × XmlNode)) (q : pf_output) (hq : q.control = .running) :
    pf_step P ⟨[], e :: S, sty, ld, q⟩ = ⟨e.node.tail, S, e.style, pf_pop_last_div ld S.length, q⟩ := by
  simp [pf_step, hq]

theorem pf_step_descend (P : media_parse_params_t) (name : List Nat) (props : List XmlAttr)
    (children next : List XmlNode) (S : List pf_entry) (sty : style)
    (ld : Option (Nat × XmlNode)) (q : pf_output) (hq : q.control = .running)
    (hp : vod_streq name DFXP_ELEMENT_P = false)
    (hd : (children.isEmpty || S.length == DFXP_MAX_STACK_DEPTH) = false) :
    pf_step P ⟨.element name props children :: next, S, sty, ld, q⟩ =
      ⟨children,
        ⟨.element name props children :: next,
          pf_node_style (.element name props children) (pf_parent_style S) sty⟩ :: S,
        pf_node_style (.element name props children) (pf_parent_style S) sty,
        if vod_streq name DFXP_ELEMENT_DIV then some (S.length, .element name props children)
        else ld, q⟩ := by
  simp [pf_step, hq, XmlNode.type, XmlNode.name, XmlNode.children, hp, hd]

theorem pf_step_skip (P : media_parse_params_t) (name : List Nat) (props : List XmlAttr)
    (children next : List XmlNode) (S : List pf_entry) (sty : style)
    (ld : Option (Nat × XmlNode)) (q : pf_output) (hq : q.control = .running)
    (hp : vod_streq name DFXP_ELEMENT_P = false)
    (hd : (children.isEmpty || S.length == DFXP_MAX_STACK_DEPTH) = true) :
    pf_step P ⟨.element name props children :: next, S, sty, ld, q⟩ =
      ⟨next, S, pf_node_style (.element name props children) (pf_parent_style S) sty, ld, q⟩ := by
  simp [pf_step, hq, XmlNode.type, XmlNode.name, XmlNode.children, hp, hd]

theorem pf_step_p (P : media_parse_params_t) (name : List Nat) (props : List XmlAttr)
    (children next : List XmlNode) (S : List pf_entry) (sty : style)
    (ld : Option (Nat × XmlNode)) (q : pf_output) (hq : q.control = .running)
    (hp : vod_streq name DFXP_ELEMENT_P = true) :
    pf_step P ⟨.element name props children :: next, S, sty, ld, q⟩ =
      ⟨next, S, pf_node_style (.element name props children) (pf_parent_style S) sty, ld,
        dfxp_handle_p P (.element name props children)
          (pf_node_style (.element name props children) (pf_parent_style S) sty)
          (ld.map Prod.snd) q⟩ := by
  simp [pf_step, hq, XmlNode.type, XmlNode.name, hp]

theorem pf_run_one (P : media_parse_params_t) (s : pf_state) : pf_run P 1 s = pf_step P s := rfl

mutual
theorem pf_run_node (P : media_parse_params_t) (node : XmlNode) (next : List XmlNode)
    (S : List pf_entry) (sty : style) (ld : Option (Nat × XmlNode)) (q : pf_output) :
    PfReach P (pf_cost_node S.length node) ⟨node :: next, S, sty, ld, q⟩ next
      (pf_visits_node S.length (pf_parent_style S) node (sty, ld)) := by
  by_cases hq : q.control = .running
  · cases node with
    | text c =>
      refine ⟨?_, fun _ => ?_⟩ <;>
        simp [pf_cost_node, pf_visits_node, pf_run, pf_step, hq, XmlNode.type, pf_fold]
    | cdata c =>
      refine ⟨?_, fun _ => ?_⟩ <;>
        simp [pf_cost_node, pf_visits_node, pf_run, pf_step, hq, XmlNode.type, pf_fold]
    | other =>
      refine ⟨?_, fun _ => ?_⟩ <;>
        simp [pf_cost_node, pf_visits_node, pf_run, pf_step, hq, XmlNode.type, pf_fold]
    | element name props children =>
      cases hp : vod_streq name DFXP_ELEMENT_P with
      | true =>
        have hs := pf_step_p P name props children next S sty ld q hq hp
        refine ⟨?_, fun _ => ?_⟩ <;>
          simp [pf_cost_node, pf_visits_node, hp, pf_run_one, hs, pf_fold, hq]
      | false =>
        cases hd : (children.isEmpty || S.length == DFXP_MAX_STACK_DEPTH) with
        | true =>
          have hs := pf_step_skip P name props children next S sty ld q hq hp hd
          refine ⟨?_, fun _ => ?_⟩ <;>
            simp [pf_cost_node, pf_visits_node, hp, hd, pf_run_one, hs, pf_fold]
        | false =>
          have hs := pf_step_descend P name props children next S sty ld q hq hp hd
          have ih := pf_run_nodes P children
            (⟨.element name props children :: next,
              pf_node_style (.element name props children) (pf_parent_style S) sty⟩ :: S)
            (pf_node_style (.element name props children) (pf_parent_style S) sty)
            (if vod_streq name DFXP_ELEMENT_DIV then
              some (S.length, .element name props children) else ld) q
          have hcost : pf_cost_node S.length (.element name props children) =
              1 + pf_cost_nodes (S.length + 1) children + 1 := by
            simp [pf_cost_node, hp, hd]
          have hvis : pf_visits_node S.length (pf_parent_style S)
              (.element name props children) (sty, ld) =
              ((pf_visits_nodes (S.length + 1)
                  (some (pf_node_style (.element name props children) (pf_parent_style S) sty))
                  children
                  (pf_node_style (.element name props children) (pf_parent_style S) sty,
                    if vod_streq name DFXP_ELEMENT_DIV then
                      some (S.length, .element name props children) else ld)).1,
                (pf_node_style (.element name props children) (pf_parent_style S) sty,
                  pf_pop_last_div (pf_visits_nodes (S.length + 1)
                  (some (pf_node_style (.element name props children) (pf_parent_style S) sty))
                  children
                  (pf_node_style (.element name props children) (pf_parent_style S) sty,
                    if vod_streq name DFXP_ELEMENT_DIV then
                      some (S.length, .element name props children) else ld)).2.2 S.length)) := by
            simp [pf_visits_node, hp, hd]
          rw [hcost, hvis]
          have hpar : pf_parent_style (⟨.element name props children :: next,
              pf_node_style (.element name props children) (pf_parent_style S) sty⟩ :: S) =
              some (pf_node_style (.element name props children) (pf_parent_style S) sty) := rfl
          rw [hpar, List.length_cons] at ih
          generalize pf_node_style (.element name props children) (pf_parent_style S) sty
            = style1 at hs ih ⊢
          generalize (if vod_streq name DFXP_ELEMENT_DIV then
              some (S.length, XmlNode.element name props children) else ld) = ld1 at hs ih ⊢
          generalize pf_visits_nodes (S.length + 1) (some style1) children (style1, ld1)
            = r at ih ⊢
          obtain ⟨ih1, ih2⟩ := ih
          unfold PfReach
          have hs1 : pf_run P 1 ⟨.element name props children :: next, S, sty, ld, q⟩ = _ := hs
          rw [pf_run_add, pf_run_add, hs1]
          simp only at ih1 ih2 ⊢
          by_cases hr : (pf_fold P r.1 q).control = .running
          · rw [ih2 hr, pf_run_one, pf_step_pop P _ _ _ _ _ hr]
            exact ⟨rfl, fun _ => rfl⟩
          · rw [pf_run_stopped P 1 _ (by rw [ih1]; exact hr)]
            exact ⟨ih1, fun h => absurd h hr⟩
  · refine ⟨?_, fun h => ?_⟩
    · rw [pf_run_stopped P _ _ hq, pf_fold_stopped P _ _ hq]
    · rw [pf_fold_stopped P _ _ hq] at h; exact absurd h hq
theorem pf_run_nodes (P : media_parse_params_t) (nodes : List XmlNode)
    (S : List pf_entry) (sty : style) (ld : Option (Nat × XmlNode)) (q : pf_output) :
    PfReach P (pf_cost_nodes S.length nodes) ⟨nodes, S, sty, ld, q⟩ []
      (pf_visits_nodes S.length (pf_parent_style S) nodes (sty, ld)) := by
  cases nodes with
  | nil =>
    refine ⟨?_, fun _ => ?_⟩ <;> simp [pf_cost_nodes, pf_visits_nodes, pf_run, pf_fold]
  | cons node next =>
    have h1 := pf_run_node P node next S sty ld q
    have hcost : pf_cost_nodes S.length (node :: next) =
        pf_cost_node S.length node + pf_cost_nodes S.length next := by
      simp [pf_cost_nodes]
    have hvis : pf_visits_nodes S.length (pf_parent_style S) (node :: next) (sty, ld) =
        ((pf_visits_node S.length (pf_parent_style S) node (sty, ld)).1 ++
          (pf_visits_nodes S.length (pf_parent_style S) next
            (pf_visits_node S.length (pf_parent_style S) node (sty, ld)).2).1,
         (pf_visits_nodes S.length (pf_parent_style S) next
            (pf_visits_node S.length (pf_parent_style S) node (sty, ld)).2).2) := by
      simp [pf_visits_nodes]
    rw [hcost, hvis, PfReach, pf_run_add]
    simp only [pf_fold_append]
    obtain ⟨a1, a2⟩ := h1
    by_cases hr : (pf_fold P (pf_visits_node S.length (pf_parent_style S) node (sty, ld)).1
        q).control = .running
    · have h2 := pf_run_nodes P next S
        (pf_visits_node S.length (pf_parent_style S) node (sty, ld)).2.1
        (pf_visits_node S.length (pf_parent_style S) node (sty, ld)).2.2
        (pf_fold P (pf_visits_node S.length (pf_parent_style S) node (sty, ld)).1 q)
      rw [a2 hr]
      exact h2
    · rw [pf_run_stopped P _ _ (by rw [a1]; exact hr)]
      refine ⟨?_, fun h => ?_⟩
      · rw [a1, pf_fold_stopped P _ _ hr]
      · rw [pf_fold_stopped P _ _ hr] at h; exact absurd h hr
end

mutual
theorem pf_cost_node_le (depth : Nat) (node : XmlNode) :
    pf_cost_node depth node ≤ 2 * xml_node_count node := by
  cases node with
  | text c => simp [pf_cost_node, xml_node_count]
  | cdata c => simp [pf_cost_node, xml_node_count]
  | other => simp [pf_cost_node, xml_node_count]
  | element name props children =>
    have ih := pf_cost_nodes_le (depth + 1) children
    simp only [pf_cost_node, xml_node_count]
    split
    · split
      · omega
      · omega
    · omega
theorem pf_cost_nodes_le (depth : Nat) (nodes : List XmlNode) :
    pf_cost_nodes depth nodes ≤ 2 * xml_nodes_count nodes := by
  cases nodes with
  | nil => simp [pf_cost_nodes]
  | cons node next =>
    have h1 := pf_cost_node_le depth node
    have h2 := pf_cost_nodes_le depth next
    simp only [pf_cost_nodes, xml_nodes_count]
    omega
end

theorem xml_root_count_le (doc : List XmlNode) :
    xml_nodes_count (xmlDocGetRootElement doc) ≤ xml_nodes_count doc := by
  induction doc with
  | nil => exact Nat.le_refl _
  | cons n ns ih =>
    simp only [xmlDocGetRootElement]
    split
    · exact Nat.le_refl _
    · simp only [xml_nodes_count]; omega

theorem dfxp_finish_control (q : pf_output) : (dfxp_finish q).control = .returned .VOD_OK := by
  unfold dfxp_finish
  cases q.cur_frame <;> rfl

theorem dfxp_parse_frames_eq (doc : List XmlNode) (P : media_parse_params_t)
    (hF : P.frames_all = true) : dfxp_parse_frames doc P = pf_result doc P := by
  have hreach := pf_run_nodes P (xmlDocGetRootElement doc) [] pf_zero_style none (pf_init doc P).out
  obtain ⟨h1, h2⟩ := hreach
  have hle : pf_cost_nodes 0 (xmlDocGetRootElement doc) + 1 ≤ 2 * xml_nodes_count doc + 1 := by
    have := pf_cost_nodes_le 0 (xmlDocGetRootElement doc)
    have := xml_root_count_le doc
    omega
  obtain ⟨m, hm⟩ := Nat.exists_eq_add_of_le hle
  have hinit : pf_init doc P = ⟨xmlDocGetRootElement doc, [], pf_zero_style, none,
      (pf_init doc P).out⟩ := rfl
  unfold dfxp_parse_frames pf_result
  simp only [hF, Bool.not_true, Bool.false_eq_true, if_false]
  rw [hm, pf_run_add, pf_run_add, hinit]
  simp only [List.length_nil, pf_parent_style, List.head?_nil, Option.map_none'] at h1 h2
  change (pf_run P m (pf_run P 1 (pf_run P (pf_cost_nodes 0 (xmlDocGetRootElement doc))
    ⟨xmlDocGetRootElement doc, [], pf_zero_style, none, (pf_init doc P).out⟩))).out = _
  have hv : pf_visits doc =
      (pf_visits_nodes 0 none (xmlDocGetRootElement doc) (pf_zero_style, none)).1 := rfl
  rw [hv]
  generalize pf_visits_nodes 0 none (xmlDocGetRootElement doc) (pf_zero_style, none) = r at h1 h2 ⊢
  cases hc : (pf_fold P r.1 (pf_init doc P).out).control with
  | running =>
    rw [h2 hc, pf_run_one]
    have hstep : pf_step P ⟨[], [], r.2.1, r.2.2, pf_fold P r.1 (pf_init doc P).out⟩ =
        ⟨[], [], r.2.1, r.2.2, dfxp_finish (pf_fold P r.1 (pf_init doc P).out)⟩ := by
      simp [pf_step, hc]
    rw [hstep, pf_run_stopped P m _ (by simp [dfxp_finish_control])]
  | returned rc =>
    have hne : (pf_run P (pf_cost_nodes 0 (xmlDocGetRootElement doc))
        ⟨xmlDocGetRootElement doc, [], pf_zero_style, none, (pf_init doc P).out⟩).out.control
        ≠ .running := by rw [h1, hc]; simp
    rw [pf_run_stopped P 1 _ hne, pf_run_stopped P m _ hne, h1]
  | crashed =>
    have hne : (pf_run P (pf_cost_nodes 0 (xmlDocGetRootElement doc))
        ⟨xmlDocGetRootElement doc, [], pf_zero_style, none, (pf_init doc P).out⟩).out.control
        ≠ .running := by rw [h1, hc]; simp
    rw [pf_run_stopped P 1 _ hne, pf_run_stopped P m _ hne, h1]

theorem pf_result_control (doc : List XmlNode) (P : media_parse_params_t) :
    (pf_result doc P).control ≠ .running := by
  unfold pf_result
  cases hc : (pf_fold P (pf_visits doc) (pf_init doc P).out).control with
  | running => simp [dfxp_finish_control]
  | returned rc => simp [hc]
  | crashed => simp [hc]

/-- The loop of `dfxp_parse_frames` is left on every document. -/
theorem dfxp_parse_frames_terminates (doc : List XmlNode) (P : media_parse_params_t) :
    (dfxp_parse_frames doc P).control ≠ .running := by
  by_cases hF : P.frames_all = true
  · rw [dfxp_parse_frames_eq doc P hF]; exact pf_result_control doc P
  · simp [dfxp_parse_frames, hF]

theorem dfxp_extract_time_flag_clear (node : XmlNode) (t t1 : dfxp_timestamp_t) :
    dfxp_extract_time node t false = dfxp_extract_time node t1 false := by
  unfold dfxp_extract_time
  cases dfxp_parse_timestamp0 node DFXP_ATTR_END with
  | none => rfl
  | some r1 =>
    obtain ⟨r1, e⟩ := r1
    simp only [Bool.and_false, Bool.false_eq_true, if_false]

theorem dfxp_handle_p_eq (P : media_parse_params_t) (v : pf_visit) (q : pf_output) :
    dfxp_handle_p P v.node v.style v.last_div q = pf_apply P (pf_classify P v) q := by
  unfold dfxp_handle_p pf_classify pf_resolve
  rw [dfxp_extract_time_flag_clear v.node q.t ⟨0, 0⟩]
  have key : ∀ t, dfxp_filter_cue P v.node v.style t q =
      pf_apply P (if toU64 t.end_time < pf_start P then .before t
        else if t.start_time ≥ t.end_time then .not_positive t
        else
          match dfxp_get_frame_body v.node.children v.style with
          | (.VOD_NOT_FOUND, _) => .no_body (dfxp_clip P t)
          | (.VOD_OK, text) => .cue ⟨dfxp_clip P t, text⟩
          | (rc, _) => .failed rc (dfxp_clip P t)) q := by
    intro t
    unfold dfxp_filter_cue
    by_cases h1 : toU64 t.end_time < pf_start P
    · simp only [h1, if_true]; rfl
    · simp only [h1, if_false]
      by_cases h2 : t.start_time ≥ t.end_time
      · simp only [h2, if_true]; rfl
      · simp only [h2, if_false]
        rcases hb : dfxp_get_frame_body v.node.children v.style with ⟨rc, text⟩
        cases rc <;> rfl
  cases h : dfxp_extract_time v.node ⟨0, 0⟩ false with
  | none => rfl
  | some r =>
    obtain ⟨ok, t1⟩ := r
    cases ok with
    | true => exact key t1
    | false =>
      cases hl : v.last_div with
      | none => rfl
      | some div =>
        simp only
        cases h2 : dfxp_extract_time div t1 false with
        | none => rfl
        | some r2 =>
          obtain ⟨ok2, t2⟩ := r2
          cases ok2 with
          | true => exact key t2
          | false => rfl

theorem pf_classify_failed_ne (P : media_parse_params_t) (v : pf_visit) (rc : vod_status_t)
    (t : dfxp_timestamp_t) (h : pf_classify P v = .failed rc t) : rc ≠ .VOD_OK := by
  unfold pf_classify at h
  split at h
  · cases h
  · cases h
  · split at h
    · cases h
    · split at h
      · cases h
      · rcases hb : dfxp_get_frame_body v.node.children v.style with ⟨rc1, text⟩
        rw [hb] at h
        cases rc1 <;> simp at h <;> (intro h2; rw [← h.1] at h2; cases h2)

theorem gap_frames_snoc (pre : List pf_cue) (c : pf_cue) :
    gap_frames (pre ++ [c]) = gap_frames pre ++
      (pre.getLast?.map (fun l =>
        { pf_frame_of l with duration := sub64 c.t.start_time l.t.start_time })).toList := by
  induction pre with
  | nil => rfl
  | cons a pre ih =>
    cases pre with
    | nil => rfl
    | cons b pre =>
      have h1 : gap_frames ((a :: b :: pre) ++ [c]) =
          { pf_frame_of a with duration := sub64 b.t.start_time a.t.start_time } ::
            gap_frames ((b :: pre) ++ [c]) := rfl
      have h2 : gap_frames (a :: b :: pre) =
          { pf_frame_of a with duration := sub64 b.t.start_time a.t.start_time } ::
            gap_frames (b :: pre) := rfl
      rw [h1, h2, ih, List.getLast?_cons_cons]
      rfl

theorem gap_frames_append_cons (pre : List pf_cue) (c : pf_cue) (rest : List pf_cue) :
    gap_frames (pre ++ c :: rest) = gap_frames (pre ++ [c]) ++ gap_frames (c :: rest) := by
  induction pre with
  | nil => rfl
  | cons a pre ih =>
    cases pre with
    | nil => rfl
    | cons b pre =>
      have h1 : gap_frames ((a :: b :: pre) ++ c :: rest) =
          { pf_frame_of a with duration := sub64 b.t.start_time a.t.start_time } ::
            gap_frames ((b :: pre) ++ c :: rest) := rfl
      have h2 : gap_frames ((a :: b :: pre) ++ [c]) =
          { pf_frame_of a with duration := sub64 b.t.start_time a.t.start_time } ::
            gap_frames ((b :: pre) ++ [c]) := rfl
      rw [h1, h2, ih]
      rfl

theorem gap_frames_length (l : List pf_cue) : (gap_frames l).length = l.length - 1 := by
  induction l with
  | nil => rfl
  | cons a l ih =>
    cases l with
    | nil => rfl
    | cons b l =>
      have h : gap_frames (a :: b :: l) =
          { pf_frame_of a with duration := sub64 b.t.start_time a.t.start_time } ::
            gap_frames (b :: l) := rfl
      rw [h, List.length_cons, ih]
      simp

theorem PfInv.init (doc : List XmlNode) (P : media_parse_params_t) :
    PfInv P [] 0 (pf_init doc P).out :=
  { running := rfl, frames := rfl, cur := rfl, last_start := fun _ h => (by cases h),
    first_offset := fun _ h => (by cases h), index := rfl }

/-- Handling a `p` element that does not leave the loop keeps the loop invariant. -/
theorem pf_apply_no_stop (P : media_parse_params_t) (pre : List pf_cue) (nb : Nat)
    (q : pf_output) (c : pf_class) (hinv : PfInv P pre nb q) (hs : pf_stops P c = false) :
    PfInv P (pre ++ c.cue?.toList)
      (nb + (if c.is_before = true then 1 else 0)) (pf_apply P c q) := by
  obtain ⟨h1, h2, h3, h4, h5, h6⟩ := hinv
  cases c with
  | crash => cases hs
  | failed rc t => cases hs
  | unresolved t => exact ⟨h1, by simpa [pf_class.cue?] using h2, by simpa [pf_class.cue?] using h3,
      by simpa [pf_class.cue?] using h4, by simpa [pf_class.cue?] using h5, h6⟩
  | not_positive t => exact ⟨h1, by simpa [pf_class.cue?] using h2, by simpa [pf_class.cue?] using h3,
      by simpa [pf_class.cue?] using h4, by simpa [pf_class.cue?] using h5, h6⟩
  | no_body t => exact ⟨h1, by simpa [pf_class.cue?] using h2, by simpa [pf_class.cue?] using h3,
      by simpa [pf_class.cue?] using h4, by simpa [pf_class.cue?] using h5, h6⟩
  | before t =>
    exact ⟨h1, by simpa [pf_class.cue?] using h2, by simpa [pf_class.cue?] using h3,
      by simpa [pf_class.cue?] using h4, by simpa [pf_class.cue?] using h5,
      by simp [pf_apply, h6, Nat.add_assoc, pf_class.is_before]⟩
  | cue c =>
    have hend : ¬ (toU64 c.t.start_time ≥ pf_end P) := by
      simpa [pf_stops, cue_at_end] using hs
    simp only [pf_class.cue?, Option.toList_some, Nat.add_zero]
    refine ⟨?_, ?_, ?_, ?_, ?_, ?_⟩
    · simp [pf_apply, dfxp_add_frame, hend, h1]
    · simp only [pf_apply, dfxp_add_frame, hend, if_false, h2, h3, gap_frames_snoc]
      congr 1
      cases hl : pre.getLast? with
      | none => rfl
      | some l => simp [h4 l hl]
    · simp [pf_apply, dfxp_add_frame, hend, pf_frame_of]
    · intro c1 hc1
      have : c1 = c := by simpa using hc1.symm
      subst this
      simp [pf_apply, dfxp_add_frame, hend]
    · intro c1 hc1
      cases pre with
      | nil =>
        have : c1 = c := by simpa using hc1.symm
        subst this
        simp only [List.getLast?_nil, Option.map_none'] at h3
        simp [pf_apply, dfxp_add_frame, hend, h3]
      | cons a pre =>
        have : c1 = a := by simpa using hc1.symm
        subst this
        have hcur : q.cur_frame = some (pf_frame_of ((c1 :: pre).getLast (by simp))) := by
          rw [h3, List.getLast?_eq_getLast _ (by simp)]; rfl
        simp [pf_apply, dfxp_add_frame, hend, hcur, h5 c1 rfl]
    · simp only [pf_apply, dfxp_add_frame, hend, if_false]
      cases q.cur_frame <;> exact h6


theorem pf_fold_cons_running (P : media_parse_params_t) (v : pf_visit) (vs : List pf_visit)
    (q : pf_output) (hq : q.control = .running) :
    pf_fold P (v :: vs) q = pf_fold P vs (pf_apply P (pf_classify P v) q) := by
  simp only [pf_fold, hq, dfxp_handle_p_eq]

theorem pf_is_before_eq (P : media_parse_params_t) (v : pf_visit) :
    (pf_classify P v).is_before = pf_is_before P v := by
  unfold pf_classify pf_is_before
  rcases hr : pf_resolve v with _ | ⟨ok, t⟩
  · rfl
  · cases ok with
    | false => rfl
    | true =>
      simp only
      by_cases h1 : toU64 t.end_time < pf_start P
      · simp [h1, pf_class.is_before]
      · simp only [h1, if_false, decide_False]
        by_cases h2 : t.start_time ≥ t.end_time
        · simp [h2, pf_class.is_before]
        · simp only [h2, if_false]
          rcases dfxp_get_frame_body v.node.children v.style with ⟨rc, text⟩
          cases rc <;> rfl

theorem pf_is_emitted_eq (P : media_parse_params_t) (v : pf_visit)
    (hs : pf_stops P (pf_classify P v) = false) :
    (pf_classify P v).cue?.toList.length = if pf_is_emitted P v = true then 1 else 0 := by
  unfold pf_is_emitted
  cases hc : pf_classify P v with
  | cue c =>
    rw [hc] at hs
    have : cue_at_end P c = false := hs
    simp [pf_class.cue?, this]
  | crash => rfl
  | unresolved t => rfl
  | before t => rfl
  | not_positive t => rfl
  | no_body t => rfl
  | failed rc t => rfl

theorem pf_fold_no_stop (P : media_parse_params_t) (vs : List pf_visit) (pre : List pf_cue)
    (nb : Nat) (q : pf_output) (hinv : PfInv P pre nb q)
    (hs : ∀ v ∈ vs, pf_stops P (pf_classify P v) = false) :
    PfInv P (pre ++ vs.filterMap (fun v => (pf_classify P v).cue?))
      (nb + (vs.filter (pf_is_before P)).length) (pf_fold P vs q) := by
  induction vs generalizing pre nb q with
  | nil => simpa [pf_fold] using hinv
  | cons v vs ih =>
    have h1 := pf_apply_no_stop P pre nb q (pf_classify P v) hinv (hs v (List.mem_cons_self _ _))
    have h2 := ih _ _ _ h1 (fun x hx => hs x (List.mem_cons_of_mem _ hx))
    rw [pf_fold_cons_running P v vs q hinv.running]
    rw [pf_is_before_eq] at h2
    have e1 : pre ++ List.filterMap (fun v => (pf_classify P v).cue?) (v :: vs) =
        pre ++ (pf_classify P v).cue?.toList ++
          List.filterMap (fun v => (pf_classify P v).cue?) vs := by
      rw [List.filterMap_cons]
      cases (pf_classify P v).cue? <;> simp
    have e2 : nb + (List.filter (pf_is_before P) (v :: vs)).length =
        nb + (if pf_is_before P v = true then 1 else 0) +
          (List.filter (pf_is_before P) vs).length := by
      rw [List.filter_cons]
      by_cases hb : pf_is_before P v = true
      · simp [hb]; omega
      · simp [hb]
    rw [e1, e2]
    exact h2

theorem pf_emitted_count (P : media_parse_params_t) (vs : List pf_visit)
    (hs : ∀ v ∈ vs, pf_stops P (pf_classify P v) = false) :
    (vs.filterMap (fun v => (pf_classify P v).cue?)).length =
      (vs.filter (pf_is_emitted P)).length := by
  induction vs with
  | nil => rfl
  | cons v vs ih =>
    have h1 := pf_is_emitted_eq P v (hs v (List.mem_cons_self _ _))
    have h2 := ih (fun x hx => hs x (List.mem_cons_of_mem _ hx))
    rw [List.filterMap_cons, List.filter_cons]
    cases hc : (pf_classify P v).cue? with
    | none =>
      rw [hc] at h1
      have : ¬ pf_is_emitted P v = true := by
        intro h; rw [if_pos h] at h1; simp at h1
      simp [this, h2]
    | some c =>
      rw [hc] at h1
      have : pf_is_emitted P v = true := by
        by_contra h; rw [if_neg h] at h1; simp at h1
      simp [this, h2]

theorem pf_examined_split (P : media_parse_params_t) (vs : List pf_visit) :
    ((∀ v ∈ vs, pf_stops P (pf_classify P v) = false) ∧ pf_examined P vs = vs) ∨
    ∃ a s b, vs = a ++ s :: b ∧ (∀ v ∈ a, pf_stops P (pf_classify P v) = false) ∧
      pf_stops P (pf_classify P s) = true ∧ pf_examined P vs = a ++ [s] := by
  induction vs with
  | nil => exact Or.inl ⟨by simp, rfl⟩
  | cons v vs ih =>
    by_cases hv : pf_stops P (pf_classify P v) = true
    · exact Or.inr ⟨[], v, vs, rfl, by simp, hv, by simp [pf_examined, hv]⟩
    · have hv1 : pf_stops P (pf_classify P v) = false := by simpa using hv
      rcases ih with ⟨h1, h2⟩ | ⟨a, s, b, h1, h2, h3, h4⟩
      · refine Or.inl ⟨?_, by simp [pf_examined, hv1, h2]⟩
        intro x hx
        rcases List.mem_cons.mp hx with hx | hx
        · rw [hx]; exact hv1
        · exact h1 x hx
      · refine Or.inr ⟨v :: a, s, b, by rw [h1]; rfl, ?_, h3, by simp [pf_examined, hv1, h4]⟩
        intro x hx
        rcases List.mem_cons.mp hx with hx | hx
        · rw [hx]; exact hv1
        · exact h2 x hx

theorem pf_apply_stop_control (P : media_parse_params_t) (c : pf_class) (q : pf_output)
    (hs : pf_stops P c = true) : (pf_apply P c q).control ≠ .running := by
  cases c with
  | crash => simp [pf_apply]
  | failed rc t => simp [pf_apply]
  | cue c =>
    have hend : toU64 c.t.start_time ≥ pf_end P := by simpa [pf_stops, cue_at_end] using hs
    simp [pf_apply, dfxp_add_frame, hend]
  | unresolved t => cases hs
  | before t => cases hs
  | not_positive t => cases hs
  | no_body t => cases hs

theorem pf_apply_stop_cue (P : media_parse_params_t) (pre : List pf_cue) (nb : Nat)
    (q : pf_output) (c : pf_cue) (hinv : PfInv P pre nb q) (hend : cue_at_end P c = true) :
    (pf_apply P (.cue c) q).control = .returned .VOD_OK ∧
    (pf_apply P (.cue c) q).all_frames = gap_frames (pre ++ [c]) ∧
    (∀ c0, (pre ++ [c]).head? = some c0 →
      (pf_apply P (.cue c) q).track.first_frame_time_offset = c0.t.start_time) ∧
    (pf_apply P (.cue c) q).track.total_frames_duration =
      sub64 c.t.start_time (pf_apply P (.cue c) q).track.first_frame_time_offset ∧
    (pf_apply P (.cue c) q).track.first_frame_index = P.track.first_frame_index + nb := by
  obtain ⟨h1, h2, h3, h4, h5, h6⟩ := hinv
  have he : toU64 c.t.start_time ≥ pf_end P := by simpa [cue_at_end] using hend
  refine ⟨?_, ?_, ?_, ?_, ?_⟩
  · simp [pf_apply, dfxp_add_frame, he]
  · simp only [pf_apply, dfxp_add_frame, he, if_true, pf_output.all_frames, h2, h3,
      gap_frames_snoc]
    congr 1
    cases hl : pre.getLast? with
    | none => rfl
    | some l => simp [h4 l hl]
  · intro c0 hc0
    cases pre with
    | nil =>
      have : c0 = c := by simpa using hc0.symm
      subst this
      simp only [List.getLast?_nil, Option.map_none'] at h3
      simp [pf_apply, dfxp_add_frame, he, h3]
    | cons a pre =>
      have : c0 = a := by simpa using hc0.symm
      subst this
      have hcur : q.cur_frame = some (pf_frame_of ((c0 :: pre).getLast (by simp))) := by
        rw [h3, List.getLast?_eq_getLast _ (by simp)]; rfl
      simp [pf_apply, dfxp_add_frame, he, hcur, h5 c0 rfl]
  · simp [pf_apply, dfxp_add_frame, he]
  · simp only [pf_apply, dfxp_add_frame, he, if_true]
    cases q.cur_frame <;> exact h6

theorem dfxp_finish_inv (P : media_parse_params_t) (pre : List pf_cue) (nb : Nat)
    (q : pf_output) (hinv : PfInv P pre nb q) :
    (dfxp_finish q).all_frames = gap_frames pre ++
      (pre.getLast?.map (fun c =>
        { pf_frame_of c with duration := sub64 q.t.end_time q.t.start_time })).toList ∧
    (dfxp_finish q).track.first_frame_time_offset = q.track.first_frame_time_offset ∧
    (dfxp_finish q).track.first_frame_index = P.track.first_frame_index + nb := by
  obtain ⟨h1, h2, h3, h4, h5, h6⟩ := hinv
  unfold dfxp_finish
  cases hl : pre.getLast? with
  | none =>
    rw [hl] at h3
    simp only [Option.map_none'] at h3
    simp [h3, pf_output.all_frames, h2, h6]
  | some l =>
    rw [hl] at h3
    simp only [Option.map_some'] at h3
    simp [h3, pf_output.all_frames, h2, h6]

/-- The two ways the loop of `dfxp_parse_frames` ends. -/
theorem pf_outcome (doc : List XmlNode) (P : media_parse_params_t) (hF : P.frames_all = true) :
    ((∀ v ∈ pf_visits doc, pf_stops P (pf_classify P v) = false) ∧
      pf_examined P (pf_visits doc) = pf_visits doc ∧
      ∃ q, PfInv P (pf_cues P doc) ((pf_visits doc).filter (pf_is_before P)).length q ∧
        dfxp_parse_frames doc P = dfxp_finish q) ∨
    ∃ a s b, pf_visits doc = a ++ s :: b ∧
      (∀ v ∈ a, pf_stops P (pf_classify P v) = false) ∧
      pf_stops P (pf_classify P s) = true ∧
      pf_examined P (pf_visits doc) = a ++ [s] ∧
      ∃ q, PfInv P (a.filterMap (fun v => (pf_classify P v).cue?))
          (a.filter (pf_is_before P)).length q ∧
        dfxp_parse_frames doc P = pf_apply P (pf_classify P s) q := by
  rw [dfxp_parse_frames_eq doc P hF]
  unfold pf_result
  rcases pf_examined_split P (pf_visits doc) with ⟨h1, h2⟩ | ⟨a, s, b, h1, h2, h3, h4⟩
  · left
    have hinv := pf_fold_no_stop P (pf_visits doc) [] 0 _ (PfInv.init doc P) h1
    simp only [List.nil_append, Nat.zero_add] at hinv
    refine ⟨h1, h2, _, hinv, ?_⟩
    rw [hinv.running]
  · right
    have hinv := pf_fold_no_stop P a [] 0 _ (PfInv.init doc P) h2
    simp only [List.nil_append, Nat.zero_add] at hinv
    refine ⟨a, s, b, h1, h2, h3, h4, _, hinv, ?_⟩
    have hfold : pf_fold P (pf_visits doc) (pf_init doc P).out =
        pf_apply P (pf_classify P s) (pf_fold P a (pf_init doc P).out) := by
      rw [h1, pf_fold_append, pf_fold_cons_running P s b _ hinv.running]
      exact pf_fold_stopped P b _ (pf_apply_stop_control P _ _ h3)
    rw [hfold]
    have hne := pf_apply_stop_control P (pf_classify P s) (pf_fold P a (pf_init doc P).out) h3
    cases hc : (pf_apply P (pf_classify P s) (pf_fold P a (pf_init doc P).out)).control with
    | running => exact absurd hc hne
    | returned rc => rfl
    | crashed => rfl

theorem gap_frames_getElem? (l : List pf_cue) (i : Nat) (c c1 : pf_cue)
    (h0 : l[i]? = some c) (h1 : l[i + 1]? = some c1) :
    (gap_frames l)[i]? =
      some { pf_frame_of c with duration := sub64 c1.t.start_time c.t.start_time } := by
  induction l generalizing i with
  | nil => simp at h0
  | cons a l ih =>
    cases l with
    | nil => simp at h1
    | cons b l =>
      have h : gap_frames (a :: b :: l) =
          { pf_frame_of a with duration := sub64 b.t.start_time a.t.start_time } ::
            gap_frames (b :: l) := rfl
      rw [h]
      cases i with
      | zero =>
        have e0 : a = c := by simpa using h0
        have e1 : b = c1 := by simpa using h1
        rw [e0, e1]
        simp
      | succ i =>
        rw [List.getElem?_cons_succ] at h0 h1 ⊢
        exact ih i h0 h1

theorem getElem?_of_append_left {α : Type} (A X : List α) (i : Nat) (g : α)
    (h : A[i]? = some g) : (A ++ X)[i]? = some g := by
  have hi : i < A.length := by
    by_contra hn
    rw [List.getElem?_eq_none (by omega)] at h
    cases h
  rw [List.getElem?_append_left hi]
  exact h

theorem pf_cues_split (P : media_parse_params_t) (doc : List XmlNode) (a b : List pf_visit)
    (s : pf_visit) (h : pf_visits doc = a ++ s :: b) :
    pf_cues P doc = a.filterMap (fun v => (pf_classify P v).cue?) ++
      ((pf_classify P s).cue?.toList ++ b.filterMap (fun v => (pf_classify P v).cue?)) := by
  unfold pf_cues
  rw [h, List.filterMap_append, List.filterMap_cons]
  cases (pf_classify P s).cue? <;> simp

/-- When the function returns `VOD_OK` after a `p` element stopped the loop, that
element is a cue at the window end. -/
theorem pf_stop_is_cue (P : media_parse_params_t) (s : pf_visit) (q : pf_output)
    (hs : pf_stops P (pf_classify P s) = true)
    (hOK : (pf_apply P (pf_classify P s) q).control = .returned .VOD_OK) :
    ∃ c, pf_classify P s = .cue c ∧ cue_at_end P c = true := by
  cases hc : pf_classify P s with
  | crash => rw [hc] at hOK; simp [pf_apply] at hOK
  | failed rc t =>
    have hne := pf_classify_failed_ne P s rc t hc
    rw [hc] at hOK
    simp only [pf_apply, pf_control.returned.injEq] at hOK
    exact absurd hOK hne
  | cue c => rw [hc] at hs; exact ⟨c, rfl, hs⟩
  | unresolved t => rw [hc] at hs; cases hs
  | before t => rw [hc] at hs; cases hs
  | not_positive t => rw [hc] at hs; cases hs
  | no_body t => rw [hc] at hs; cases hs

/-- The frames array is the gap-filled frames of the cues, cut short at the cue that
stopped the loop or followed by the last cue's own frame. -/
theorem pf_frames_agree (doc : List XmlNode) (P : media_parse_params_t)
    (hF : P.frames_all = true)
    (hOK : (dfxp_parse_frames doc P).control = .returned .VOD_OK) :
    (∃ X, (dfxp_parse_frames doc P).all_frames = gap_frames (pf_cues P doc) ++ X) ∨
    (∃ X, gap_frames (pf_cues P doc) = (dfxp_parse_frames doc P).all_frames ++ X) := by
  rcases pf_outcome doc P hF with ⟨_, _, q, hinv, hq⟩ | ⟨a, s, b, h1, h2, h3, h4, q, hinv, hq⟩
  · left
    rw [hq]
    exact ⟨_, (dfxp_finish_inv P _ _ q hinv).1⟩
  · right
    rw [hq] at hOK ⊢
    obtain ⟨c, hc, hend⟩ := pf_stop_is_cue P s q h3 hOK
    rw [pf_cues_split P doc a b s h1, hc]
    simp only [pf_class.cue?, Option.toList_some, List.singleton_append]
    rw [gap_frames_append_cons, (pf_apply_stop_cue P _ _ q c hinv hend).2.1]
    exact ⟨_, rfl⟩

/-! ## Frame extractor: sequencing of the frames -/

theorem sub64_exact {a b : Int} (ha0 : 0 ≤ a) (ha : a < 9223372036854775808) (hb0 : 0 ≤ b)
    (hb : b < 9223372036854775808) : sub64 b a = b - a :=
  wrap64_of_range (by omega) (by omega)

theorem dfxp_clamp_range (v hi : Int) (h : 0 ≤ hi) :
    0 ≤ dfxp_clamp v 0 hi ∧ dfxp_clamp v 0 hi ≤ hi := by
  unfold dfxp_clamp
  split
  · exact ⟨Int.le_refl _, h⟩
  · split
    · exact ⟨h, Int.le_refl _⟩
    · constructor <;> omega

theorem toU64_of_nonneg {x : Int} (h0 : 0 ≤ x) (h1 : x < 18446744073709551616) :
    ((toU64 x : Nat) : Int) = x := by
  unfold toU64
  rw [Int.emod_eq_of_lt h0 h1]
  exact Int.toNat_of_nonneg h0

theorem toI64_small {n : Nat} (h : n < 9223372036854775808) : toI64 n = n := wrap64_natCast h

theorem dfxp_clip_range (P : media_parse_params_t) (t : dfxp_timestamp_t)
    (h : pf_clip_to P < 9223372036854775808) :
    0 ≤ (dfxp_clip P t).start_time ∧ (dfxp_clip P t).start_time ≤ pf_clip_to P ∧
    0 ≤ (dfxp_clip P t).end_time ∧ (dfxp_clip P t).end_time ≤ pf_clip_to P := by
  unfold dfxp_clip
  simp only [toI64_small h]
  have h1 := dfxp_clamp_range (toI64 (sub_u64 (toU64 t.start_time) (pf_base_time P)))
    (pf_clip_to P) (by omega)
  have h2 := dfxp_clamp_range (toI64 (sub_u64 (toU64 t.end_time) (pf_base_time P)))
    (pf_clip_to P) (by omega)
  exact ⟨h1.1, h1.2, h2.1, h2.2⟩

theorem pf_classify_cue_clip (P : media_parse_params_t) (v : pf_visit) (c : pf_cue)
    (h : pf_classify P v = .cue c) : ∃ t, c.t = dfxp_clip P t := by
  unfold pf_classify at h
  split at h
  · cases h
  · cases h
  · rename_i t _
    split at h
    · cases h
    · split at h
      · cases h
      · rcases hb : dfxp_get_frame_body v.node.children v.style with ⟨rc, text⟩
        rw [hb] at h
        cases rc <;> simp at h
        exact ⟨t, by rw [← h]⟩

theorem pf_cues_clip (P : media_parse_params_t) (doc : List XmlNode) (c : pf_cue)
    (h : c ∈ pf_cues P doc) : ∃ t, c.t = dfxp_clip P t := by
  unfold pf_cues at h
  obtain ⟨v, _, hv⟩ := List.mem_filterMap.mp h
  cases hc : pf_classify P v with
  | cue c1 =>
    rw [hc] at hv
    have : c1 = c := by simpa [pf_class.cue?] using hv
    rw [← this]
    exact pf_classify_cue_clip P v c1 hc
  | crash => rw [hc] at hv; cases hv
  | unresolved t => rw [hc] at hv; cases hv
  | before t => rw [hc] at hv; cases hv
  | not_positive t => rw [hc] at hv; cases hv
  | no_body t => rw [hc] at hv; cases hv
  | failed rc t => rw [hc] at hv; cases hv

/-- C7: when `dfxp_parse_frames` returns `VOD_OK`, every emitted frame that is followed
by another cue passing all filters has `duration` equal to the clipped start of that
next cue minus its own clipped start (a 64-bit difference, which is the exact
difference when the clip bound is below `2^63`), and `first_frame_time_offset` is the
clipped start of the first such cue. Cues with begin 0s, 2s, 5s and end 1s, 3s, 6s over
the full window yield three frames with durations 2000, 3000, 1000. -/
theorem dfxp_parse_frames_gap_durations (doc : List XmlNode) (P : media_parse_params_t)
    (hF : P.frames_all = true)
    (hOK : (dfxp_parse_frames doc P).control = .returned .VOD_OK) :
    (∀ (i : Nat) (f : input_frame_t) (c c1 : pf_cue),
      (dfxp_parse_frames doc P).all_frames[i]? = some f →
      (pf_cues P doc)[i]? = some c → (pf_cues P doc)[i + 1]? = some c1 →
      f.duration = sub64 c1.t.start_time c.t.start_time ∧
      (pf_clip_to P < 2 ^ 63 → f.duration = c1.t.start_time - c.t.start_time) ∧
      f.pts_delay = sub64 c.t.end_time c.t.start_time ∧
      f.offset = c.text.data ∧ f.size = c.text.len) ∧
    (∀ c, (pf_cues P doc).head? = some c →
      (dfxp_parse_frames doc P).track.first_frame_time_offset = c.t.start_time) ∧
    (dfxp_parse_frames example_three_cues example_full_window).control = .returned .VOD_OK ∧
    (dfxp_parse_frames example_three_cues example_full_window).all_frames.map
      (fun f => f.duration) = [2000, 3000, 1000] := by
  refine ⟨?_, ?_, by decide, by decide⟩
  · intro i f c c1 hf hc hc1
    have hg := gap_frames_getElem? (pf_cues P doc) i c c1 hc hc1
    have hfg : f = { pf_frame_of c with duration := sub64 c1.t.start_time c.t.start_time } := by
      rcases pf_frames_agree doc P hF hOK with ⟨X, hX⟩ | ⟨X, hX⟩
      · rw [hX, getElem?_of_append_left _ X i _ hg] at hf
        exact (Option.some.inj hf).symm
      · have := getElem?_of_append_left _ X i f hf
        rw [← hX, hg] at this
        exact (Option.some.inj this).symm
    subst hfg
    refine ⟨rfl, ?_, rfl, rfl, rfl⟩
    intro hclip
    norm_num at hclip
    obtain ⟨t, ht⟩ := pf_cues_clip P doc c (List.getElem?_mem hc)
    obtain ⟨t1, ht1⟩ := pf_cues_clip P doc c1 (List.getElem?_mem hc1)
    have r := dfxp_clip_range P t hclip
    have r1 := dfxp_clip_range P t1 hclip
    rw [← ht] at r
    rw [← ht1] at r1
    exact sub64_exact r.1 (by omega) r1.1 (by omega)
  · intro c hc
    rcases pf_outcome doc P hF with ⟨_, _, q, hinv, hq⟩ | ⟨a, s, b, h1, h2, h3, h4, q, hinv, hq⟩
    · rw [hq, (dfxp_finish_inv P _ _ q hinv).2.1]
      exact hinv.first_offset c hc
    · rw [hq] at hOK ⊢
      obtain ⟨c2, hc2, hend⟩ := pf_stop_is_cue P s q h3 hOK
      rw [hc2]
      rw [pf_cues_split P doc a b s h1, hc2] at hc
      apply (pf_apply_stop_cue P _ _ q c2 hinv hend).2.2.1 c
      generalize List.filterMap (fun v => (pf_classify P v).cue?) a = A at hc ⊢
      cases A with
      | nil => simpa [pf_class.cue?] using hc
      | cons x xs => simpa using hc

theorem first_split_unique {α : Type} (Q : α → Bool) (p1 p2 r1 r2 : List α) (x y : α)
    (h : p1 ++ x :: r1 = p2 ++ y :: r2) (h1 : ∀ a ∈ p1, Q a = false) (hx : Q x = true)
    (h2 : ∀ a ∈ p2, Q a = false) (hy : Q y = true) : p1 = p2 ∧ x = y := by
  induction p1 generalizing p2 with
  | nil =>
    cases p2 with
    | nil => simp at h; exact ⟨rfl, h.1⟩
    | cons b p2 =>
      simp at h
      have := h2 b (List.mem_cons_self _ _)
      rw [← h.1, hx] at this
      cases this
  | cons a p1 ih =>
    cases p2 with
    | nil =>
      simp at h
      have := h1 a (List.mem_cons_self _ _)
      rw [h.1, hy] at this
      cases this
    | cons b p2 =>
      simp at h
      obtain ⟨e1, e2⟩ := ih p2 h.2 (fun z hz => h1 z (List.mem_cons_of_mem _ hz))
        (fun z hz => h2 z (List.mem_cons_of_mem _ hz))
      exact ⟨by rw [h.1, e1], e2⟩

theorem pf_cues_not_at_end (P : media_parse_params_t) (a : List pf_visit)
    (h : ∀ v ∈ a, pf_stops P (pf_classify P v) = false) :
    ∀ c ∈ a.filterMap (fun v => (pf_classify P v).cue?), cue_at_end P c = false := by
  intro c hc
  obtain ⟨v, hv, hvc⟩ := List.mem_filterMap.mp hc
  have hs := h v hv
  cases hcl : pf_classify P v with
  | cue c1 =>
    rw [hcl] at hvc hs
    have : c1 = c := by simpa [pf_class.cue?] using hvc
    rw [← this]; exact hs
  | crash => rw [hcl] at hvc; cases hvc
  | unresolved t => rw [hcl] at hvc; cases hvc
  | before t => rw [hcl] at hvc; cases hvc
  | not_positive t => rw [hcl] at hvc; cases hvc
  | no_body t => rw [hcl] at hvc; cases hvc
  | failed rc t => rw [hcl] at hvc; cases hvc

/-- C10: when `dfxp_parse_frames` returns `VOD_OK` and `c` is the first cue, in document
order, that passes all filters and whose clipped start has reached the window end, the
traversal stops at `c`: the frames are exactly those of the cues before `c` (none for
`c` or anything after it), the frame emitted last gets `duration` = clipped start of
`c` minus its own clipped start, and `total_frames_duration` = clipped start of `c`
minus `first_frame_time_offset`. The start is compared as the unsigned value line 1040
uses and the differences are 64-bit; with a clip bound below `2^63` these are the
plain comparison and the exact difference. -/
theorem dfxp_parse_frames_stops_at_window_end (doc : List XmlNode) (P : media_parse_params_t)
    (hF : P.frames_all = true)
    (hOK : (dfxp_parse_frames doc P).control = .returned .VOD_OK)
    (pre : List pf_cue) (c : pf_cue) (rest : List pf_cue)
    (hcues : pf_cues P doc = pre ++ c :: rest)
    (hpre : ∀ c0 ∈ pre, cue_at_end P c0 = false) (hc : cue_at_end P c = true) :
    (dfxp_parse_frames doc P).all_frames = gap_frames (pre ++ [c]) ∧
    (dfxp_parse_frames doc P).all_frames.length = pre.length ∧
    (∀ l, pre.getLast? = some l →
      ∃ f, (dfxp_parse_frames doc P).all_frames.getLast? = some f ∧
        f.duration = sub64 c.t.start_time l.t.start_time ∧
        f.pts_delay = sub64 l.t.end_time l.t.start_time ∧ f.offset = l.text.data) ∧
    (dfxp_parse_frames doc P).track.total_frames_duration =
      sub64 c.t.start_time (dfxp_parse_frames doc P).track.first_frame_time_offset ∧
    (∀ c0, (pre ++ [c]).head? = some c0 →
      (dfxp_parse_frames doc P).track.first_frame_time_offset = c0.t.start_time) ∧
    (pf_clip_to P < 2 ^ 63 →
      (pf_end P : Int) ≤ c.t.start_time ∧
      ∀ l, pre.getLast? = some l →
        sub64 c.t.start_time l.t.start_time = c.t.start_time - l.t.start_time) := by
  have hexact : pf_clip_to P < 2 ^ 63 →
      (pf_end P : Int) ≤ c.t.start_time ∧
      ∀ l, pre.getLast? = some l →
        sub64 c.t.start_time l.t.start_time = c.t.start_time - l.t.start_time := by
    intro hclip
    norm_num at hclip
    obtain ⟨t, ht⟩ := pf_cues_clip P doc c (by rw [hcues]; simp)
    have r := dfxp_clip_range P t hclip
    rw [← ht] at r
    constructor
    · have h1 : toU64 c.t.start_time ≥ pf_end P := by simpa [cue_at_end] using hc
      have h2 := toU64_of_nonneg r.1 (by omega)
      omega
    · intro l hl
      obtain ⟨t1, ht1⟩ := pf_cues_clip P doc l
        (by rw [hcues]; exact List.mem_append_left _ (List.mem_of_mem_getLast? hl))
      have r1 := dfxp_clip_range P t1 hclip
      rw [← ht1] at r1
      exact sub64_exact r1.1 (by omega) r.1 (by omega)
  rcases pf_outcome doc P hF with ⟨h1, _, _⟩ | ⟨a, s, b, h1, h2, h3, h4, q, hinv, hq⟩
  · have := pf_cues_not_at_end P (pf_visits doc) h1 c
      (by show c ∈ pf_cues P doc; rw [hcues]; simp)
    rw [hc] at this
    cases this
  · rw [hq] at hOK ⊢
    obtain ⟨c2, hc2, hend⟩ := pf_stop_is_cue P s q h3 hOK
    have hsplit := pf_cues_split P doc a b s h1
    rw [hc2, hcues] at hsplit
    have hcue : (pf_class.cue c2).cue? = some c2 := rfl
    rw [hcue] at hsplit
    simp only [Option.toList_some, List.singleton_append] at hsplit
    obtain ⟨e1, e2⟩ := first_split_unique (cue_at_end P) _ _ _ _ _ _ hsplit hpre hc
      (pf_cues_not_at_end P a h2) hend
    rw [← e1] at hinv
    rw [hc2, ← e2]
    obtain ⟨_, g2, g3, g4, _⟩ := pf_apply_stop_cue P pre _ q c hinv hc
    refine ⟨g2, ?_, ?_, g4, g3, hexact⟩
    · rw [g2, gap_frames_length]; simp
    · intro l hl
      rw [g2, gap_frames_snoc, hl]
      refine ⟨{ pf_frame_of l with duration := sub64 c.t.start_time l.t.start_time },
        by simp, rfl, rfl, rfl⟩

theorem length_getLast?_toList {α β : Type} (l : List α) (g : α → β) :
    (l.length - 1) + ((l.getLast?.map g).toList).length = l.length := by
  cases l with
  | nil => rfl
  | cons a l =>
    rw [List.getLast?_eq_getLast _ (by simp)]
    simp

theorem PfInv.all_frames_length {P : media_parse_params_t} {pre : List pf_cue} {nb : Nat}
    {q : pf_output} (hinv : PfInv P pre nb q) : q.all_frames.length = pre.length := by
  unfold pf_output.all_frames
  rw [hinv.frames, hinv.cur, List.length_append, gap_frames_length]
  exact length_getLast?_toList pre pf_frame_of

theorem pf_stop_not_before (P : media_parse_params_t) (v : pf_visit)
    (hs : pf_stops P (pf_classify P v) = true) :
    pf_is_before P v = false ∧ pf_is_emitted P v = false := by
  rw [← pf_is_before_eq]
  unfold pf_is_emitted
  cases hc : pf_classify P v with
  | cue c =>
    rw [hc] at hs
    have : cue_at_end P c = true := hs
    simp [pf_class.is_before, this]
  | crash => exact ⟨rfl, rfl⟩
  | failed rc t => exact ⟨rfl, rfl⟩
  | unresolved t => rw [hc] at hs; cases hs
  | before t => rw [hc] at hs; cases hs
  | not_positive t => rw [hc] at hs; cases hs
  | no_body t => rw [hc] at hs; cases hs

theorem pf_apply_stop_counts (P : media_parse_params_t) (pre : List pf_cue) (nb : Nat)
    (q : pf_output) (c : pf_class) (hinv : PfInv P pre nb q) (hs : pf_stops P c = true) :
    (pf_apply P c q).track.first_frame_index = P.track.first_frame_index + nb ∧
    (pf_apply P c q).all_frames.length = pre.length := by
  cases c with
  | cue c =>
    obtain ⟨_, g2, _, _, g5⟩ := pf_apply_stop_cue P pre nb q c hinv hs
    refine ⟨g5, ?_⟩
    rw [g2, gap_frames_length]; simp
  | crash => exact ⟨hinv.index, hinv.all_frames_length⟩
  | failed rc t => exact ⟨hinv.index, hinv.all_frames_length⟩
  | unresolved t => cases hs
  | before t => cases hs
  | not_positive t => cases hs
  | no_body t => cases hs

/-- C9: `first_frame_index` on return is its initial value plus the number of `p`
elements examined whose resolved end time is below the window start
(`range.start + clip_from`); such an element produces no frame, and no other dropped
cue changes the counter. The end time is compared as the unsigned value line 1001
uses, which is the end time itself whenever it is non-negative. -/
theorem dfxp_parse_frames_first_frame_index (doc : List XmlNode) (P : media_parse_params_t)
    (hF : P.frames_all = true) :
    (dfxp_parse_frames doc P).track.first_frame_index =
      P.track.first_frame_index +
        ((pf_examined P (pf_visits doc)).filter (pf_is_before P)).length ∧
    (dfxp_parse_frames doc P).all_frames.length =
      ((pf_examined P (pf_visits doc)).filter (pf_is_emitted P)).length ∧
    (∀ v, pf_is_before P v = true → pf_is_emitted P v = false) ∧
    (∀ v, pf_is_before P v = true ↔
      ∃ t, pf_resolve v = some (true, t) ∧ toU64 t.end_time < pf_start P) ∧
    (∀ t : dfxp_timestamp_t, 0 ≤ t.end_time → t.end_time < 2 ^ 63 →
      (toU64 t.end_time < pf_start P ↔ t.end_time < (pf_start P : Int))) := by
  refine ⟨?_, ?_, ?_, ?_, ?_⟩
  · rcases pf_outcome doc P hF with ⟨_, h2, q, hinv, hq⟩ | ⟨a, s, b, h1, h2, h3, h4, q, hinv, hq⟩
    · rw [hq, (dfxp_finish_inv P _ _ q hinv).2.2, h2]
    · rw [hq, (pf_apply_stop_counts P _ _ q _ hinv h3).1, h4, List.filter_append]
      simp [(pf_stop_not_before P s h3).1]
  · rcases pf_outcome doc P hF with ⟨h1, h2, q, hinv, hq⟩ | ⟨a, s, b, h1, h2, h3, h4, q, hinv, hq⟩
    · rw [hq, (dfxp_finish_inv P _ _ q hinv).1, h2, List.length_append, gap_frames_length,
        ← pf_emitted_count P _ h1]
      exact length_getLast?_toList _ _
    · rw [hq, (pf_apply_stop_counts P _ _ q _ hinv h3).2, h4, List.filter_append,
        pf_emitted_count P a h2]
      simp [(pf_stop_not_before P s h3).2]
  · intro v hv
    rw [← pf_is_before_eq] at hv
    unfold pf_is_emitted
    cases hc : pf_classify P v with
    | before t => rfl
    | cue c => rw [hc] at hv; cases hv
    | crash => rfl
    | failed rc t => rfl
    | unresolved t => rfl
    | not_positive t => rfl
    | no_body t => rfl
  · intro v
    unfold pf_is_before
    rcases pf_resolve v with _ | ⟨ok, t⟩
    · simp
    · cases ok <;> simp
  · intro t h0 h1
    have := toU64_of_nonneg h0 (by norm_num at h1; omega)
    omega

/-! ## Evaluations on the example documents -/

/-- With the flag clear, `dfxp_extract_time` succeeds as soon as `begin` parses and
leaves in `end_time` whatever the `end` attribute gave; `dur` is not read. -/
theorem dfxp_extract_time_begin_parses (node : XmlNode) (t : dfxp_timestamp_t) (r : Bool)
    (e b : Int) (he : dfxp_parse_timestamp0 node DFXP_ATTR_END = some (r, e))
    (hb : dfxp_parse_timestamp0 node DFXP_ATTR_BEGIN = some (true, b)) :
    dfxp_extract_time node t false = some (true, ⟨b, e⟩) := by
  simp [dfxp_extract_time, he, hb]

/-- C4 (failing input): on `<p begin="1s" dur="2s">`, with `want_end_only` clear, both
`begin` and `dur` parse and there is no `end`, yet `dfxp_extract_time` reports success
with start 1000 and end -1 instead of end 3000. -/
theorem dfxp_extract_time_ignores_dur :
    dfxp_parse_timestamp0 example_begin_dur DFXP_ATTR_BEGIN = some (true, 1000) ∧
    dfxp_parse_timestamp0 example_begin_dur DFXP_ATTR_DUR = some (true, 2000) ∧
    dfxp_get_xml_prop example_begin_dur DFXP_ATTR_END = none ∧
    dfxp_extract_time example_begin_dur ⟨0, 0⟩ false = some (true, ⟨1000, -1⟩) := by
  decide

/-- C5 (failing input): on `<p begin="1s">`, with `want_end_only` clear, `begin` parses
and there is neither `end` nor `dur`, yet `dfxp_extract_time` reports success, with
end -1. -/
theorem dfxp_extract_time_begin_only_succeeds :
    dfxp_parse_timestamp0 example_begin_only DFXP_ATTR_BEGIN = some (true, 1000) ∧
    dfxp_get_xml_prop example_begin_only DFXP_ATTR_END = none ∧
    dfxp_get_xml_prop example_begin_only DFXP_ATTR_DUR = none ∧
    dfxp_extract_time example_begin_only ⟨0, 0⟩ false = some (true, ⟨1000, -1⟩) := by
  decide

/-- Witness for C7: the three cues over the full window. -/
theorem dfxp_parse_frames_gap_durations_witness :
    example_full_window.frames_all = true ∧
    (dfxp_parse_frames example_three_cues example_full_window).control = .returned .VOD_OK ∧
    (∀ c, (pf_cues example_full_window example_three_cues).head? = some c →
      (dfxp_parse_frames example_three_cues example_full_window).track.first_frame_time_offset
        = c.t.start_time) :=
  ⟨by decide, by decide,
    (dfxp_parse_frames_gap_durations example_three_cues example_full_window
      (by decide) (by decide)).2.1⟩

/-- C8 (failing input): a cue from 0s to 1s followed by a `p` element without timing.
The traversal exhausts the tree and returns `VOD_OK` with one frame, whose own clipped
times are 0 and 1000 (`pts_delay` 1000); its `duration` is 0 and
`total_frames_duration` is -1, because the `p` element that follows overwrote `t`. -/
theorem dfxp_parse_frames_last_duration_clobbered :
    (dfxp_parse_frames example_trailing_p example_full_window).control = .returned .VOD_OK ∧
    (pf_cues example_full_window example_trailing_p).map (fun c => c.t) = [⟨0, 1000⟩] ∧
    (dfxp_parse_frames example_trailing_p example_full_window).all_frames.map
      (fun f => (f.duration, f.pts_delay)) = [(0, 1000)] ∧
    (dfxp_parse_frames example_trailing_p example_full_window).track.first_frame_time_offset
      = 0 ∧
    (dfxp_parse_frames example_trailing_p example_full_window).track.total_frames_duration
      = -1 := by
  decide

/-- Witness for C9: cues at 0s-1s, 3s-4s, 20s-21s, 30s-31s over the window 2s-10s. -/
theorem dfxp_parse_frames_first_frame_index_witness :
    example_window.frames_all = true ∧
    (dfxp_parse_frames example_window_cues example_window).track.first_frame_index =
      example_window.track.first_frame_index +
        ((pf_examined example_window (pf_visits example_window_cues)).filter
          (pf_is_before example_window)).length :=
  ⟨by decide, (dfxp_parse_frames_first_frame_index example_window_cues example_window
    (by decide)).1⟩

/-- Witness for C10: cues at 0s-1s, 3s-4s, 20s-21s, 30s-31s over the window 2s-10s;
the cue at 20s stops the traversal. -/
theorem dfxp_parse_frames_stops_at_window_end_witness :
    example_window.frames_all = true ∧
    (dfxp_parse_frames example_window_cues example_window).control = .returned .VOD_OK ∧
    (dfxp_parse_frames example_window_cues example_window).all_frames =
      gap_frames ([⟨⟨3000, 4000⟩, ⟨4, [10, 98, 10, 10]⟩⟩] ++
        [⟨⟨20000, 21000⟩, ⟨4, [10, 99, 10, 10]⟩⟩]) :=
  ⟨by decide, by decide,
    (dfxp_parse_frames_stops_at_window_end example_window_cues example_window
      (by decide) (by decide)
      [⟨⟨3000, 4000⟩, ⟨4, [10, 98, 10, 10]⟩⟩] ⟨⟨20000, 21000⟩, ⟨4, [10, 99, 10, 10]⟩⟩
      [⟨⟨30000, 31000⟩, ⟨4, [10, 100, 10, 10]⟩⟩] (by decide) (by decide) (by decide)).1⟩
/-! ## The renderer: measure pass, tags, frame body -/

theorem RenderAgree.id : RenderAgree (fun p => p) (fun n => n) :=
  ⟨[], by simp, by simp⟩

theorem RenderAgree.comp {f1 f2 : List Nat → List Nat} {g1 g2 : Nat → Nat}
    (h1 : RenderAgree f1 g1) (h2 : RenderAgree f2 g2) :
    RenderAgree (fun p => f2 (f1 p)) (fun n => g2 (g1 n)) := by
  obtain ⟨o1, hf1, hg1⟩ := h1
  obtain ⟨o2, hf2, hg2⟩ := h2
  refine ⟨o1 ++ o2, ?_, ?_⟩
  · intro p; simp [hf1, hf2]
  · intro n; simp [hg1, hg2]; omega

theorem RenderAgree.string (s : List Nat) :
    RenderAgree (fun p => dfxp_append_string p s) (fun n => dfxp_fake_append_string n s) :=
  ⟨s.takeWhile (fun c => c != 0), fun _ => rfl, fun _ => rfl⟩

theorem dfxp_append_tag_loop_agree (flag : Nat) (close : Bool) :
    ∀ tab : List (Nat × decoration_entry),
      RenderAgree (dfxp_append_tag_loop dfxp_append_string flag close tab)
        (dfxp_append_tag_loop dfxp_fake_append_string flag close tab)
  | [] => RenderAgree.id
  | (i, e) :: tab => by
    have ih := dfxp_append_tag_loop_agree flag close tab
    have h1 : RenderAgree
        (fun p => if flag &&& (1 <<< i) ≠ 0 then
          dfxp_append_string p (if close then e.tag1 else e.tag0) else p)
        (fun n => if flag &&& (1 <<< i) ≠ 0 then
          dfxp_fake_append_string n (if close then e.tag1 else e.tag0) else n) := by
      by_cases hb : flag &&& (1 <<< i) ≠ 0
      · simp only [if_pos hb]; exact RenderAgree.string _
      · simp only [if_neg hb]; exact RenderAgree.id
    have h2 := RenderAgree.comp h1 ih
    exact h2

theorem dfxp_append_tag_agree (flag parentflag : Nat) (close : Bool) :
    RenderAgree (fun p => dfxp_append_tag p flag parentflag close dfxp_append_string)
      (fun n => dfxp_append_tag n flag parentflag close dfxp_fake_append_string) := by
  unfold dfxp_append_tag
  by_cases h0 : flag &&& (flag ^^^ parentflag) = 0
  · simp only [h0, if_true]; exact RenderAgree.id
  · simp only [h0, if_false]
    cases close
    · exact dfxp_append_tag_loop_agree _ _ _
    · exact dfxp_append_tag_loop_agree _ _ _

mutual
theorem dfxp_append_text_node_agree (flag depth lflag : Nat) :
    ∀ node : XmlNode,
      RenderAgree (dfxp_append_text_node dfxp_append_string flag depth lflag node)
        (dfxp_append_text_node dfxp_fake_append_string flag depth lflag node)
  | .text content => by
    simp only [dfxp_append_text_node]; exact RenderAgree.string _
  | .cdata content => by
    simp only [dfxp_append_text_node]; exact RenderAgree.string _
  | .other => by
    simp only [dfxp_append_text_node]; exact RenderAgree.id
  | .element name properties children => by
    simp only [dfxp_append_text_node]
    by_cases hbr : vod_streq name DFXP_ELEMENT_BR = true
    · simp only [hbr, if_true]; exact RenderAgree.string _
    · simp only [hbr, if_false]
      by_cases hs : (!vod_streq name DFXP_ELEMENT_SPAN || children.isEmpty ||
          decide (depth ≥ DFXP_MAX_STACK_DEPTH)) = true
      · simp only [hs, if_true]; exact RenderAgree.id
      · simp only [hs, if_false]
        have h2 := RenderAgree.comp
          (RenderAgree.comp (dfxp_append_tag_agree
              (dfxp_add_textflags (.element name properties children) flag) lflag false)
            (dfxp_append_text_nodes_agree flag (depth + 1)
              (dfxp_add_textflags (.element name properties children) flag) children))
          (dfxp_append_tag_agree
              (dfxp_add_textflags (.element name properties children) flag) lflag true)
        exact h2
theorem dfxp_append_text_nodes_agree (flag depth lflag : Nat) :
    ∀ nodes : List XmlNode,
      RenderAgree (dfxp_append_text_nodes dfxp_append_string flag depth lflag nodes)
        (dfxp_append_text_nodes dfxp_fake_append_string flag depth lflag nodes)
  | [] => by
    simp only [dfxp_append_text_nodes]; exact RenderAgree.id
  | node :: next => by
    have h2 := RenderAgree.comp (dfxp_append_text_node_agree flag depth lflag node)
      (dfxp_append_text_nodes_agree flag depth lflag next)
    exact h2
end

theorem dfxp_append_text_content_write (node : List XmlNode) (p : List Nat) (flag : Nat) :
    dfxp_append_text_content node p flag dfxp_append_string =
      p ++ dfxp_append_text_content node [] flag dfxp_append_string := by
  obtain ⟨out, hf, _⟩ := dfxp_append_text_nodes_agree flag 0 0 node
  simp only [dfxp_append_text_content, hf, List.nil_append]

theorem dfxp_append_text_content_measure (node : List XmlNode) (n flag : Nat) :
    dfxp_append_text_content node n flag dfxp_fake_append_string =
      n + (dfxp_append_text_content node [] flag dfxp_append_string).length := by
  obtain ⟨out, hf, hg⟩ := dfxp_append_text_nodes_agree flag 0 0 node
  simp only [dfxp_append_text_content, hf, hg, List.nil_append]

/-- The test `flag & (1 << i)` of the tag loops reads bit `i`. -/
theorem and_shift_ne_zero (d i : Nat) : d &&& (1 <<< i) ≠ 0 ↔ d.testBit i = true := by
  rw [Nat.one_shiftLeft]
  constructor
  · intro h
    by_contra hb
    apply h
    apply Nat.eq_of_testBit_eq
    intro j
    simp only [Nat.testBit_and, Nat.zero_testBit, Nat.testBit_two_pow]
    by_cases hij : i = j
    · subst hij; simp [hb]
    · simp [hij]
  · intro h h0
    have := congrArg (fun x => Nat.testBit x i) h0
    simp [Nat.testBit_and, Nat.testBit_two_pow, h] at this

theorem dfxp_append_tag_open (p : List Nat) (flag parentflag : Nat) :
    dfxp_append_tag p flag parentflag false dfxp_append_string =
      p ++ open_tags (flag &&& (flag ^^^ parentflag)) := by
  unfold dfxp_append_tag
  by_cases h0 : flag &&& (flag ^^^ parentflag) = 0
  · simp [h0, open_tags]
  · simp only [h0, if_false, Bool.not_false, if_true]
    generalize flag &&& (flag ^^^ parentflag) = d
    have t0 : List.takeWhile (fun c => c != 0) (cstr "<b>") = cstr "<b>" := by decide
    have t1 : List.takeWhile (fun c => c != 0) (cstr "<i>") = cstr "<i>" := by decide
    have t2 : List.takeWhile (fun c => c != 0) (cstr "<u>") = cstr "<u>" := by decide
    simp only [decorationtab, List.enum, List.enumFrom, dfxp_append_tag_loop, and_shift_ne_zero,
      open_tags, DECO_BOLD, DECO_ITALIC, DECO_UNDERLINE, dfxp_append_string, Nat.zero_add,
      Bool.false_eq_true, if_false, t0, t1, t2]
    by_cases b0 : d.testBit 0 = true <;> by_cases b1 : d.testBit 1 = true <;>
      by_cases b2 : d.testBit 2 = true <;> simp [b0, b1, b2]

theorem dfxp_append_tag_close (p : List Nat) (flag parentflag : Nat) :
    dfxp_append_tag p flag parentflag true dfxp_append_string =
      p ++ close_tags (flag &&& (flag ^^^ parentflag)) := by
  unfold dfxp_append_tag
  by_cases h0 : flag &&& (flag ^^^ parentflag) = 0
  · simp [h0, close_tags]
  · simp only [h0, if_false, Bool.not_true]
    generalize flag &&& (flag ^^^ parentflag) = d
    have t0 : List.takeWhile (fun c => c != 0) (cstr "</b>") = cstr "</b>" := by decide
    have t1 : List.takeWhile (fun c => c != 0) (cstr "</i>") = cstr "</i>" := by decide
    have t2 : List.takeWhile (fun c => c != 0) (cstr "</u>") = cstr "</u>" := by decide
    simp only [decorationtab, List.enum, List.enumFrom, dfxp_append_tag_loop, and_shift_ne_zero,
      close_tags, DECO_BOLD, DECO_ITALIC, DECO_UNDERLINE, dfxp_append_string, List.reverse_cons,
      List.reverse_nil, List.nil_append, List.cons_append, Nat.zero_add,
      Bool.false_eq_true, if_false, if_true, t0, t1, t2]
    by_cases b0 : d.testBit 0 = true <;> by_cases b1 : d.testBit 1 = true <;>
      by_cases b2 : d.testBit 2 = true <;> simp [b0, b1, b2]

theorem dfxp_append_text_nodes_write (flag depth lflag : Nat) (nodes : List XmlNode)
    (p : List Nat) :
    dfxp_append_text_nodes dfxp_append_string flag depth lflag nodes p =
      p ++ dfxp_append_text_nodes dfxp_append_string flag depth lflag nodes [] := by
  obtain ⟨out, hf, _⟩ := dfxp_append_text_nodes_agree flag depth lflag nodes
  simp only [hf, List.nil_append]

theorem vod_streq_span_not_br (name : List Nat)
    (h : vod_streq name DFXP_ELEMENT_SPAN = true) : vod_streq name DFXP_ELEMENT_BR = false := by
  simp only [vod_streq, beq_iff_eq] at h
  simp only [vod_streq, h, beq_eq_false_iff_ne]
  decide

/-- C15: a `span` that is entered (named `span`, with children, below the depth bound)
writes, before its content, the open tags of the bits of `d = own AND (own XOR lflag)`,
the decoration bits the span has (`own`, from `dfxp_add_textflags`) and the enclosing
span context (`lflag`) does not, in the order `<b>`, `<i>`, `<u>`; then its content;
then the close tags of the same bits in the order `</u>`, `</i>`, `</b>`. A bold span
holding an italic span holding `text` renders `<b><i>text</i></b>`; an inner span
repeating the bold attribute of the enclosing span adds no tag. -/
theorem dfxp_append_text_content_span_tags :
    (∀ (flag depth lflag : Nat) (name : List Nat) (properties : List XmlAttr)
        (children : List XmlNode) (p : List Nat),
        vod_streq name DFXP_ELEMENT_SPAN = true → children ≠ [] →
        depth < DFXP_MAX_STACK_DEPTH →
        (∀ i, (dfxp_add_textflags (.element name properties children) flag &&&
              (dfxp_add_textflags (.element name properties children) flag ^^^ lflag)).testBit i =
            ((dfxp_add_textflags (.element name properties children) flag).testBit i &&
              !lflag.testBit i)) ∧
        dfxp_append_text_node dfxp_append_string flag depth lflag
            (.element name properties children) p =
          p ++ open_tags (dfxp_add_textflags (.element name properties children) flag &&&
              (dfxp_add_textflags (.element name properties children) flag ^^^ lflag)) ++
            dfxp_append_text_nodes dfxp_append_string flag (depth + 1)
              (dfxp_add_textflags (.element name properties children) flag) children [] ++
            close_tags (dfxp_add_textflags (.element name properties children) flag &&&
              (dfxp_add_textflags (.element name properties children) flag ^^^ lflag))) ∧
    (∀ d : Nat,
      open_tags d = (if d.testBit 0 then cstr "<b>" else []) ++
          (if d.testBit 1 then cstr "<i>" else []) ++ (if d.testBit 2 then cstr "<u>" else []) ∧
      close_tags d = (if d.testBit 2 then cstr "</u>" else []) ++
          (if d.testBit 1 then cstr "</i>" else []) ++ (if d.testBit 0 then cstr "</b>" else [])) ∧
    dfxp_append_text_content example_bold_italic [] 0 dfxp_append_string =
      cstr "<b><i>text</i></b>" ∧
    dfxp_append_text_content example_bold_bold [] 0 dfxp_append_string =
      cstr "<b>text</b>" := by
  refine ⟨?_, fun d => ⟨rfl, rfl⟩, by decide, by decide⟩
  intro flag depth lflag name properties children p hspan hch hdepth
  refine ⟨?_, ?_⟩
  · intro i
    simp only [Nat.testBit_and, Nat.testBit_xor]
    cases (dfxp_add_textflags (.element name properties children) flag).testBit i <;>
      cases lflag.testBit i <;> rfl
  · have hbr := vod_streq_span_not_br name hspan
    have hne : children.isEmpty = false := by
      cases children with
      | nil => exact absurd rfl hch
      | cons a l => rfl
    have hd : decide (depth ≥ DFXP_MAX_STACK_DEPTH) = false := by
      simp only [decide_eq_false_iff_not]; omega
    simp only [dfxp_append_text_node, hbr, hspan, hne, hd, Bool.false_eq_true, if_false,
      Bool.not_true, Bool.or_self]
    rw [dfxp_append_tag_close, dfxp_append_text_nodes_write, dfxp_append_tag_open]

theorem align_vtt_bound (tab : List align_entry) (n : Nat)
    (h : ∀ e ∈ tab, e.vtt.takeWhile (fun c => c != 0) = e.vtt ∧ e.vtt.length ≤ n) (i : Nat) :
    ((tab.get? i).elim [] align_entry.vtt).takeWhile (fun c => c != 0) =
        (tab.get? i).elim [] align_entry.vtt ∧
      ((tab.get? i).elim [] align_entry.vtt).length ≤ n := by
  cases hi : tab.get? i with
  | none => simp
  | some e => exact h e (List.get?_mem hi)

theorem textaligntab_vtt (i : Nat) :
    ((textaligntab.get? i).elim [] align_entry.vtt).takeWhile (fun c => c != 0) =
        (textaligntab.get? i).elim [] align_entry.vtt ∧
      ((textaligntab.get? i).elim [] align_entry.vtt).length ≤ 33 :=
  align_vtt_bound textaligntab 33 (by decide) i

theorem displayaligntab_vtt (i : Nat) :
    ((displayaligntab.get? i).elim [] align_entry.vtt).takeWhile (fun c => c != 0) =
        (displayaligntab.get? i).elim [] align_entry.vtt ∧
      ((displayaligntab.get? i).elim [] align_entry.vtt).length ≤ 10 :=
  align_vtt_bound displayaligntab 10 (by decide) i

theorem dfxp_append_style_eq (s : style) : dfxp_append_style [] s = align_settings s := by
  simp only [dfxp_append_style, align_settings, dfxp_append_string, TA_DEFAULT, DA_DEFAULT,
    (textaligntab_vtt s.flag.text).1, (displayaligntab_vtt s.flag.display).1]
  by_cases h1 : s.flag.text = 0 <;> by_cases h2 : s.flag.display = 0 <;> simp [h1, h2]

theorem align_settings_length (s : style) : (align_settings s).length ≤ 43 := by
  have h1 := (textaligntab_vtt s.flag.text).2
  have h2 := (displayaligntab_vtt s.flag.display).2
  simp only [align_settings, List.length_append]
  split <;> split <;> first | omega | (simp only [List.length_nil]; omega)

theorem dfxp_blank_leading_space_eq : ∀ T : List Nat,
    dfxp_blank_leading_space T =
      (leading_space T, List.replicate (leading_space T) 32 ++ T.drop (leading_space T))
  | [] => rfl
  | c :: cs => by
    have ih := dfxp_blank_leading_space_eq cs
    by_cases hc : isspace c = true
    · simp only [dfxp_blank_leading_space, hc, if_true, ih, leading_space, List.takeWhile_cons,
        List.length_cons, List.replicate_succ, List.cons_append, List.drop_succ_cons]
    · simp only [dfxp_blank_leading_space, hc, if_false, leading_space, List.takeWhile_cons,
        List.length_nil, List.replicate_zero, List.nil_append, List.drop_zero,
        Bool.false_eq_true]

theorem leading_space_le (T : List Nat) : leading_space T ≤ T.length := by
  unfold leading_space
  exact (List.takeWhile_sublist _).length_le

theorem set_separator (A : List Nat) (k : Nat) (rest : List Nat) :
    ((A ++ [32]) ++ (List.replicate k 32 ++ rest)).set ((A ++ [32]).length + k - 1) 10 =
      A ++ List.replicate k 32 ++ [10] ++ rest := by
  have h1 : (A ++ [32]) ++ (List.replicate k 32 ++ rest) =
      (A ++ List.replicate k 32) ++ (32 :: rest) := by
    have : [32] ++ List.replicate k 32 = List.replicate k 32 ++ [32] := by
      show 32 :: List.replicate k 32 = _
      rw [← List.replicate_succ, List.replicate_succ']
    calc (A ++ [32]) ++ (List.replicate k 32 ++ rest)
        = A ++ (([32] ++ List.replicate k 32) ++ rest) := by simp
      _ = (A ++ List.replicate k 32) ++ (32 :: rest) := by rw [this]; simp
  have h2 : (A ++ [32]).length + k - 1 = (A ++ List.replicate k 32).length := by
    simp
  rw [h1, h2, List.set_append_right _ _ (Nat.le_refl _)]
  simp

/-- The value of `dfxp_get_frame_body` in terms of the annotation and the text. -/
theorem dfxp_get_frame_body_eq (node : List XmlNode) (s : style) :
    dfxp_get_frame_body node s =
      if dfxp_append_text_content node [] s.flag.decoration dfxp_append_string = [] then
        (.VOD_NOT_FOUND, ⟨0, []⟩)
      else
        (.VOD_OK,
          ⟨(align_settings s).length +
              (dfxp_append_text_content node [] s.flag.decoration dfxp_append_string).length + 3,
            align_settings s ++
              List.replicate (leading_space
                (dfxp_append_text_content node [] s.flag.decoration dfxp_append_string)) 32 ++
              [10] ++
              (dfxp_append_text_content node [] s.flag.decoration dfxp_append_string).drop
                (leading_space
                  (dfxp_append_text_content node [] s.flag.decoration dfxp_append_string)) ++
              [10, 10]⟩) := by
  unfold dfxp_get_frame_body
  simp only [dfxp_append_style_eq]
  simp only [dfxp_append_text_content_measure, Nat.zero_add,
    dfxp_append_text_content_write node (align_settings s ++ [32]),
    List.drop_left, List.take_left, dfxp_blank_leading_space_eq,
    set_separator, DECORATION_SCRATCH_SPACE]
  generalize dfxp_append_text_content node [] s.flag.decoration dfxp_append_string = T
  have hk := leading_space_le T
  have hA := align_settings_length s
  by_cases hT : T = []
  · simp [hT]
  · have hlen : T.length ≠ 0 := fun h => hT (List.length_eq_zero.mp h)
    simp only [hlen, hT, if_false]
    have hl : (align_settings s ++ List.replicate (leading_space T) 32 ++ [10] ++
        List.drop (leading_space T) T ++ [10, 10]).length =
        (align_settings s).length + T.length + 3 := by
      simp only [List.length_append, List.length_replicate, List.length_drop,
        List.length_cons, List.length_nil]
      omega
    rw [hl]
    have : ¬ ((align_settings s).length + T.length + 3 > T.length + 64) := by omega
    simp only [this, if_false]

/-- Witness for C15: a top-level `<span fontWeight="bold">text</span>` with no inherited
decoration is entered and renders `<b>text</b>`. -/
theorem dfxp_append_text_content_span_tags_witness :
    vod_streq (cstr "span") DFXP_ELEMENT_SPAN = true ∧ 0 < DFXP_MAX_STACK_DEPTH ∧
    dfxp_append_text_node dfxp_append_string 0 0 0
      (.element (cstr "span") [xml_attr "fontWeight" "bold"] [.text (cstr "text")]) [] =
      cstr "<b>text</b>" :=
  ⟨by decide, by decide,
    ((dfxp_append_text_content_span_tags.1 0 0 0 (cstr "span") [xml_attr "fontWeight" "bold"]
      [.text (cstr "text")] [] (by decide) (by simp) (by decide)).2).trans (by decide)⟩

/-- C16: for every cue body and every inherited decoration flag, the write pass
(`dfxp_append_text_content` with `dfxp_append_string`) appends to what is already
written a byte string that does not depend on it, and the measure pass (the same
traversal with `dfxp_fake_append_string`, starting from 0) returns exactly the number
of bytes of that string. -/
theorem dfxp_measure_pass_eq_write_pass (node : List XmlNode) (flag : Nat) (p : List Nat) :
    dfxp_append_text_content node p flag dfxp_append_string =
        p ++ dfxp_append_text_content node [] flag dfxp_append_string ∧
    dfxp_append_text_content node 0 flag dfxp_fake_append_string =
        (dfxp_append_text_content node [] flag dfxp_append_string).length ∧
    (dfxp_append_text_content node p flag dfxp_append_string).length =
        p.length + dfxp_append_text_content node 0 flag dfxp_fake_append_string := by
  refine ⟨dfxp_append_text_content_write node p flag, ?_, ?_⟩
  · rw [dfxp_append_text_content_measure, Nat.zero_add]
  · rw [dfxp_append_text_content_measure, dfxp_append_text_content_write node p,
      List.length_append, Nat.zero_add]

/-- C17: for every cue body with non-zero measured length and every style whose
text-align and display-align indices lie within their tables, the bytes
`dfxp_get_frame_body` writes (annotation, separator, text, two newlines; the annotation
being the `vtt` strings of the two table entries, each omitted at index 0) are at most
`measured + 64`, the check at line 837 passes and the function returns `VOD_OK` with
that number of bytes as length. -/
theorem dfxp_get_frame_body_within_alloc (node : List XmlNode) (s : style)
    (hm : dfxp_append_text_content node 0 s.flag.decoration dfxp_fake_append_string ≠ 0)
    (ht : s.flag.text < textaligntab.length) (hd : s.flag.display < displayaligntab.length) :
    dfxp_append_style [] s =
        (if s.flag.text = 0 then [] else (textaligntab.get ⟨s.flag.text, ht⟩).vtt) ++
        (if s.flag.display = 0 then [] else (displayaligntab.get ⟨s.flag.display, hd⟩).vtt) ∧
    (dfxp_append_style [] s).length + 1 +
        (dfxp_append_text_content node [] s.flag.decoration dfxp_append_string).length + 2 ≤
      dfxp_append_text_content node 0 s.flag.decoration dfxp_fake_append_string +
        DECORATION_SCRATCH_SPACE ∧
    (dfxp_get_frame_body node s).1 = .VOD_OK ∧
    (dfxp_get_frame_body node s).2.len = (dfxp_get_frame_body node s).2.data.length ∧
    (dfxp_get_frame_body node s).2.len =
      (dfxp_append_style [] s).length + 1 +
        (dfxp_append_text_content node [] s.flag.decoration dfxp_append_string).length + 2 := by
  have hA := align_settings_length s
  rw [dfxp_append_text_content_measure, Nat.zero_add] at hm
  have hT : dfxp_append_text_content node [] s.flag.decoration dfxp_append_string ≠ [] :=
    fun h => hm (by rw [h]; rfl)
  have hk := leading_space_le
    (dfxp_append_text_content node [] s.flag.decoration dfxp_append_string)
  rw [dfxp_get_frame_body_eq, if_neg hT, dfxp_append_text_content_measure, Nat.zero_add,
    dfxp_append_style_eq]
  refine ⟨?_, ?_, rfl, ?_, ?_⟩
  · simp only [align_settings, TA_DEFAULT, DA_DEFAULT, List.get?_eq_get ht,
      List.get?_eq_get hd, Option.elim]
  · simp only [DECORATION_SCRATCH_SPACE]; omega
  · simp only [List.length_append, List.length_replicate, List.length_drop,
      List.length_cons, List.length_nil]
    omega
  · simp only []; omega

/-- Witness for C17: the body ` hi` with text-align `center` and display-align `after`. -/
theorem dfxp_get_frame_body_within_alloc_witness :
    dfxp_append_text_content example_body 0 example_style.flag.decoration
      dfxp_fake_append_string ≠ 0 ∧
    (dfxp_get_frame_body example_body example_style).1 = .VOD_OK :=
  ⟨by decide,
    (dfxp_get_frame_body_within_alloc example_body example_style (by decide) (by decide)
      (by decide)).2.2.1⟩

/-- C18: with `T` the rendered text of the cue, `A` the alignment annotation of the
style and `k` the length of the maximal run of whitespace bytes at the start of `T`:
when `T` is not empty `dfxp_get_frame_body` returns `VOD_OK` and exactly `A`, `k`
spaces, one newline, `T` without its first `k` bytes and two newlines, of length
`|A| + |T| + 3`; when `T` is empty it returns `VOD_NOT_FOUND` and no bytes. -/
theorem dfxp_get_frame_body_layout (node : List XmlNode) (s : style) :
    (dfxp_append_text_content node [] s.flag.decoration dfxp_append_string ≠ [] →
      dfxp_get_frame_body node s =
        (.VOD_OK,
          ⟨(align_settings s).length +
              (dfxp_append_text_content node [] s.flag.decoration dfxp_append_string).length + 3,
            align_settings s ++
              List.replicate (leading_space
                (dfxp_append_text_content node [] s.flag.decoration dfxp_append_string)) 32 ++
              [10] ++
              (dfxp_append_text_content node [] s.flag.decoration dfxp_append_string).drop
                (leading_space
                  (dfxp_append_text_content node [] s.flag.decoration dfxp_append_string)) ++
              [10, 10]⟩) ∧
      (dfxp_get_frame_body node s).2.data.length = (dfxp_get_frame_body node s).2.len) ∧
    (dfxp_append_text_content node [] s.flag.decoration dfxp_append_string = [] →
      dfxp_get_frame_body node s = (.VOD_NOT_FOUND, ⟨0, []⟩)) ∧
    align_settings s =
      (if s.flag.text = 0 then [] else (textaligntab.get? s.flag.text).elim [] align_entry.vtt) ++
      (if s.flag.display = 0 then []
        else (displayaligntab.get? s.flag.display).elim [] align_entry.vtt) ∧
    leading_space (dfxp_append_text_content node [] s.flag.decoration dfxp_append_string) =
      ((dfxp_append_text_content node [] s.flag.decoration dfxp_append_string).takeWhile
        isspace).length := by
  refine ⟨fun hT => ?_, fun hT => ?_, rfl, rfl⟩
  · have hk := leading_space_le
      (dfxp_append_text_content node [] s.flag.decoration dfxp_append_string)
    rw [dfxp_get_frame_body_eq, if_neg hT]
    refine ⟨rfl, ?_⟩
    simp only [List.length_append, List.length_replicate, List.length_drop,
      List.length_cons, List.length_nil]
    omega
  · rw [dfxp_get_frame_body_eq, if_pos hT]

/-- Witness for C18: the body ` hi` with text-align `center` and display-align `after`
gives ` position:50% align:middle line:100%`, one space, a newline, `hi` and two
newlines; an empty body gives `VOD_NOT_FOUND`. -/
theorem dfxp_get_frame_body_layout_witness :
    dfxp_append_text_content example_body [] example_style.flag.decoration
      dfxp_append_string ≠ [] ∧
    dfxp_get_frame_body example_body example_style =
      (.VOD_OK, ⟨42, cstr " position:50% align:middle line:100% \nhi\n\n"⟩) ∧
    dfxp_get_frame_body [] example_style = (.VOD_NOT_FOUND, ⟨0, []⟩) :=
  ⟨by decide,
    ((dfxp_get_frame_body_layout example_body example_style).1 (by decide)).1.trans
      (by decide),
    (dfxp_get_frame_body_layout [] example_style).2.1 (by decide)⟩
/-! ## The style of a node -/

theorem dfxp_has_attr_value_eq (n : XmlNode) (a name : List Nat)
    (hname : name.takeWhile (fun c => c != 0) = name) :
    dfxp_has_attr_value n a name = decide (attr_string n a = some name) := by
  unfold dfxp_has_attr_value attr_string
  cases dfxp_get_xml_prop n a with
  | none => simp
  | some v =>
    simp only [vod_streq, hname, Option.map_some', Option.some.injEq]
    by_cases h : List.takeWhile (fun c => c != 0) v = name <;> simp [h]

theorem dfxp_find_align_eq (n : XmlNode) (a : List Nat) :
    ∀ (tab : List align_entry) (i : Nat),
      (∀ e ∈ tab, e.attr = a ∧ e.name.takeWhile (fun c => c != 0) = e.name) →
      dfxp_find_align n i tab =
        (attr_string n a).bind
          (fun v => List.findIdx? (fun name => name == v) (tab.map align_entry.name) i)
  | [], i, _ => by cases attr_string n a <;> rfl
  | e :: tab, i, h => by
    have he := h e (List.mem_cons_self _ _)
    have ih := dfxp_find_align_eq n a tab (i + 1)
      (fun e1 h1 => h e1 (List.mem_cons_of_mem _ h1))
    simp only [dfxp_find_align, he.1, dfxp_has_attr_value_eq n a e.name he.2, ih,
      List.map_cons, List.findIdx?_cons]
    cases hv : attr_string n a with
    | none => simp
    | some v =>
      simp only [Option.some.injEq, Option.some_bind, decide_eq_true_eq, beq_iff_eq]
      by_cases hc : v = e.name
      · rw [if_pos hc, if_pos hc.symm]
      · rw [if_neg hc, if_neg (fun h1 => hc h1.symm)]

theorem dfxp_find_region_eq (n : XmlNode) :
    (dfxp_find_region n regiontab).map region.style =
      (attr_string n (cstr "region")).bind region_preset := by
  have h1 := dfxp_has_attr_value_eq n (cstr "region") (cstr "lowerThird") (by decide)
  have h2 := dfxp_has_attr_value_eq n (cstr "region") (cstr "middleThird") (by decide)
  have h3 := dfxp_has_attr_value_eq n (cstr "region") (cstr "upperThird") (by decide)
  simp only [regiontab, dfxp_find_region, h1, h2, h3]
  cases hv : attr_string n (cstr "region") with
  | none => simp
  | some v =>
    simp only [Option.some.injEq, Option.some_bind, decide_eq_true_eq, region_preset]
    by_cases c1 : v = cstr "lowerThird"
    · simp only [if_pos c1]; rfl
    · by_cases c2 : v = cstr "middleThird"
      · simp only [if_neg c1, if_pos c2]; rfl
      · by_cases c3 : v = cstr "upperThird"
        · simp only [if_neg c1, if_neg c2, if_pos c3]; rfl
        · simp only [if_neg c1, if_neg c2, if_neg c3]; rfl

theorem dfxp_add_textflags_eq (n : XmlNode) (d : Nat) :
    d ||| dfxp_add_textflags n d =
      d ||| (if attr_string n (cstr "fontWeight") = some (cstr "bold") then DECO_SET_BOLD else 0) |||
        (if attr_string n (cstr "fontStyle") = some (cstr "italic") then DECO_SET_ITALIC
          else 0) |||
        (if attr_string n (cstr "textDecoration") = some (cstr "underline") then
          DECO_SET_UNDERLINE else 0) := by
  have h1 := dfxp_has_attr_value_eq n (cstr "fontWeight") (cstr "bold") (by decide)
  have h2 := dfxp_has_attr_value_eq n (cstr "fontStyle") (cstr "italic") (by decide)
  have h3 := dfxp_has_attr_value_eq n (cstr "textDecoration") (cstr "underline") (by decide)
  simp only [dfxp_add_textflags, dfxp_add_textflags_loop, decorationtab, h1, h2, h3,
    decide_eq_true_eq, DECO_SET_BOLD, DECO_SET_ITALIC, DECO_SET_UNDERLINE, DECO_BOLD,
    DECO_ITALIC, DECO_UNDERLINE, Nat.zero_add]
  apply Nat.eq_of_testBit_eq
  intro i
  simp only [Nat.testBit_or]
  split <;> split <;> split <;> cases d.testBit i <;> simp

/-- C14: `dfxp_parse_style` equals the reference definition `dfxp_parse_style_ref`
(base is the preset named by the `region` attribute or else the inherited style;
text-align and display-align are the table index of the `textAlign` / `displayAlign`
value when it is a table name and those of base otherwise; decoration is that of base
OR-ed with bold, italic, underline for `fontWeight="bold"`, `fontStyle="italic"`,
`textDecoration="underline"`), and a node with none of the six attributes leaves the
inherited style unchanged. -/
theorem dfxp_parse_style_eq_ref :
    (∀ (n : XmlNode) (inherited : style),
      dfxp_parse_style n inherited = dfxp_parse_style_ref n inherited) ∧
    (∀ (n : XmlNode) (inherited : style),
      (∀ a ∈ [cstr "region", cstr "textAlign", cstr "displayAlign", cstr "fontWeight",
          cstr "fontStyle", cstr "textDecoration"], xmlHasProp n a = none) →
      dfxp_parse_style n inherited = inherited) := by
  have key : ∀ (n : XmlNode) (inherited : style),
      dfxp_parse_style n inherited = dfxp_parse_style_ref n inherited := by
    intro n s
    have ht := dfxp_find_align_eq n (cstr "textAlign") textaligntab 0 (by decide)
    have hd := dfxp_find_align_eq n (cstr "displayAlign") displayaligntab 0 (by decide)
    have hr := dfxp_find_region_eq n
    have e1 : textaligntab.map align_entry.name = text_align_names := by decide
    have e2 : displayaligntab.map align_entry.name = display_align_names := by decide
    unfold dfxp_parse_style dfxp_parse_style_ref
    simp only [← hr, ht, hd, e1, e2, List.indexOf?]
    cases hfr : dfxp_find_region n regiontab <;>
      cases h1 : (attr_string n (cstr "textAlign")).bind
        (fun v => List.findIdx? (fun name => name == v) text_align_names 0) <;>
      cases h2 : (attr_string n (cstr "displayAlign")).bind
        (fun v => List.findIdx? (fun name => name == v) display_align_names 0) <;>
      simp [h1, h2, dfxp_add_textflags_eq]
  refine ⟨key, ?_⟩
  intro n s h
  have hp : ∀ a ∈ [cstr "region", cstr "textAlign", cstr "displayAlign", cstr "fontWeight",
      cstr "fontStyle", cstr "textDecoration"], attr_string n a = none := by
    intro a ha
    simp [attr_string, dfxp_get_xml_prop, h a ha]
  rw [key]
  simp only [dfxp_parse_style_ref, hp (cstr "region") (by simp), hp (cstr "textAlign") (by simp),
    hp (cstr "displayAlign") (by simp), hp (cstr "fontWeight") (by simp),
    hp (cstr "fontStyle") (by simp), hp (cstr "textDecoration") (by simp)]
  simp

theorem dfxp_add_textflags_ge (n : XmlNode) (d i : Nat) (h : d.testBit i = true) :
    (dfxp_add_textflags n d).testBit i = true := by
  simp only [dfxp_add_textflags, dfxp_add_textflags_loop, decorationtab, Nat.testBit_or, h,
    Bool.true_or]

theorem dfxp_parse_style_decoration (n : XmlNode) (s : style) :
    (dfxp_parse_style n s).flag.decoration =
      (match dfxp_find_region n regiontab with
        | some r => r.style.flag.decoration
        | none => s.flag.decoration) |||
      dfxp_add_textflags n
        (match dfxp_find_region n regiontab with
          | some r => r.style.flag.decoration
          | none => s.flag.decoration) := by
  unfold dfxp_parse_style
  cases dfxp_find_region n regiontab <;>
    cases dfxp_find_align n 0 textaligntab <;>
    cases dfxp_find_align n 0 displayaligntab <;> rfl

theorem dfxp_parse_style_region (n : XmlNode) (s s1 : style) (r : region)
    (h : dfxp_find_region n regiontab = some r) :
    dfxp_parse_style n s = dfxp_parse_style n s1 := by
  unfold dfxp_parse_style
  simp only [h]

/-- C13 (counterexample): with italic inherited, `<p region="lowerThird" ..>` gets the
preset's decoration, bold alone: the italic bit of the inherited style is no longer
set. In the traversal of `<tt><body><div fontStyle="italic"><p region="lowerThird" ..>`
the `div` has the italic bit and the `p` below it has the bold bit only. -/
theorem dfxp_parse_style_region_drops_decoration :
    (dfxp_parse_style example_region_p
      ⟨none, ⟨DECO_SET_ITALIC, TA_DEFAULT, DA_DEFAULT⟩⟩).flag.decoration = DECO_SET_BOLD ∧
    DECO_SET_ITALIC.testBit DECO_ITALIC = true ∧
    DECO_SET_BOLD.testBit DECO_ITALIC = false ∧
    (pf_node_style
      (.element (cstr "div") [xml_attr "fontStyle" "italic"] [example_region_p])
      (some pf_zero_style) pf_zero_style).flag.decoration = DECO_SET_ITALIC ∧
    (pf_visits example_region_doc).map (fun v => v.style.flag.decoration) = [DECO_SET_BOLD] := by
  decide

/-- C13 (amended): a node whose `region` attribute names no preset of `regiontab`
keeps every decoration bit of the inherited style; a node whose `region` attribute
names a preset has the bits of the preset and a style that does not depend on the
inherited one. Hence at every step of the frame traversal that meets an element with a
parent entry on the stack and no preset named, the computed style has every decoration
bit of the parent's style. -/
theorem dfxp_parse_style_keeps_decoration :
    (∀ (n : XmlNode) (s : style), dfxp_find_region n regiontab = none →
      ∀ i, s.flag.decoration.testBit i = true →
        (dfxp_parse_style n s).flag.decoration.testBit i = true) ∧
    (∀ (n : XmlNode) (s : style) (r : region), dfxp_find_region n regiontab = some r →
      (∀ i, r.style.flag.decoration.testBit i = true →
        (dfxp_parse_style n s).flag.decoration.testBit i = true) ∧
      ∀ s1, dfxp_parse_style n s1 = dfxp_parse_style n s) ∧
    (∀ (P : media_parse_params_t) (s : pf_state) (node : XmlNode) (next : List XmlNode)
      (e : pf_entry) (rest : List pf_entry),
      s.out.control = .running → s.cur_node = node :: next →
      node.type = .XML_ELEMENT_NODE → s.stack = e :: rest →
      dfxp_find_region node regiontab = none →
      ∀ i, e.style.flag.decoration.testBit i = true →
        (pf_step P s).style.flag.decoration.testBit i = true) := by
  refine ⟨?_, ?_, ?_⟩
  · intro n s h i hi
    rw [dfxp_parse_style_decoration, h]
    simp only [Nat.testBit_or, hi, Bool.true_or]
  · intro n s r h
    refine ⟨?_, fun s1 => dfxp_parse_style_region n s1 s r h⟩
    intro i hi
    rw [dfxp_parse_style_decoration, h]
    simp only [Nat.testBit_or, hi, Bool.true_or]
  · intro P s node next e rest hrun hcur hty hst hreg i hi
    have hstyle : (pf_node_style node (pf_parent_style s.stack) s.style).flag.decoration.testBit i
        = true := by
      simp only [pf_node_style, pf_parent_style, hst, List.head?_cons, Option.map_some']
      split
      · rw [dfxp_parse_style_decoration, hreg]
        simp only [Nat.testBit_or, hi, Bool.true_or]
      · exact hi
    simp only [pf_step, hrun, hcur, hty, ne_eq, not_true_eq_false, if_false]
    split
    · split <;> exact hstyle
    · exact hstyle

/-- Witness for C13 (amended): `<p begin="0s" end="1s">` under an italic parent. -/
theorem dfxp_parse_style_keeps_decoration_witness :
    dfxp_find_region example_plain_p regiontab = none ∧
    DECO_SET_ITALIC.testBit DECO_ITALIC = true ∧
    (dfxp_parse_style example_plain_p
      ⟨none, ⟨DECO_SET_ITALIC, TA_DEFAULT, DA_DEFAULT⟩⟩).flag.decoration.testBit DECO_ITALIC
      = true :=
  ⟨by decide, by decide,
    dfxp_parse_style_keeps_decoration.1 example_plain_p
      ⟨none, ⟨DECO_SET_ITALIC, TA_DEFAULT, DA_DEFAULT⟩⟩ (by decide) DECO_ITALIC (by decide)⟩

/-- Witness for C14: `<p begin="0s" end="1s">` has none of the style attributes. -/
theorem dfxp_parse_style_eq_ref_witness :
    (∀ a ∈ [cstr "region", cstr "textAlign", cstr "displayAlign", cstr "fontWeight",
      cstr "fontStyle", cstr "textDecoration"], xmlHasProp example_plain_p a = none) ∧
    dfxp_parse_style example_plain_p ⟨none, ⟨DECO_SET_ITALIC, TA_START, DA_BEFORE⟩⟩ =
      ⟨none, ⟨DECO_SET_ITALIC, TA_START, DA_BEFORE⟩⟩ :=
  ⟨by decide,
    dfxp_parse_style_eq_ref.2 example_plain_p ⟨none, ⟨DECO_SET_ITALIC, TA_START, DA_BEFORE⟩⟩
      (by decide)⟩
/-! ## Clipping, the `div` fallback and the depth bound -/

theorem wrap64_in64 (x : Int) : In64 (wrap64 x) := by
  unfold In64 wrap64; omega

theorem div64_in64 (a b q : Int) (ha : In64 a) (h : div64 a b = some q) : In64 q := by
  unfold div64 at h
  split at h
  · cases h
  · split at h
    · cases h
    · rename_i hb hmin
      simp only [Option.some.injEq] at h
      subst h
      have h1 : (a.tdiv b).natAbs = a.natAbs / b.natAbs := Int.natAbs_tdiv a b
      have h2 : a.natAbs / b.natAbs ≤ a.natAbs := Nat.div_le_self _ _
      unfold In64 at ha ⊢
      by_cases hb1 : b.natAbs = 1
      · rcases Int.natAbs_eq b with hb2 | hb2
        · have : b = 1 := by omega
          subst this
          rw [Int.tdiv_one]; exact ha
        · have : b = -1 := by omega
          have ha1 : a ≠ -9223372036854775808 := fun h3 => hmin ⟨h3, this⟩
          omega
      · have hb2 : 2 ≤ b.natAbs := by
          have : b.natAbs ≠ 0 := fun h3 => hb (Int.natAbs_eq_zero.mp h3)
          omega
        have h3 : a.natAbs / b.natAbs ≤ a.natAbs / 2 := Nat.div_le_div_left hb2 (by decide)
        omega

theorem dfxp_offset_result_in64 (num mul den : Int) (p : List Nat) (v : Int)
    (h : dfxp_offset_result num mul den p = some v) : In64 v := by
  unfold dfxp_offset_result at h
  split at h
  · cases h; unfold In64; omega
  · exact div64_in64 _ _ _ (wrap64_in64 _) h

theorem dfxp_offset_metric_in64 (num den : Int) (p : List Nat) (v : Int)
    (h : dfxp_offset_metric num den p = some v) : In64 v := by
  unfold dfxp_offset_metric at h
  try dsimp only at h
  split_ifs at h
  all_goals first
    | exact dfxp_offset_result_in64 _ _ _ _ _ h
    | (cases h; unfold In64; omega)

theorem dfxp_offset_time_in64 (num : Int) (p : List Nat) (v : Int)
    (h : dfxp_offset_time num p = some v) : In64 v := by
  unfold dfxp_offset_time at h
  try dsimp only at h
  split_ifs at h
  all_goals first
    | exact dfxp_offset_metric_in64 _ _ _ _ h
    | (cases h; unfold In64; omega)

theorem dfxp_clock_time_in64 (num : Int) (p : List Nat) (v : Int)
    (h : dfxp_clock_time num p = some v) : In64 v := by
  unfold dfxp_clock_time at h
  try dsimp only at h
  split_ifs at h
  all_goals first
    | exact div64_in64 _ _ _ (wrap64_in64 _) h
    | (cases h; unfold In64; omega)
    | (cases h; exact wrap64_in64 _)
    | (simp only [Option.map_eq_some'] at h
       obtain ⟨q, _, hq⟩ := h
       rw [← hq]; exact wrap64_in64 _)

theorem dfxp_parse_timestamp_in64 (ts : List Nat) (v : Int)
    (h : dfxp_parse_timestamp ts = some v) : In64 v := by
  unfold dfxp_parse_timestamp at h
  try dsimp only at h
  split_ifs at h
  all_goals first
    | exact dfxp_clock_time_in64 _ _ _ h
    | exact dfxp_offset_time_in64 _ _ _ h
    | (cases h; unfold In64; omega)

theorem dfxp_parse_timestamp0_in64 (node : XmlNode) (name : List Nat) (r : Bool) (v : Int)
    (h : dfxp_parse_timestamp0 node name = some (r, v)) : In64 v := by
  unfold dfxp_parse_timestamp0 at h
  split at h
  · cases h; unfold In64; omega
  · split at h
    · cases h
    · rename_i ts hts
      simp only [Option.some.injEq, Prod.mk.injEq] at h
      rw [← h.2]
      exact dfxp_parse_timestamp_in64 _ _ hts

/-- With the flag clear, success means `begin` parsed; the times are the parsed
`begin` and whatever `end` gave. -/
theorem dfxp_extract_time_clear_success (node : XmlNode) (t t1 : dfxp_timestamp_t)
    (h : dfxp_extract_time node t false = some (true, t1)) :
    0 ≤ t1.start_time ∧ In64 t1.start_time ∧ In64 t1.end_time := by
  unfold dfxp_extract_time at h
  cases he : dfxp_parse_timestamp0 node DFXP_ATTR_END with
  | none => rw [he] at h; cases h
  | some re =>
    obtain ⟨r1, e⟩ := re
    rw [he] at h
    simp only [Bool.and_false, Bool.false_eq_true, if_false] at h
    cases hb : dfxp_parse_timestamp0 node DFXP_ATTR_BEGIN with
    | none => rw [hb] at h; cases h
    | some rb =>
      obtain ⟨r2, b⟩ := rb
      rw [hb] at h
      simp only [Bool.not_false, Bool.and_true] at h
      cases r2 with
      | true =>
        simp only [if_true, Option.some.injEq, Prod.mk.injEq, true_and] at h
        rw [← h]
        exact ⟨dfxp_parse_timestamp0_nonneg _ _ _ hb, dfxp_parse_timestamp0_in64 _ _ _ _ hb,
          dfxp_parse_timestamp0_in64 _ _ _ _ he⟩
      | false =>
        simp only [Bool.false_eq_true, if_false] at h
        split at h
        · cases h
        · cases hd : dfxp_parse_timestamp0 node DFXP_ATTR_DUR with
          | none => rw [hd] at h; cases h
          | some rd =>
            obtain ⟨r3, d⟩ := rd
            rw [hd] at h
            have hf := dfxp_parse_timestamp0_flag _ _ _ _ hb
            rename_i hneg
            simp only [not_lt] at hneg
            simp [hneg] at hf

theorem dfxp_clamp_mono (v1 v2 lo hi : Int) (h : lo ≤ hi) (hv : v1 ≤ v2) :
    dfxp_clamp v1 lo hi ≤ dfxp_clamp v2 lo hi := by
  unfold dfxp_clamp
  split <;> split <;> (try split) <;> (try split) <;> omega

theorem dfxp_clip_shift (x : Int) (base : Nat) (h0 : 0 ≤ x) (hx : In64 x)
    (hb : base < 9223372036854775808) :
    toI64 (sub_u64 (toU64 x) base) = x - base := by
  unfold In64 at hx
  obtain ⟨n, rfl⟩ := Int.eq_ofNat_of_zero_le h0
  have h1 : toU64 (n : Int) = n := by
    unfold toU64
    rw [Int.emod_eq_of_lt h0 (by omega)]
    exact Int.toNat_ofNat n
  rw [h1]
  unfold toI64 sub_u64 wrap64
  omega

theorem dfxp_clip_ordered (P : media_parse_params_t) (t : dfxp_timestamp_t)
    (hc : pf_clip_to P < 9223372036854775808) (hb : pf_base_time P < 9223372036854775808)
    (h0 : 0 ≤ t.start_time) (hs : In64 t.start_time) (he : In64 t.end_time)
    (hlt : t.start_time < t.end_time) :
    (dfxp_clip P t).start_time ≤ (dfxp_clip P t).end_time := by
  unfold dfxp_clip
  simp only [toI64_small hc, dfxp_clip_shift _ _ h0 hs hb,
    dfxp_clip_shift _ _ (by omega : 0 ≤ t.end_time) he hb]
  exact dfxp_clamp_mono _ _ _ _ (by omega) (by omega)

theorem pf_resolve_success (v : pf_visit) (t : dfxp_timestamp_t)
    (h : pf_resolve v = some (true, t)) :
    0 ≤ t.start_time ∧ In64 t.start_time ∧ In64 t.end_time := by
  unfold pf_resolve at h
  split at h
  · cases h
  · rename_i t1 h1
    simp only [Option.some.injEq, Prod.mk.injEq, true_and] at h
    rw [← h]
    exact dfxp_extract_time_clear_success _ _ _ h1
  · split at h
    · cases h
    · exact dfxp_extract_time_clear_success _ _ _ h

theorem pf_classify_cue_resolved (P : media_parse_params_t) (v : pf_visit) (c : pf_cue)
    (h : pf_classify P v = .cue c) :
    ∃ t, pf_resolve v = some (true, t) ∧ t.start_time < t.end_time ∧
      c.t = dfxp_clip P t ∧
      dfxp_get_frame_body v.node.children v.style = (.VOD_OK, c.text) := by
  unfold pf_classify at h
  split at h
  · cases h
  · cases h
  · rename_i t ht
    split at h
    · cases h
    · split at h
      · cases h
      · rename_i hlt
        rcases hb : dfxp_get_frame_body v.node.children v.style with ⟨rc, text⟩
        rw [hb] at h
        cases rc <;> simp at h
        refine ⟨t, ht, by omega, by rw [← h], by rw [← h]⟩

theorem pf_cues_mem (P : media_parse_params_t) (doc : List XmlNode) (c : pf_cue)
    (h : c ∈ pf_cues P doc) : ∃ v ∈ pf_visits doc, pf_classify P v = .cue c := by
  unfold pf_cues at h
  obtain ⟨v, hv, hc⟩ := List.mem_filterMap.mp h
  refine ⟨v, hv, ?_⟩
  cases hcl : pf_classify P v <;> rw [hcl] at hc <;> simp [pf_class.cue?] at hc
  rw [hc]

theorem gap_frames_mem : ∀ (pre : List pf_cue) (f : input_frame_t),
    f ∈ gap_frames pre → ∃ c ∈ pre, frame_of_cue f c
  | [], f, h => by simp [gap_frames] at h
  | [_], f, h => by simp [gap_frames] at h
  | c :: c1 :: rest, f, h => by
    simp only [gap_frames, List.mem_cons] at h
    rcases h with h | h
    · exact ⟨c, by simp, by rw [h]; exact ⟨rfl, rfl, rfl, rfl⟩⟩
    · obtain ⟨c2, hc2, hf⟩ := gap_frames_mem (c1 :: rest) f h
      exact ⟨c2, List.mem_cons_of_mem _ hc2, hf⟩

theorem PfInv.frames_mem {P : media_parse_params_t} {pre : List pf_cue} {nb : Nat}
    {q : pf_output} (hinv : PfInv P pre nb q) (f : input_frame_t) (h : f ∈ q.all_frames) :
    ∃ c ∈ pre, frame_of_cue f c := by
  unfold pf_output.all_frames at h
  rw [hinv.frames, hinv.cur, List.mem_append] at h
  rcases h with h | h
  · exact gap_frames_mem pre f h
  · cases hl : pre.getLast? with
    | none => rw [hl] at h; simp at h
    | some l =>
      rw [hl] at h
      simp only [Option.map_some', Option.toList_some, List.mem_singleton] at h
      exact ⟨l, List.mem_of_mem_getLast? hl, by rw [h]; exact ⟨rfl, rfl, rfl, rfl⟩⟩

/-- Every frame of the result is the frame of a cue of the document. -/
theorem pf_frames_mem (doc : List XmlNode) (P : media_parse_params_t) (f : input_frame_t)
    (h : f ∈ (dfxp_parse_frames doc P).all_frames) :
    ∃ c ∈ pf_cues P doc, frame_of_cue f c := by
  by_cases hF : P.frames_all = true
  · rcases pf_outcome doc P hF with ⟨_, _, q, hinv, hq⟩ | ⟨a, s, b, h1, h2, h3, h4, q, hinv, hq⟩
    · rw [hq, (dfxp_finish_inv P _ _ q hinv).1, List.mem_append] at h
      rcases h with h | h
      · exact gap_frames_mem _ f h
      · cases hl : (pf_cues P doc).getLast? with
        | none => rw [hl] at h; simp at h
        | some l =>
          rw [hl] at h
          simp only [Option.map_some', Option.toList_some, List.mem_singleton] at h
          exact ⟨l, List.mem_of_mem_getLast? hl, by rw [h]; exact ⟨rfl, rfl, rfl, rfl⟩⟩
    · have hsplit := pf_cues_split P doc a b s h1
      rw [hq] at h
      cases hc : pf_classify P s with
      | cue c =>
        rw [hc] at h3 h
        have hend : cue_at_end P c = true := h3
        rw [(pf_apply_stop_cue P _ _ q c hinv hend).2.1] at h
        obtain ⟨c1, hc1, hf⟩ := gap_frames_mem _ f h
        refine ⟨c1, ?_, hf⟩
        rw [hsplit, hc]
        simp only [pf_class.cue?, Option.toList_some, List.singleton_append]
        rcases List.mem_append.mp hc1 with h5 | h5
        · exact List.mem_append_left _ h5
        · exact List.mem_append_right _ (by
            rw [List.mem_singleton] at h5; rw [h5]; exact List.mem_cons_self _ _)
      | crash =>
        rw [hc] at h
        obtain ⟨c1, hc1, hf⟩ := hinv.frames_mem f h
        exact ⟨c1, by rw [hsplit]; exact List.mem_append_left _ hc1, hf⟩
      | failed rc t =>
        rw [hc] at h
        obtain ⟨c1, hc1, hf⟩ := hinv.frames_mem f h
        exact ⟨c1, by rw [hsplit]; exact List.mem_append_left _ hc1, hf⟩
      | unresolved t => rw [hc] at h3; cases h3
      | before t => rw [hc] at h3; cases h3
      | not_positive t => rw [hc] at h3; cases h3
      | no_body t => rw [hc] at h3; cases h3
  · have : (dfxp_parse_frames doc P).all_frames = [] := by
      simp [dfxp_parse_frames, hF, pf_init, pf_output.all_frames]
    rw [this] at h
    cases h

/-- C11 (amended): `dfxp_clamp(v, lo, hi)` lies in `[lo, hi]` whenever `lo <= hi`, is
`v` itself when `lo <= v <= hi`, and is monotone in `v` whenever `lo <= hi`.
Consequently, for `clip_to` and the base time below `2^63`, every frame of the result
of `dfxp_parse_frames` is the frame of a cue whose clipped times satisfy
`0 <= start <= end <= clip_to`, and its `pts_delay` is `end - start`, not negative. -/
theorem dfxp_clamp_bounds_frames :
    (∀ v lo hi : Int, lo ≤ hi → lo ≤ dfxp_clamp v lo hi ∧ dfxp_clamp v lo hi ≤ hi) ∧
    (∀ v lo hi : Int, lo ≤ v → v ≤ hi → dfxp_clamp v lo hi = v) ∧
    (∀ v1 v2 lo hi : Int, lo ≤ hi → v1 ≤ v2 → dfxp_clamp v1 lo hi ≤ dfxp_clamp v2 lo hi) ∧
    (∀ (doc : List XmlNode) (P : media_parse_params_t),
      pf_clip_to P < 9223372036854775808 → pf_base_time P < 9223372036854775808 →
      ∀ f ∈ (dfxp_parse_frames doc P).all_frames,
        ∃ c ∈ pf_cues P doc, frame_of_cue f c ∧
          0 ≤ c.t.start_time ∧ c.t.start_time ≤ c.t.end_time ∧
          c.t.end_time ≤ pf_clip_to P ∧
          f.pts_delay = c.t.end_time - c.t.start_time ∧ 0 ≤ f.pts_delay) := by
  refine ⟨?_, ?_, dfxp_clamp_mono, ?_⟩
  · intro v lo hi h
    unfold dfxp_clamp
    split
    · omega
    · split <;> omega
  · intro v lo hi h1 h2
    unfold dfxp_clamp
    rw [if_neg (by omega), if_neg (by omega)]
  · intro doc P hc hb f hf
    obtain ⟨c, hc1, hfc⟩ := pf_frames_mem doc P f hf
    obtain ⟨v, _, hv⟩ := pf_cues_mem P doc c hc1
    obtain ⟨t, hres, hlt, hct, _⟩ := pf_classify_cue_resolved P v c hv
    obtain ⟨h0, hs, he⟩ := pf_resolve_success v t hres
    have hr := dfxp_clip_range P t hc
    have ho := dfxp_clip_ordered P t hc hb h0 hs he hlt
    rw [← hct] at hr ho
    have hd : sub64 c.t.end_time c.t.start_time = c.t.end_time - c.t.start_time :=
      sub64_exact hr.1 (by omega) hr.2.2.1 (by omega)
    refine ⟨c, hc1, hfc, hr.1, ho, hr.2.2.2, ?_, ?_⟩
    · rw [hfc.2.2.2, hd]
    · rw [hfc.2.2.2, hd]; omega

/-- C12 (failing input): in `<div begin="5s" end="10s"><div><p begin="0s"
end="1s">a</p></div><p>b</p></div>` the outer `div` resolves to 5000..10000 and is the
nearest enclosing `div` of the second `p`, which has no timing of its own; yet when that
`p` is met `last_div` is `NULL` (leaving the inner `div` reset it), the `p` does not
resolve and only the cue `a` is produced. Without the inner `div` the same `p` is
timed 5000..10000. -/
theorem dfxp_parse_frames_nested_div_loses_fallback :
    dfxp_extract_time
      (.element (cstr "div") [xml_attr "begin" "5s", xml_attr "end" "10s"] []) ⟨0, 0⟩ false
      = some (true, ⟨5000, 10000⟩) ∧
    (pf_visits example_nested_div).map
      (fun v => (v.node.children.map XmlNode.content, v.last_div.isSome)) =
      [([cstr "a"], true), ([cstr "b"], false)] ∧
    (pf_visits example_nested_div).map (fun v => (pf_resolve v).map Prod.fst) =
      [some true, some false] ∧
    (pf_cues example_full_window example_nested_div).map (fun c => c.t) = [⟨0, 1000⟩] ∧
    (dfxp_parse_frames example_nested_div example_full_window).control = .returned .VOD_OK ∧
    (dfxp_parse_frames example_nested_div example_full_window).all_frames.map
      (fun f => f.offset) = [cstr "\na\n\n"] ∧
    (pf_cues example_full_window example_flat_div).map (fun c => c.t) =
      [⟨0, 1000⟩, ⟨5000, 10000⟩] := by
  decide

mutual
theorem xml_p_elements_node_depth (d : Nat) : ∀ (node : XmlNode),
    ∀ x ∈ xml_p_elements_node d node, d ≤ x.2
  | .element name properties children => by
    intro x hx
    simp only [xml_p_elements_node] at hx
    split at hx
    · simp only [List.mem_singleton] at hx
      rw [hx]
    · have := xml_p_elements_depth (d + 1) children x hx
      omega
  | .text _ => by intro x hx; simp [xml_p_elements_node] at hx
  | .cdata _ => by intro x hx; simp [xml_p_elements_node] at hx
  | .other => by intro x hx; simp [xml_p_elements_node] at hx
theorem xml_p_elements_depth (d : Nat) : ∀ (nodes : List XmlNode),
    ∀ x ∈ xml_p_elements d nodes, d ≤ x.2
  | [] => by intro x hx; simp [xml_p_elements] at hx
  | node :: next => by
    intro x hx
    simp only [xml_p_elements, List.mem_append] at hx
    rcases hx with hx | hx
    · exact xml_p_elements_node_depth d node x hx
    · exact xml_p_elements_depth d next x hx
end

theorem xml_p_elements_deep (d : Nat) (nodes : List XmlNode) (h : DFXP_MAX_STACK_DEPTH < d) :
    (xml_p_elements d nodes).filter (fun x => decide (x.2 ≤ DFXP_MAX_STACK_DEPTH)) = [] := by
  rw [List.filter_eq_nil_iff]
  intro x hx
  have := xml_p_elements_depth d nodes x hx
  simp only [decide_eq_true_eq]
  omega

mutual
theorem pf_visits_node_nodes (d : Nat) (hd : d ≤ DFXP_MAX_STACK_DEPTH) (parent : Option style) :
    ∀ (node : XmlNode) (c : style × Option (Nat × XmlNode)),
      (pf_visits_node d parent node c).1.map (fun v => v.node) =
        ((xml_p_elements_node d node).filter
          (fun x => decide (x.2 ≤ DFXP_MAX_STACK_DEPTH))).map Prod.fst
  | .text _, c => by simp [pf_visits_node, xml_p_elements_node]
  | .cdata _, c => by simp [pf_visits_node, xml_p_elements_node]
  | .other, c => by simp [pf_visits_node, xml_p_elements_node]
  | .element name properties children, c => by
    simp only [pf_visits_node, xml_p_elements_node]
    by_cases hp : vod_streq name DFXP_ELEMENT_P = true
    · simp [hp, hd]
    · simp only [hp, Bool.not_false, if_true, Bool.false_eq_true, if_false]
      by_cases hstop : (children.isEmpty || d == DFXP_MAX_STACK_DEPTH) = true
      · simp only [hstop, if_true, List.map_nil]
        rcases Bool.or_eq_true _ _ ▸ hstop with he | he
        · have : children = [] := List.isEmpty_iff.mp he
          subst this
          simp [xml_p_elements]
        · have hd1 : d = DFXP_MAX_STACK_DEPTH := by simpa using he
          rw [xml_p_elements_deep (d + 1) children (by omega)]
          rfl
      · simp only [hstop, Bool.false_eq_true, if_false]
        have hd1 : d ≠ DFXP_MAX_STACK_DEPTH := by
          intro h1
          apply hstop
          simp [h1]
        exact pf_visits_nodes_nodes (d + 1) (by omega) _ children _
theorem pf_visits_nodes_nodes (d : Nat) (hd : d ≤ DFXP_MAX_STACK_DEPTH) (parent : Option style) :
    ∀ (nodes : List XmlNode) (c : style × Option (Nat × XmlNode)),
      (pf_visits_nodes d parent nodes c).1.map (fun v => v.node) =
        ((xml_p_elements d nodes).filter
          (fun x => decide (x.2 ≤ DFXP_MAX_STACK_DEPTH))).map Prod.fst
  | [], c => by simp [pf_visits_nodes, xml_p_elements]
  | node :: next, c => by
    simp only [pf_visits_nodes, xml_p_elements, List.map_append, List.filter_append]
    rw [pf_visits_node_nodes d hd parent node c, pf_visits_nodes_nodes d hd parent next _]
end

theorem pf_step_depth (P : media_parse_params_t) (s : pf_state)
    (h : s.stack.length ≤ DFXP_MAX_STACK_DEPTH) :
    (pf_step P s).stack.length ≤ DFXP_MAX_STACK_DEPTH := by
  unfold pf_step
  split
  · exact h
  · exact h
  · split
    · split
      · exact h
      · rename_i e stack1 hst
        rw [hst] at h
        simp only [List.length_cons] at h
        simp only
        omega
    · split
      · exact h
      · split
        · split
          · exact h
          · rename_i hstop
            simp only [Bool.or_eq_true, beq_iff_eq, not_or] at hstop
            simp only [List.length_cons]
            have := hstop.2
            omega
        · exact h

theorem pf_run_depth (P : media_parse_params_t) : ∀ (k : Nat) (s : pf_state),
    s.stack.length ≤ DFXP_MAX_STACK_DEPTH →
    (pf_run P k s).stack.length ≤ DFXP_MAX_STACK_DEPTH
  | 0, _, h => h
  | k + 1, s, h => pf_run_depth P k (pf_step P s) (pf_step_depth P s h)

/-- C11 (counterexample): with `lo > hi` the function is not monotone in `v`:
`dfxp_clamp(0, 1, 0)` is 1 and `dfxp_clamp(1, 1, 0)` is 0. The bounds of line 1013 are
of this kind when `clip_to` is `2^64 - 1`, which converts to `hi = -1`: -5 clamps to 0
and 5 clamps to -1. -/
theorem dfxp_clamp_not_monotone :
    (0 : Int) ≤ 1 ∧ dfxp_clamp 0 1 0 = 1 ∧ dfxp_clamp 1 1 0 = 0 ∧
    toI64 18446744073709551615 = -1 ∧
    (-5 : Int) ≤ 5 ∧ dfxp_clamp (-5) 0 (toI64 18446744073709551615) = 0 ∧
    dfxp_clamp 5 0 (toI64 18446744073709551615) = -1 := by
  decide

/-- Witness for C11 (amended): the first frame of the three cues 0s-1s, 2s-3s, 5s-6s
over the full window. -/
theorem dfxp_clamp_bounds_frames_witness :
    pf_clip_to example_full_window < 9223372036854775808 ∧
    pf_base_time example_full_window < 9223372036854775808 ∧
    (⟨cstr "\na\n\n", 4, 0, 2000, 1000⟩ : input_frame_t) ∈
      (dfxp_parse_frames example_three_cues example_full_window).all_frames ∧
    ∃ c ∈ pf_cues example_full_window example_three_cues,
      frame_of_cue ⟨cstr "\na\n\n", 4, 0, 2000, 1000⟩ c ∧
        0 ≤ c.t.start_time ∧ c.t.start_time ≤ c.t.end_time ∧
        c.t.end_time ≤ pf_clip_to example_full_window ∧
        (⟨cstr "\na\n\n", 4, 0, 2000, 1000⟩ : input_frame_t).pts_delay =
          c.t.end_time - c.t.start_time ∧
        0 ≤ (⟨cstr "\na\n\n", 4, 0, 2000, 1000⟩ : input_frame_t).pts_delay :=
  ⟨by decide, by decide, by decide,
    dfxp_clamp_bounds_frames.2.2.2 example_three_cues example_full_window (by decide)
      (by decide) ⟨cstr "\na\n\n", 4, 0, 2000, 1000⟩ (by decide)⟩

/-- C20: on every document, at every step of the loop of `dfxp_parse_frames` the depth
counter (the number of stack entries) is at most 10; the `p` elements the traversal
examines are, in order, exactly the `p` elements not nested inside a `p` element that
have at most 10 element ancestors, and every frame of the result is the frame of a cue
made from one of them; the loop is left on every document. On the document nested to
depth 20, whose cue `a` has 10 element ancestors and whose cue `b` has 20, the function
returns `VOD_OK` with the frame of `a` alone. -/
theorem dfxp_parse_frames_depth_bound :
    (∀ (doc : List XmlNode) (P : media_parse_params_t) (k : Nat),
      (pf_run P k (pf_init doc P)).stack.length ≤ DFXP_MAX_STACK_DEPTH) ∧
    (∀ doc : List XmlNode,
      (pf_visits doc).map (fun v => v.node) =
        ((xml_p_elements 0 (xmlDocGetRootElement doc)).filter
          (fun x => decide (x.2 ≤ DFXP_MAX_STACK_DEPTH))).map Prod.fst) ∧
    (∀ (doc : List XmlNode) (P : media_parse_params_t),
      ∀ f ∈ (dfxp_parse_frames doc P).all_frames,
        ∃ v ∈ pf_visits doc, ∃ c, pf_classify P v = .cue c ∧ frame_of_cue f c) ∧
    (∀ (doc : List XmlNode) (P : media_parse_params_t),
      (dfxp_parse_frames doc P).control ≠ .running) ∧
    (xml_p_elements 0 (xmlDocGetRootElement example_depth_20)).map
      (fun x => (x.1.children.map XmlNode.content, x.2)) =
      [([cstr "a"], 10), ([cstr "b"], 20)] ∧
    (dfxp_parse_frames example_depth_20 example_full_window).control = .returned .VOD_OK ∧
    (dfxp_parse_frames example_depth_20 example_full_window).all_frames.map
      (fun f => f.offset) = [cstr "\na\n\n"] := by
  refine ⟨?_, ?_, ?_, dfxp_parse_frames_terminates, by decide, by decide, by decide⟩
  · intro doc P k
    exact pf_run_depth P k (pf_init doc P) (Nat.zero_le _)
  · intro doc
    exact pf_visits_nodes_nodes 0 (Nat.zero_le _) none _ _
  · intro doc P f hf
    obtain ⟨c, hc, hfc⟩ := pf_frames_mem doc P f hf
    obtain ⟨v, hv, hcl⟩ := pf_cues_mem P doc c hc
    exact ⟨v, hv, c, hcl, hfc⟩

/-- Witness for C20: the frame of the document nested to depth 20. -/
theorem dfxp_parse_frames_depth_bound_witness :
    (⟨cstr "\na\n\n", 4, 0, 1000, 1000⟩ : input_frame_t) ∈
      (dfxp_parse_frames example_depth_20 example_full_window).all_frames ∧
    ∃ v ∈ pf_visits example_depth_20, ∃ c,
      pf_classify example_full_window v = .cue c ∧
        frame_of_cue ⟨cstr "\na\n\n", 4, 0, 1000, 1000⟩ c :=
  ⟨by decide,
    dfxp_parse_frames_depth_bound.2.2.1 example_depth_20 example_full_window
      ⟨cstr "\na\n\n", 4, 0, 1000, 1000⟩ (by decide)⟩
/-! ## The duration estimate -/

theorem gd_step_stopped (s : gd_state) (h : s.control ≠ .running) : gd_step s = s := by
  unfold gd_step
  cases hc : s.control with
  | running => exact absurd hc h
  | returned => rfl
  | crashed => rfl

theorem gd_run_stopped (n : Nat) (s : gd_state) (h : s.control ≠ .running) :
    gd_run n s = s := by
  induction n with
  | zero => rfl
  | succ n ih => rw [gd_run, gd_step_stopped s h, ih]

theorem gd_run_add (a b : Nat) (s : gd_state) : gd_run (a + b) s = gd_run b (gd_run a s) := by
  induction a generalizing s with
  | zero => simp [gd_run]
  | succ a ih => rw [Nat.succ_add, gd_run, gd_run, ih]

theorem gd_run_one (s : gd_state) : gd_run 1 s = gd_step s := rfl

theorem foldl_max_ge (l : List Int) (r : Int) : r ≤ l.foldl max r := by
  induction l generalizing r with
  | nil => exact Int.le_refl _
  | cons a l ih => exact Int.le_trans (Int.le_max_left r a) (ih (max r a))

theorem foldl_max_comm (l : List Int) (r x : Int) :
    l.foldl max (max r x) = max (l.foldl max r) x := by
  induction l generalizing r with
  | nil => rfl
  | cons a l ih =>
    simp only [List.foldl_cons]
    rw [← ih (max r a)]
    congr 1
    omega

theorem foldl_max_swap (a b : List Int) (r : Int) :
    (a ++ b).foldl max r = a.foldl max (b.foldl max r) := by
  induction a generalizing r with
  | nil => rfl
  | cons x a ih =>
    simp only [List.cons_append, List.foldl_cons]
    rw [ih, ← foldl_max_comm b r x]

/-- With `want_end_only` set, what `dfxp_extract_time` reports does not depend on the
previous contents of `*t`, and on failure the stored end time is negative. -/
theorem dfxp_extract_time_end_cases (node : XmlNode) (ts : dfxp_timestamp_t) :
    (dfxp_extract_time node ts true = none ∧ dfxp_extract_time node ⟨0, 0⟩ true = none) ∨
    (∃ t1, dfxp_extract_time node ts true = some (true, t1) ∧
      resolved_end node = some t1.end_time) ∨
    (∃ t1, dfxp_extract_time node ts true = some (false, t1) ∧
      resolved_end node = none ∧ t1.end_time < 0) := by
  unfold resolved_end dfxp_extract_time
  cases he : dfxp_parse_timestamp0 node DFXP_ATTR_END with
  | none => left; exact ⟨rfl, rfl⟩
  | some re =>
    obtain ⟨r1, e⟩ := re
    have hf1 := dfxp_parse_timestamp0_flag _ _ _ _ he
    cases r1 with
    | true => right; left; exact ⟨_, rfl, rfl⟩
    | false =>
      have he0 : e < 0 := by simpa using hf1
      simp only [Bool.false_and, Bool.false_eq_true, if_false, Bool.not_true, Bool.and_false]
      cases hb : dfxp_parse_timestamp0 node DFXP_ATTR_BEGIN with
      | none => left; simp
      | some rb =>
        obtain ⟨r2, b⟩ := rb
        simp only
        by_cases hb0 : b < 0
        · right; right
          simp only [hb0, if_true]
          refine ⟨_, rfl, ?_, ?_⟩ <;> trivial
        · simp only [hb0, if_false]
          cases hd : dfxp_parse_timestamp0 node DFXP_ATTR_DUR with
          | none => left; simp
          | some rd =>
            obtain ⟨r3, d⟩ := rd
            have hf3 := dfxp_parse_timestamp0_flag _ _ _ _ hd
            cases r3 with
            | true => right; left; exact ⟨_, rfl, rfl⟩
            | false =>
              have hd0 : d < 0 := by simpa using hf3
              right; right
              refine ⟨_, rfl, ?_, ?_⟩ <;> trivial

/-- Lines 314-318 on an element whose resolution does not divide by zero: `result`
becomes the maximum of itself and the resolved end time, if there is one. -/
theorem gd_extract_eq (node : XmlNode) (s : gd_state) (hr : 0 ≤ s.result)
    (hno : dfxp_extract_time node ⟨0, 0⟩ true ≠ none) :
    ∃ ts1, gd_extract node s =
      { s with ts := ts1, result := (resolved_ends [node]).foldl max s.result } := by
  unfold gd_extract resolved_ends
  rcases dfxp_extract_time_end_cases node s.ts with ⟨_, h⟩ | ⟨t1, h1, h2⟩ | ⟨t1, h1, h2, h3⟩
  · exact absurd h hno
  · refine ⟨t1, ?_⟩
    simp only [h1, List.filterMap_cons, h2, List.filterMap_nil, List.foldl_cons, List.foldl_nil]
    congr 1
    split <;> omega
  · refine ⟨t1, ?_⟩
    simp only [h1, List.filterMap_cons, h2, List.filterMap_nil, List.foldl_nil]
    congr 1
    rw [if_neg (by omega)]

mutual
theorem xml_timed_node_deep (d : Nat) (hd : DFXP_MAX_STACK_DEPTH < d) : ∀ node : XmlNode,
    xml_depth_ok_node d node = true → xml_timed_node node = []
  | .text _, _ => rfl
  | .cdata _, _ => rfl
  | .other, _ => rfl
  | .element name properties children, h => by
    simp only [xml_depth_ok_node, Bool.and_eq_true, decide_eq_true_eq] at h
    omega
theorem xml_timed_nodes_deep (d : Nat) (hd : DFXP_MAX_STACK_DEPTH < d) :
    ∀ nodes : List XmlNode, xml_depth_ok d nodes = true → xml_timed_nodes nodes = []
  | [], _ => rfl
  | node :: next, h => by
    simp only [xml_depth_ok, Bool.and_eq_true] at h
    simp only [xml_timed_nodes, xml_timed_node_deep d hd node h.1,
      xml_timed_nodes_deep d hd next h.2, List.append_nil]
end

mutual
theorem timed_p_count_node_le : ∀ node : XmlNode,
    timed_p_count (xml_timed_node node) ≤ xml_p_count_node node
  | .text _ => Nat.le_refl _
  | .cdata _ => Nat.le_refl _
  | .other => Nat.le_refl _
  | .element name properties children => by
    have ih := timed_p_count_nodes_le children
    simp only [xml_timed_node, xml_p_count_node]
    unfold timed_p_count at ih ⊢
    by_cases hp : vod_streq name DFXP_ELEMENT_P = true
    · simp [hp, XmlNode.name]
    · simp only [hp, Bool.false_eq_true, if_false, Nat.zero_add, List.filter_append,
        List.length_append]
      by_cases hv : vod_streq name DFXP_ELEMENT_DIV = true
      · simp [hv, XmlNode.name, hp]; exact ih
      · simp [hv]; exact ih
theorem timed_p_count_nodes_le : ∀ nodes : List XmlNode,
    timed_p_count (xml_timed_nodes nodes) ≤ xml_p_count nodes
  | [] => Nat.le_refl _
  | node :: next => by
    have h1 := timed_p_count_node_le node
    have h2 := timed_p_count_nodes_le next
    simp only [xml_timed_nodes, xml_p_count]
    unfold timed_p_count at h1 h2 ⊢
    simp only [List.filter_append, List.length_append]
    omega
end

mutual
theorem gd_cost_node_le (depth : Nat) (node : XmlNode) :
    gd_cost_node depth node ≤ 2 * xml_node_count node := by
  cases node with
  | text c => simp [gd_cost_node, xml_node_count]
  | cdata c => simp [gd_cost_node, xml_node_count]
  | other => simp [gd_cost_node, xml_node_count]
  | element name props children =>
    have ih := gd_cost_nodes_le (depth + 1) children
    simp only [gd_cost_node, xml_node_count]
    split
    · split
      · omega
      · omega
    · omega
theorem gd_cost_nodes_le (depth : Nat) (nodes : List XmlNode) :
    gd_cost_nodes depth nodes ≤ 2 * xml_nodes_count nodes := by
  cases nodes with
  | nil => simp [gd_cost_nodes]
  | cons node next =>
    have h1 := gd_cost_node_le depth node
    have h2 := gd_cost_nodes_le depth next
    simp only [gd_cost_nodes, xml_nodes_count]
    omega
end

theorem vod_streq_p_not_div (name : List Nat)
    (h : vod_streq name DFXP_ELEMENT_P = true) : vod_streq name DFXP_ELEMENT_DIV = false := by
  simp only [vod_streq, beq_iff_eq] at h
  simp only [vod_streq, h, beq_eq_false_iff_ne]
  decide

theorem timed_p_count_append (a b : List XmlNode) :
    timed_p_count (a ++ b) = timed_p_count a + timed_p_count b := by
  simp [timed_p_count]

theorem resolved_ends_append (a b : List XmlNode) :
    resolved_ends (a ++ b) = resolved_ends a ++ resolved_ends b := by
  simp [resolved_ends]

/-- The test of lines 312-319 on a non-`p` element. -/
theorem gd_div_extract (name : List Nat) (props : List XmlAttr) (children : List XmlNode)
    (s : gd_state) (hr : 0 ≤ s.result)
    (hno : ∀ e ∈ (if vod_streq name DFXP_ELEMENT_DIV then [XmlNode.element name props children]
      else []), dfxp_extract_time e ⟨0, 0⟩ true ≠ none) :
    ∃ ts1, (if vod_streq name DFXP_ELEMENT_DIV then
        gd_extract (.element name props children) s else s) =
      { s with ts := ts1,
               result := (resolved_ends (if vod_streq name DFXP_ELEMENT_DIV then
                 [XmlNode.element name props children] else [])).foldl max s.result } := by
  by_cases hv : vod_streq name DFXP_ELEMENT_DIV = true
  · simp only [hv, if_true] at hno ⊢
    exact gd_extract_eq _ s hr (hno _ (List.mem_singleton.mpr rfl))
  · simp only [hv, Bool.false_eq_true, if_false]
    exact ⟨s.ts, rfl⟩

mutual
theorem gd_run_node (node : XmlNode) (rest : List XmlNode) (S : List (List XmlNode))
    (nl r : Int) (ts : dfxp_timestamp_t) (hr : 0 ≤ r)
    (hS : xml_depth_ok_node S.length node = true)
    (hp : ((timed_p_count (xml_timed_node node) : Nat) : Int) < nl)
    (hno : ∀ e ∈ xml_timed_node node, dfxp_extract_time e ⟨0, 0⟩ true ≠ none) :
    GdReach (gd_cost_node S.length node) ⟨node :: rest, S, nl, r, ts, .running⟩ rest
      (xml_timed_node node) := by
  cases node with
  | text c =>
    exact ⟨ts, by simp [gd_cost_node, gd_run, gd_step, XmlNode.type, xml_timed_node,
      timed_p_count, resolved_ends]⟩
  | cdata c =>
    exact ⟨ts, by simp [gd_cost_node, gd_run, gd_step, XmlNode.type, xml_timed_node,
      timed_p_count, resolved_ends]⟩
  | other =>
    exact ⟨ts, by simp [gd_cost_node, gd_run, gd_step, XmlNode.type, xml_timed_node,
      timed_p_count, resolved_ends]⟩
  | element name props children =>
    cases hpn : vod_streq name DFXP_ELEMENT_P with
    | true =>
      have hdiv := vod_streq_p_not_div name hpn
      have htimed : xml_timed_node (.element name props children) =
          [.element name props children] := by simp [xml_timed_node, hpn]
      rw [htimed] at hp hno ⊢
      have hcnt : timed_p_count [XmlNode.element name props children] = 1 := by
        simp [timed_p_count, XmlNode.name, hpn]
      rw [hcnt] at hp
      obtain ⟨ts1, he⟩ := gd_extract_eq (.element name props children)
        ⟨.element name props children :: rest, S, nl, r, ts, .running⟩ hr
        (hno _ (List.mem_singleton.mpr rfl))
      refine ⟨ts1, ?_⟩
      have hnl : ¬ (nl - 1 ≤ 0) := by omega
      simp only [gd_cost_node, hpn, Bool.not_true, Bool.false_eq_true, if_false, gd_run_one,
        gd_step, XmlNode.type, XmlNode.name, hdiv, ne_eq, not_true_eq_false, he, hnl, hcnt]
      rfl
    | false =>
      have hS1 : S.length ≤ DFXP_MAX_STACK_DEPTH ∧ xml_depth_ok (S.length + 1) children = true := by
        simpa [xml_depth_ok_node] using hS
      have htimed : xml_timed_node (.element name props children) =
          (if vod_streq name DFXP_ELEMENT_DIV then [XmlNode.element name props children]
            else []) ++ xml_timed_nodes children := by simp [xml_timed_node, hpn]
      rw [htimed] at hp hno ⊢
      obtain ⟨ts1, he⟩ := gd_div_extract name props children
        ⟨.element name props children :: rest, S, nl, r, ts, .running⟩ hr
        (fun e h => hno e (List.mem_append_left _ h))
      have hdivp : timed_p_count (if vod_streq name DFXP_ELEMENT_DIV then
          [XmlNode.element name props children] else []) = 0 := by
        by_cases hv : vod_streq name DFXP_ELEMENT_DIV = true
        · simp [hv, timed_p_count, XmlNode.name, hpn]
        · simp [hv, timed_p_count]
      generalize hD : (if vod_streq name DFXP_ELEMENT_DIV then
        [XmlNode.element name props children] else []) = D at he hp hno hdivp ⊢
      have hr1 : 0 ≤ (resolved_ends D).foldl max r := Int.le_trans hr (foldl_max_ge _ _)
      cases hd : (children.isEmpty || decide (S.length ≥ DFXP_MAX_STACK_DEPTH)) with
      | true =>
        have hch : xml_timed_nodes children = [] := by
          rcases Bool.or_eq_true _ _ ▸ hd with h1 | h1
          · rw [List.isEmpty_iff.mp h1]; rfl
          · have h2 : S.length ≥ DFXP_MAX_STACK_DEPTH := by simpa using h1
            exact xml_timed_nodes_deep (S.length + 1) (by omega) children hS1.2
        refine ⟨ts1, ?_⟩
        have hstep : gd_step ⟨.element name props children :: rest, S, nl, r, ts, .running⟩ =
            ⟨rest, S, nl, (resolved_ends D).foldl max r, ts1, .running⟩ := by
          simp only [gd_step, XmlNode.type, XmlNode.name, XmlNode.children, ne_eq,
            not_true_eq_false, if_false, hD, he, hpn, Bool.not_false, if_true, hd]
        simp only [gd_cost_node, hpn, Bool.not_false, if_true, hd, gd_run_one, hstep, hch,
          List.append_nil, hdivp, Nat.cast_zero, Int.sub_zero]
      | false =>
        have hstep : gd_step ⟨.element name props children :: rest, S, nl, r, ts, .running⟩ =
            ⟨children.reverse, (.element name props children :: rest) :: S, nl,
              (resolved_ends D).foldl max r, ts1, .running⟩ := by
          simp only [gd_step, XmlNode.type, XmlNode.name, XmlNode.children, ne_eq,
            not_true_eq_false, if_false, hD, he, hpn, Bool.not_false, if_true, hd,
            Bool.false_eq_true]
        have hpc : ((timed_p_count (xml_timed_nodes children) : Nat) : Int) < nl := by
          rw [timed_p_count_append] at hp
          omega
        obtain ⟨ts2, ih⟩ := gd_run_nodes children []
          ((.element name props children :: rest) :: S) nl
          ((resolved_ends D).foldl max r) ts1 hr1 hS1.2 hpc
          (fun e h => hno e (List.mem_append_right _ h))
        refine ⟨ts2, ?_⟩
        have hcost : gd_cost_node S.length (.element name props children) =
            1 + gd_cost_nodes (S.length + 1) children + 1 := by
          simp [gd_cost_node, hpn, hd]
        have hs1 : gd_run 1 ⟨.element name props children :: rest, S, nl, r, ts, .running⟩ = _ :=
          hstep
        rw [hcost, gd_run_add, gd_run_add, hs1]
        rw [List.append_nil, List.length_cons] at ih
        rw [ih, gd_run_one]
        simp only [gd_step, List.tail_cons, timed_p_count_append, hdivp, Nat.zero_add,
          resolved_ends_append, List.foldl_append]
theorem gd_run_nodes (nodes rest : List XmlNode) (S : List (List XmlNode))
    (nl r : Int) (ts : dfxp_timestamp_t) (hr : 0 ≤ r)
    (hS : xml_depth_ok S.length nodes = true)
    (hp : ((timed_p_count (xml_timed_nodes nodes) : Nat) : Int) < nl)
    (hno : ∀ e ∈ xml_timed_nodes nodes, dfxp_extract_time e ⟨0, 0⟩ true ≠ none) :
    GdReach (gd_cost_nodes S.length nodes) ⟨nodes.reverse ++ rest, S, nl, r, ts, .running⟩ rest
      (xml_timed_nodes nodes) := by
  cases nodes with
  | nil =>
    exact ⟨ts, by simp [gd_cost_nodes, gd_run, xml_timed_nodes, timed_p_count, resolved_ends]⟩
  | cons node next =>
    have hS1 : xml_depth_ok_node S.length node = true ∧ xml_depth_ok S.length next = true := by
      simpa [xml_depth_ok] using hS
    have htimed : xml_timed_nodes (node :: next) =
        xml_timed_node node ++ xml_timed_nodes next := by simp [xml_timed_nodes]
    rw [htimed] at hp hno ⊢
    rw [timed_p_count_append] at hp
    obtain ⟨ts1, ih1⟩ := gd_run_nodes next (node :: rest) S nl r ts hr hS1.2 (by omega)
      (fun e h => hno e (List.mem_append_right _ h))
    have hr1 : 0 ≤ (resolved_ends (xml_timed_nodes next)).foldl max r :=
      Int.le_trans hr (foldl_max_ge _ _)
    obtain ⟨ts2, ih2⟩ := gd_run_node node rest S
      (nl - (timed_p_count (xml_timed_nodes next) : Nat))
      ((resolved_ends (xml_timed_nodes next)).foldl max r) ts1 hr1 hS1.1 (by omega)
      (fun e h => hno e (List.mem_append_left _ h))
    refine ⟨ts2, ?_⟩
    have hcost : gd_cost_nodes S.length (node :: next) =
        gd_cost_nodes S.length next + gd_cost_node S.length node := by
      simp [gd_cost_nodes]; omega
    have hrev : (node :: next).reverse ++ rest = next.reverse ++ (node :: rest) := by simp
    rw [hcost, gd_run_add, hrev, ih1]
    simp only at ih2 ⊢
    rw [ih2, timed_p_count_append, resolved_ends_append, foldl_max_swap]
    congr 1
    push_cast
    omega
end

theorem xml_root_prev_eq : ∀ (doc acc : List XmlNode),
    (xml_root doc = [] ∧ xml_root_prev acc doc = []) ∨
    ∃ root skipped, xml_root doc = [root] ∧ xml_root_prev acc doc = root :: (skipped ++ acc) ∧
      (∀ x ∈ skipped, x.type ≠ .XML_ELEMENT_NODE) ∧
      skipped.length + xml_node_count root ≤ xml_nodes_count doc
  | [], acc => Or.inl ⟨rfl, rfl⟩
  | n :: ns, acc => by
    by_cases hn : n.type = .XML_ELEMENT_NODE
    · right
      refine ⟨n, [], ?_, ?_, ?_, ?_⟩
      · simp [xml_root, xmlDocGetRootElement, hn]
      · simp [xml_root_prev, hn]
      · intro x hx; cases hx
      · simp [xml_nodes_count]
    · have hroot : xml_root (n :: ns) = xml_root ns := by
        simp [xml_root, xmlDocGetRootElement, hn]
      have hprev : xml_root_prev acc (n :: ns) = xml_root_prev (n :: acc) ns := by
        simp [xml_root_prev, hn]
      rw [hroot, hprev]
      rcases xml_root_prev_eq ns (n :: acc) with h | ⟨root, skipped, h1, h2, h3, h4⟩
      · exact Or.inl h
      · right
        refine ⟨root, skipped ++ [n], h1, ?_, ?_, ?_⟩
        · rw [h2]; simp
        · intro x hx
          rcases List.mem_append.mp hx with hx | hx
          · exact h3 x hx
          · rw [List.mem_singleton] at hx; rw [hx]; exact hn
        · have hc : 1 ≤ xml_node_count n := by cases n <;> simp [xml_node_count]
          simp only [List.length_append, List.length_singleton, xml_nodes_count]
          omega

theorem gd_run_skip : ∀ (l : List XmlNode) (nl r : Int) (ts : dfxp_timestamp_t),
    (∀ x ∈ l, x.type ≠ .XML_ELEMENT_NODE) →
    gd_run l.length ⟨l, [], nl, r, ts, .running⟩ = ⟨[], [], nl, r, ts, .running⟩
  | [], _, _, _, _ => rfl
  | x :: l, nl, r, ts, h => by
    have hx := h x (List.mem_cons_self _ _)
    have hstep : gd_step ⟨x :: l, [], nl, r, ts, .running⟩ = ⟨l, [], nl, r, ts, .running⟩ := by
      simp [gd_step, hx]
    rw [List.length_cons, gd_run, hstep]
    exact gd_run_skip l nl r ts (fun y hy => h y (List.mem_cons_of_mem _ hy))

/-- The outcome of `dfxp_get_duration` on a document within the bounds. -/
theorem dfxp_get_duration_eq (doc : List XmlNode)
    (hdepth : xml_depth_ok 0 (xml_root doc) = true)
    (hp : xml_p_count (xml_root doc) < DFXP_DURATION_ESTIMATE_NODES)
    (hno : ∀ e ∈ xml_timed_nodes (xml_root doc), dfxp_extract_time e ⟨0, 0⟩ true ≠ none) :
    (dfxp_get_duration doc).control = .returned ∧
    (dfxp_get_duration doc).result =
      (resolved_ends (xml_timed_nodes (xml_root doc))).foldl max 0 := by
  have hfin : ∀ (nl r : Int) (ts : dfxp_timestamp_t) (m : Nat),
      gd_run (1 + m) ⟨[], [], nl, r, ts, .running⟩ = ⟨[], [], nl, r, ts, .returned⟩ := by
    intro nl r ts m
    rw [gd_run_add, gd_run_one]
    have : gd_step ⟨[], [], nl, r, ts, .running⟩ = ⟨[], [], nl, r, ts, .returned⟩ := by
      simp [gd_step]
    rw [this, gd_run_stopped _ _ (by simp)]
  unfold dfxp_get_duration gd_init
  rcases xml_root_prev_eq doc [] with ⟨h1, h2⟩ | ⟨root, skipped, h1, h2, h3, h4⟩
  · rw [h2, h1]
    have := hfin (DFXP_DURATION_ESTIMATE_NODES : Nat) 0 ⟨0, 0⟩ (2 * xml_nodes_count doc)
    rw [Nat.add_comm] at this
    rw [this]
    exact ⟨rfl, rfl⟩
  · rw [h1] at hdepth hp hno ⊢
    have hpc := timed_p_count_nodes_le [root]
    have hreach := gd_run_nodes [root] (skipped ++ []) [] (DFXP_DURATION_ESTIMATE_NODES : Nat) 0
      ⟨0, 0⟩ (Int.le_refl _) hdepth (by omega) hno
    obtain ⟨ts1, hrun⟩ := hreach
    have hcost := gd_cost_nodes_le 0 [root]
    have hcount : xml_nodes_count [root] = xml_node_count root := by simp [xml_nodes_count]
    have hle : gd_cost_nodes 0 [root] + (skipped.length + 1) ≤ 2 * xml_nodes_count doc + 1 := by
      omega
    obtain ⟨m, hm⟩ := Nat.exists_eq_add_of_le hle
    rw [h2, hm]
    have hrev : [root].reverse ++ (skipped ++ []) = root :: (skipped ++ []) := rfl
    rw [hrev] at hrun
    simp only [List.length_nil] at hrun
    rw [Nat.add_assoc, gd_run_add, hrun]
    simp only [List.append_nil]
    rw [Nat.add_assoc, gd_run_add, gd_run_skip skipped _ _ _ h3, hfin]
    exact ⟨rfl, rfl⟩

theorem dfxp_extract_time_end_in64 (node : XmlNode) (t t1 : dfxp_timestamp_t)
    (h : dfxp_extract_time node t true = some (true, t1)) : In64 t1.end_time := by
  unfold dfxp_extract_time at h
  cases he : dfxp_parse_timestamp0 node DFXP_ATTR_END with
  | none => rw [he] at h; cases h
  | some re =>
    obtain ⟨r1, e1⟩ := re
    have hin := dfxp_parse_timestamp0_in64 _ _ _ _ he
    rw [he] at h
    cases r1 with
    | true =>
      simp only [Bool.and_self, if_true, Option.some.injEq, Prod.mk.injEq, true_and] at h
      rw [← h]; exact hin
    | false =>
      simp only [Bool.false_and, Bool.false_eq_true, if_false, Bool.not_true,
        Bool.and_false] at h
      cases hb : dfxp_parse_timestamp0 node DFXP_ATTR_BEGIN with
      | none => rw [hb] at h; cases h
      | some rb =>
        obtain ⟨r2, b⟩ := rb
        rw [hb] at h
        simp only at h
        by_cases hb0 : b < 0
        · rw [if_pos hb0] at h
          simp at h
        · rw [if_neg hb0] at h
          cases hd : dfxp_parse_timestamp0 node DFXP_ATTR_DUR with
          | none => rw [hd] at h; cases h
          | some rd =>
            obtain ⟨r3, d⟩ := rd
            rw [hd] at h
            cases r3 with
            | true =>
              simp only [Bool.not_true, Bool.false_eq_true, if_false, Option.some.injEq,
                Prod.mk.injEq, true_and] at h
              rw [← h]; exact wrap64_in64 _
            | false => simp at h

theorem resolved_end_in64 (node : XmlNode) (e : Int) (h : resolved_end node = some e) :
    In64 e := by
  unfold resolved_end at h
  cases hx : dfxp_extract_time node ⟨0, 0⟩ true with
  | none => rw [hx] at h; cases h
  | some rt =>
    obtain ⟨r, t⟩ := rt
    rw [hx] at h
    cases r with
    | true =>
      simp only [Option.some.injEq] at h
      rw [← h]; exact dfxp_extract_time_end_in64 node _ t hx
    | false => cases h

theorem foldl_max_mem (l : List Int) (r : Int) : l.foldl max r = r ∨ l.foldl max r ∈ l := by
  induction l generalizing r with
  | nil => left; rfl
  | cons a l ih =>
    simp only [List.foldl_cons, List.mem_cons]
    rcases ih (max r a) with h | h
    · rw [h]
      rcases Int.le_total r a with h1 | h1
      · right; left; exact Int.max_eq_right h1
      · left; exact Int.max_eq_left h1
    · right; right; exact h

/-- C19 (amended): on a document with fewer than 10 `p` elements, in which no element
has more than 10 element ancestors and in which the time resolution of every `div` and
`p` element not nested inside a `p` element completes (no timestamp of theirs makes the
parser divide by zero), `dfxp_get_duration` leaves its loop and returns the maximum of 0
and the resolved end times of all these elements; the resolved end time of an element is
the end time `dfxp_extract_time` reports for it with `want_end_only` set. -/
theorem dfxp_get_duration_max (doc : List XmlNode)
    (hdepth : xml_depth_ok 0 (xml_root doc) = true)
    (hp : xml_p_count (xml_root doc) < DFXP_DURATION_ESTIMATE_NODES)
    (hno : ∀ e ∈ xml_timed_nodes (xml_root doc), dfxp_extract_time e ⟨0, 0⟩ true ≠ none) :
    (dfxp_get_duration doc).control = .returned ∧
    ((gd_return (dfxp_get_duration doc) : Nat) : Int) =
      ((xml_timed_nodes (xml_root doc)).filterMap resolved_end).foldl max 0 ∧
    (∀ e ∈ (xml_timed_nodes (xml_root doc)).filterMap resolved_end,
      e ≤ gd_return (dfxp_get_duration doc)) := by
  obtain ⟨h1, h2⟩ := dfxp_get_duration_eq doc hdepth hp hno
  have h0 := foldl_max_ge (resolved_ends (xml_timed_nodes (xml_root doc))) 0
  have hin : In64 ((resolved_ends (xml_timed_nodes (xml_root doc))).foldl max 0) := by
    rcases foldl_max_mem (resolved_ends (xml_timed_nodes (xml_root doc))) 0 with h | h
    · rw [h]; unfold In64; omega
    · obtain ⟨node, _, hn⟩ := List.mem_filterMap.mp h
      exact resolved_end_in64 node _ hn
  have hret : ((gd_return (dfxp_get_duration doc) : Nat) : Int) =
      (resolved_ends (xml_timed_nodes (xml_root doc))).foldl max 0 := by
    unfold gd_return
    rw [h2]
    exact toU64_of_nonneg h0 (by unfold In64 at hin; omega)
  refine ⟨h1, hret, ?_⟩
  intro e he
  rw [hret]
  have : ∀ (l : List Int) (r : Int), ∀ x ∈ l, x ≤ l.foldl max r := by
    intro l
    induction l with
    | nil => intro r x hx; cases hx
    | cons a l ih =>
      intro r x hx
      simp only [List.foldl_cons]
      rcases List.mem_cons.mp hx with hx | hx
      · rw [hx]
        exact Int.le_trans (Int.le_max_right r a) (foldl_max_ge l _)
      · exact ih _ x hx
  exact this _ 0 e he

/-- Witness for C19 (amended): no timestamp of the document traps; the ends are 9000
and 12000 for the two `div` elements, 3000 and 4000 for the two `p` elements; the
function returns 12000. -/
theorem dfxp_get_duration_max_witness :
    xml_depth_ok 0 (xml_root example_duration_doc) = true ∧
    xml_p_count (xml_root example_duration_doc) < DFXP_DURATION_ESTIMATE_NODES ∧
    (xml_timed_nodes (xml_root example_duration_doc)).filterMap resolved_end =
      [9000, 3000, 4000, 12000] ∧
    (dfxp_get_duration example_duration_doc).control = .returned ∧
    ((gd_return (dfxp_get_duration example_duration_doc) : Nat) : Int) =
      ((xml_timed_nodes (xml_root example_duration_doc)).filterMap resolved_end).foldl
        max 0 ∧
    gd_return (dfxp_get_duration example_duration_doc) = 12000 :=
  ⟨by decide, by decide, by decide,
    (dfxp_get_duration_max example_duration_doc (by decide) (by decide) (by decide)).1,
    (dfxp_get_duration_max example_duration_doc (by decide) (by decide) (by decide)).2.1,
    by decide⟩

/-- C19 (counterexample): `example_zero_divisor_doc` has one `p` element and no element
with more than 10 element ancestors, yet `dfxp_get_duration` does not return on it: the
fraction of 64 digits makes the parser's 64-bit divisor `10^64` wrap to 0, the division
traps while the `end` of the `p` element is resolved, and the loop is left crashed. -/
theorem dfxp_get_duration_divides_by_zero :
    xml_depth_ok 0 (xml_root example_zero_divisor_doc) = true ∧
    xml_p_count (xml_root example_zero_divisor_doc) = 1 ∧
    xml_p_count (xml_root example_zero_divisor_doc) < DFXP_DURATION_ESTIMATE_NODES ∧
    dfxp_parse_timestamp
      (cstr "0.0000000000000000000000000000000000000000000000000000000000000000s") = none ∧
    (dfxp_get_duration example_zero_divisor_doc).control = .crashed ∧
    (dfxp_get_duration example_zero_divisor_doc).control ≠ .returned := by
  decide

theorem gd_at_acc (cur : List XmlNode) (S : List (List XmlNode)) (a : gd_acc) :
    (gd_at cur S a).acc = a := rfl

theorem gd_at_control (cur : List XmlNode) (S : List (List XmlNode)) (a : gd_acc) :
    (gd_at cur S a).control = a.control := rfl

theorem gd_at_cur_node (cur : List XmlNode) (S : List (List XmlNode)) (a : gd_acc) :
    (gd_at cur S a).cur_node = cur := rfl

theorem gd_at_node_stack (cur : List XmlNode) (S : List (List XmlNode)) (a : gd_acc) :
    (gd_at cur S a).node_stack = S := rfl

theorem gd_step_other (node : XmlNode) (rest : List XmlNode) (S : List (List XmlNode))
    (a : gd_acc) (hq : a.control = .running) (ht : node.type ≠ .XML_ELEMENT_NODE) :
    gd_step (gd_at (node :: rest) S a) = gd_at rest S a := by
  simp only [gd_step, gd_at_control, gd_at_cur_node, hq, ht, ne_eq, not_false_eq_true, if_true]
  simp only [gd_at, hq]

theorem gd_extract_at (node : XmlNode) (cur : List XmlNode) (S : List (List XmlNode))
    (a : gd_acc) : gd_extract node (gd_at cur S a) = gd_at cur S (gd_acc_extract node a) := by
  unfold gd_acc_extract gd_extract gd_at gd_state.acc
  simp only
  cases dfxp_extract_time node a.ts true with
  | none => rfl
  | some r => rfl

theorem gd_div_at (name : List Nat) (props : List XmlAttr) (children cur : List XmlNode)
    (S : List (List XmlNode)) (a : gd_acc) :
    (if vod_streq name DFXP_ELEMENT_DIV then
      gd_extract (.element name props children) (gd_at cur S a) else gd_at cur S a) =
    gd_at cur S (if vod_streq name DFXP_ELEMENT_DIV then
      gd_acc_extract (.element name props children) a else a) := by
  split
  · exact gd_extract_at _ _ _ _
  · rfl

theorem gd_cost_node_pos (d : Nat) (node : XmlNode) : ∃ m, gd_cost_node d node = 1 + m := by
  cases node with
  | text c => exact ⟨0, rfl⟩
  | cdata c => exact ⟨0, rfl⟩
  | other => exact ⟨0, rfl⟩
  | element name props children =>
    simp only [gd_cost_node]
    split
    · split
      · exact ⟨0, rfl⟩
      · exact ⟨gd_cost_nodes (d + 1) children + 1, by omega⟩
    · exact ⟨0, rfl⟩

/-- An iteration that leaves the loop settles the outcome of any number of iterations. -/
theorem gd_sim_stop (k : Nat) (cur rest : List XmlNode) (S : List (List XmlNode))
    (a w : gd_acc) (hk : ∃ m, k = 1 + m) (hstep : (gd_step (gd_at cur S a)).acc = w)
    (hw : w.control ≠ .running) : GdSim k cur S a rest w := by
  obtain ⟨m, rfl⟩ := hk
  have hc : (gd_step (gd_at cur S a)).control ≠ .running := by
    have : (gd_step (gd_at cur S a)).control = w.control := by rw [← hstep]; rfl
    rw [this]; exact hw
  refine ⟨?_, fun h => absurd h hw⟩
  rw [gd_run_add, gd_run_one, gd_run_stopped _ _ hc, hstep]

theorem gd_step_pop (e : List XmlNode) (S : List (List XmlNode)) (w : gd_acc)
    (hw : w.control = .running) : gd_step (gd_at [] (e :: S) w) = gd_at e.tail S w := by
  simp only [gd_step, gd_at_control, gd_at_cur_node, gd_at_node_stack, hw]
  simp only [gd_at, hw]

mutual
theorem gd_sim_node (node : XmlNode) (rest : List XmlNode) (S : List (List XmlNode))
    (a : gd_acc) :
    GdSim (gd_cost_node S.length node) (node :: rest) S a rest
      (gd_walk_node S.length node a) := by
  by_cases hq : a.control = .running
  · cases node with
    | text c =>
      have hstep := gd_step_other (.text c) rest S a hq (by simp [XmlNode.type])
      exact ⟨by rw [gd_cost_node, gd_run_one, hstep]; rfl,
        fun _ => by rw [gd_cost_node, gd_run_one, hstep]; rfl⟩
    | cdata c =>
      have hstep := gd_step_other (.cdata c) rest S a hq (by simp [XmlNode.type])
      exact ⟨by rw [gd_cost_node, gd_run_one, hstep]; rfl,
        fun _ => by rw [gd_cost_node, gd_run_one, hstep]; rfl⟩
    | other =>
      have hstep := gd_step_other (.other) rest S a hq (by simp [XmlNode.type])
      exact ⟨by rw [gd_cost_node, gd_run_one, hstep]; rfl,
        fun _ => by rw [gd_cost_node, gd_run_one, hstep]; rfl⟩
    | element name props children =>
      have hdiv := gd_div_at name props children (.element name props children :: rest) S a
      generalize ha1 : (if vod_streq name DFXP_ELEMENT_DIV then
        gd_acc_extract (.element name props children) a else a) = a1 at hdiv
      have hrun : (gd_at (.element name props children :: rest) S a).control = .running := hq
      by_cases hc1 : a1.control = .running
      · have hc1s : (gd_at (.element name props children :: rest) S a1).control = .running := hc1
        cases hp : vod_streq name DFXP_ELEMENT_P with
        | false =>
          cases hd : (children.isEmpty || decide (S.length ≥ DFXP_MAX_STACK_DEPTH)) with
          | true =>
            have hwalk : gd_walk_node S.length (.element name props children) a = a1 := by
              simp only [gd_walk_node, hq, ha1, hc1, hp, hd, Bool.not_false, if_true]
            have hstep : gd_step (gd_at (.element name props children :: rest) S a) =
                gd_at rest S a1 := by
              simp only [gd_step, gd_at_control, gd_at_cur_node, gd_at_node_stack, hq,
                XmlNode.type, XmlNode.name, XmlNode.children, ne_eq,
                not_true_eq_false, if_false, hdiv, hc1, hp, Bool.not_false, if_true, hd]
              simp only [gd_at, hc1]
            have hcost : gd_cost_node S.length (.element name props children) = 1 := by
              simp [gd_cost_node, hp, hd]
            rw [hwalk, hcost]
            exact ⟨by rw [gd_run_one, hstep]; rfl, fun _ => by rw [gd_run_one, hstep]⟩
          | false =>
            have hwalk : gd_walk_node S.length (.element name props children) a =
                gd_walk_nodes (S.length + 1) children a1 := by
              simp only [gd_walk_node, hq, ha1, hc1, hp, hd, Bool.not_false, if_true,
                Bool.false_eq_true, if_false]
            have hstep : gd_step (gd_at (.element name props children :: rest) S a) =
                gd_at children.reverse ((.element name props children :: rest) :: S) a1 := by
              simp only [gd_step, gd_at_control, gd_at_cur_node, gd_at_node_stack, hq,
                XmlNode.type, XmlNode.name, XmlNode.children, ne_eq,
                not_true_eq_false, if_false, hdiv, hc1, hp, Bool.not_false, if_true, hd,
                Bool.false_eq_true]
              simp only [gd_at, hc1]
            have hcost : gd_cost_node S.length (.element name props children) =
                1 + gd_cost_nodes (S.length + 1) children + 1 := by
              simp [gd_cost_node, hp, hd]
            have ih := gd_sim_nodes children []
              ((.element name props children :: rest) :: S) a1
            rw [List.append_nil, List.length_cons] at ih
            obtain ⟨ih1, ih2⟩ := ih
            rw [hwalk, hcost]
            have hs1 : gd_run 1 (gd_at (.element name props children :: rest) S a) = _ := hstep
            unfold GdSim
            rw [gd_run_add, gd_run_add, hs1]
            by_cases hr : (gd_walk_nodes (S.length + 1) children a1).control = .running
            · rw [ih2 hr, gd_run_one, gd_step_pop _ _ _ hr]
              exact ⟨rfl, fun _ => rfl⟩
            · have hne : (gd_run (gd_cost_nodes (S.length + 1) children)
                  (gd_at children.reverse ((.element name props children :: rest) :: S)
                    a1)).control ≠ .running := by
                have : (gd_run (gd_cost_nodes (S.length + 1) children)
                  (gd_at children.reverse ((.element name props children :: rest) :: S)
                    a1)).control = (gd_walk_nodes (S.length + 1) children a1).control := by
                  rw [← ih1]; rfl
                rw [this]; exact hr
              rw [gd_run_stopped 1 _ hne]
              exact ⟨ih1, fun h => absurd h hr⟩
        | true =>
          have hex := gd_extract_at (.element name props children)
            (.element name props children :: rest) S a1
          generalize ha2 : gd_acc_extract (.element name props children) a1 = a2 at hex
          by_cases hc2 : a2.control = .running
          · have hc2s : (gd_at (.element name props children :: rest) S a2).control = .running :=
              hc2
            have hwalk : gd_walk_node S.length (.element name props children) a =
                gd_acc_count a2 := by
              simp only [gd_walk_node, hq, ha1, hc1, hp, Bool.not_true, Bool.false_eq_true,
                if_false, ha2, hc2]
            have hcost : gd_cost_node S.length (.element name props children) = 1 := by
              simp [gd_cost_node, hp]
            rw [hwalk, hcost]
            by_cases hn : a2.nodes_left - 1 ≤ 0
            · have hstep : gd_step (gd_at (.element name props children :: rest) S a) =
                  gd_at (.element name props children :: rest) S (gd_acc_count a2) := by
                simp only [gd_step, gd_at_control, gd_at_cur_node, hq, XmlNode.type,
                  XmlNode.name, ne_eq, not_true_eq_false, if_false, hdiv, hc1, hp,
                  Bool.not_true, Bool.false_eq_true, hex, hc2]
                simp only [gd_at, gd_acc_count, hn, if_true]
              have hret : (gd_acc_count a2).control ≠ .running := by
                simp [gd_acc_count, hn]
              exact gd_sim_stop 1 _ _ _ _ _ ⟨0, rfl⟩ (by rw [hstep]; rfl) hret
            · have hstep : gd_step (gd_at (.element name props children :: rest) S a) =
                  gd_at rest S (gd_acc_count a2) := by
                simp only [gd_step, gd_at_control, gd_at_cur_node, hq, XmlNode.type,
                  XmlNode.name, ne_eq, not_true_eq_false, if_false, hdiv, hc1, hp,
                  Bool.not_true, Bool.false_eq_true, hex, hc2]
                simp only [gd_at, gd_acc_count, hn, if_false, hc2]
              exact ⟨by rw [gd_run_one, hstep]; rfl, fun _ => by rw [gd_run_one, hstep]⟩
          · have hwalk : gd_walk_node S.length (.element name props children) a = a2 := by
              simp only [gd_walk_node, hq, ha1, hc1, hp, Bool.not_true, Bool.false_eq_true,
                if_false, ha2]
            have hstep : gd_step (gd_at (.element name props children :: rest) S a) =
                gd_at (.element name props children :: rest) S a2 := by
              simp only [gd_step, gd_at_control, gd_at_cur_node, hq, XmlNode.type,
                XmlNode.name, ne_eq, not_true_eq_false, if_false, hdiv, hc1, hp,
                Bool.not_true, Bool.false_eq_true, hex]
            rw [hwalk]
            exact gd_sim_stop _ _ _ _ _ _ (gd_cost_node_pos _ _) (by rw [hstep]; rfl) hc2
      · have hwalk : gd_walk_node S.length (.element name props children) a = a1 := by
          simp only [gd_walk_node, hq, ha1]
        have hstep : gd_step (gd_at (.element name props children :: rest) S a) =
            gd_at (.element name props children :: rest) S a1 := by
          simp only [gd_step, gd_at_control, gd_at_cur_node, hq, XmlNode.type,
            XmlNode.name, ne_eq, not_true_eq_false, if_false, hdiv]
        rw [hwalk]
        exact gd_sim_stop _ _ _ _ _ _ (gd_cost_node_pos _ _) (by rw [hstep]; rfl) hc1
  · have hw : gd_walk_node S.length node a = a := by
      cases node with
      | text c => rfl
      | cdata c => rfl
      | other => rfl
      | element name props children =>
        simp only [gd_walk_node]
    rw [hw]
    have hs : (gd_at (node :: rest) S a).control ≠ .running := hq
    exact ⟨by rw [gd_run_stopped _ _ hs]; rfl, fun h => absurd h hq⟩
theorem gd_sim_nodes (nodes rest : List XmlNode) (S : List (List XmlNode)) (a : gd_acc) :
    GdSim (gd_cost_nodes S.length nodes) (nodes.reverse ++ rest) S a rest
      (gd_walk_nodes S.length nodes a) := by
  cases nodes with
  | nil =>
    exact ⟨rfl, fun _ => rfl⟩
  | cons node next =>
    have ih1 := gd_sim_nodes next (node :: rest) S a
    have hcost : gd_cost_nodes S.length (node :: next) =
        gd_cost_nodes S.length next + gd_cost_node S.length node := by
      simp [gd_cost_nodes]; omega
    have hrev : (node :: next).reverse ++ rest = next.reverse ++ (node :: rest) := by simp
    have hwalk : gd_walk_nodes S.length (node :: next) a =
        gd_walk_node S.length node (gd_walk_nodes S.length next a) := by
      simp [gd_walk_nodes]
    rw [hcost, hrev, hwalk]
    obtain ⟨b1, b2⟩ := ih1
    unfold GdSim
    rw [gd_run_add]
    by_cases hr : (gd_walk_nodes S.length next a).control = .running
    · rw [b2 hr]
      exact gd_sim_node node rest S (gd_walk_nodes S.length next a)
    · have hne : (gd_run (gd_cost_nodes S.length next)
          (gd_at (next.reverse ++ node :: rest) S a)).control ≠ .running := by
        have : (gd_run (gd_cost_nodes S.length next)
          (gd_at (next.reverse ++ node :: rest) S a)).control =
            (gd_walk_nodes S.length next a).control := by rw [← b1]; rfl
        rw [this]; exact hr
      have hw : gd_walk_node S.length node (gd_walk_nodes S.length next a) =
          gd_walk_nodes S.length next a := by
        cases node with
        | text c => rfl
        | cdata c => rfl
        | other => rfl
        | element name props children =>
          simp only [gd_walk_node]
      rw [gd_run_stopped _ _ hne, hw]
      exact ⟨b1, fun h => absurd h hr⟩
end

theorem gd_acc_finish_running (a : gd_acc) (h : a.control = .running) :
    gd_acc_finish a = { a with control := .returned } := by
  simp [gd_acc_finish, h]

theorem gd_acc_finish_stopped (a : gd_acc) (h : a.control ≠ .running) :
    gd_acc_finish a = a := by
  unfold gd_acc_finish
  cases hc : a.control with
  | running => exact absurd hc h
  | returned => rfl
  | crashed => rfl

/-- The locals of `dfxp_get_duration` on return, on every document. -/
theorem dfxp_get_duration_acc (doc : List XmlNode) :
    (dfxp_get_duration doc).acc = gd_acc_finish (gd_walk_nodes 0 (xml_root doc) gd_acc_init) := by
  have hinit : gd_init doc = gd_at (xml_root_prev [] doc) [] gd_acc_init := rfl
  have hfin : ∀ (w : gd_acc) (m : Nat), w.control = .running →
      (gd_run (1 + m) (gd_at [] [] w)).acc = { w with control := .returned } := by
    intro w m hw
    rw [gd_run_add, gd_run_one]
    have : gd_step (gd_at [] [] w) = gd_at [] [] { w with control := .returned } := by
      simp only [gd_step, gd_at_control, gd_at_cur_node, gd_at_node_stack, hw]
      rfl
    rw [this, gd_run_stopped _ _ (by simp [gd_at])]
    rfl
  unfold dfxp_get_duration
  rw [hinit]
  rcases xml_root_prev_eq doc [] with ⟨h1, h2⟩ | ⟨root, skipped, h1, h2, h3, h4⟩
  · rw [h2, h1]
    have := hfin gd_acc_init (2 * xml_nodes_count doc) rfl
    rw [Nat.add_comm] at this
    rw [this]
    rfl
  · rw [h1, h2]
    obtain ⟨b1, b2⟩ := gd_sim_nodes [root] (skipped ++ []) [] gd_acc_init
    have hcost := gd_cost_nodes_le 0 [root]
    have hcount : xml_nodes_count [root] = xml_node_count root := by simp [xml_nodes_count]
    have hle : gd_cost_nodes 0 [root] + (skipped.length + 1) ≤ 2 * xml_nodes_count doc + 1 := by
      omega
    obtain ⟨m, hm⟩ := Nat.exists_eq_add_of_le hle
    have hrev : [root].reverse ++ (skipped ++ []) = root :: (skipped ++ []) := rfl
    rw [hrev] at b1 b2
    simp only [List.length_nil] at b1 b2
    rw [hm, Nat.add_assoc, gd_run_add]
    by_cases hr : (gd_walk_nodes 0 [root] gd_acc_init).control = .running
    · rw [b2 hr, gd_acc_finish_running _ hr]
      simp only [List.append_nil]
      have hskip := gd_run_skip skipped (gd_walk_nodes 0 [root] gd_acc_init).nodes_left
        (gd_walk_nodes 0 [root] gd_acc_init).result (gd_walk_nodes 0 [root] gd_acc_init).ts h3
      have hat : ∀ l, gd_at l [] (gd_walk_nodes 0 [root] gd_acc_init) =
          ⟨l, [], (gd_walk_nodes 0 [root] gd_acc_init).nodes_left,
            (gd_walk_nodes 0 [root] gd_acc_init).result,
            (gd_walk_nodes 0 [root] gd_acc_init).ts, .running⟩ := by
        intro l
        simp only [gd_at, hr]
      rw [hat] at *
      rw [Nat.add_assoc, gd_run_add, hskip, ← hat, hfin _ _ hr]
    · have hne : (gd_run (gd_cost_nodes 0 [root])
          (gd_at (root :: (skipped ++ [])) [] gd_acc_init)).control ≠ .running := by
        have : (gd_run (gd_cost_nodes 0 [root])
          (gd_at (root :: (skipped ++ [])) [] gd_acc_init)).control =
            (gd_walk_nodes 0 [root] gd_acc_init).control := by rw [← b1]; rfl
        rw [this]; exact hr
      rw [gd_run_stopped _ _ hne, b1, gd_acc_finish_stopped _ hr]

theorem gd_acc_extract_children (name : List Nat) (props : List XmlAttr)
    (c1 c2 : List XmlNode) (a : gd_acc) :
    gd_acc_extract (.element name props c1) a = gd_acc_extract (.element name props c2) a := by
  have : ∀ t f, dfxp_extract_time (.element name props c1) t f =
      dfxp_extract_time (.element name props c2) t f := by
    intro t f
    simp only [dfxp_extract_time, dfxp_parse_timestamp0, dfxp_get_xml_prop, xmlHasProp,
      XmlNode.properties]
  simp only [gd_acc_extract, gd_extract, this]

theorem gd_acc_extract_inv (node : XmlNode) (a : gd_acc) (k : Nat) (h : GdInv a k) :
    GdInv (gd_acc_extract node a) k := by
  unfold gd_acc_extract gd_extract gd_at gd_state.acc
  simp only
  cases dfxp_extract_time node a.ts true with
  | none =>
    refine ⟨h.1, h.2.1, fun hc => ?_⟩
    cases hc
  | some r => exact ⟨h.1, h.2.1, h.2.2⟩

theorem gd_acc_count_inv (a : gd_acc) (k : Nat) (h : GdInv a k) (hr : a.control = .running) :
    GdInv (gd_acc_count a) (k + 1) := by
  have hN : DFXP_DURATION_ESTIMATE_NODES = 10 := rfl
  simp only [GdInv, hN, Nat.cast_ofNat] at h ⊢
  obtain ⟨h1, h2, h3⟩ := h
  obtain ⟨h4, h5⟩ := h3 hr
  unfold gd_acc_count
  split
  · refine ⟨?_, ?_, fun hc => ?_⟩
    · show 0 ≤ a.nodes_left - 1; omega
    · show a.nodes_left - 1 ≤ _; omega
    · cases hc
  · rename_i hn
    refine ⟨?_, ?_, fun _ => ⟨?_, ?_⟩⟩
    · show 0 ≤ a.nodes_left - 1; omega
    · show a.nodes_left - 1 ≤ _; omega
    · show a.nodes_left - 1 = _; push_cast; omega
    · omega

theorem GdInv.stopped {a : gd_acc} {k : Nat} (h : GdInv a k) (k1 : Nat)
    (hc : a.control ≠ .running) : GdInv a k1 :=
  ⟨h.1, h.2.1, fun h1 => absurd h1 hc⟩

theorem xml_strip_nodes_isEmpty (nodes : List XmlNode) :
    (xml_strip_nodes nodes).isEmpty = nodes.isEmpty := by
  cases nodes <;> rfl

theorem xml_keep_nodes_isEmpty (d k : Nat) (nodes : List XmlNode) :
    (xml_keep_nodes d nodes k).1.isEmpty = nodes.isEmpty := by
  cases nodes <;> rfl

theorem gd_walk_node_stopped (d : Nat) (node : XmlNode) (a : gd_acc)
    (h : a.control ≠ .running) : gd_walk_node d node a = a := by
  cases node with
  | text c => rfl
  | cdata c => rfl
  | other => rfl
  | element name props children =>
    simp only [gd_walk_node]

mutual
theorem gd_walk_keep_node (d : Nat) (node : XmlNode) (k : Nat) (a : gd_acc)
    (h : GdInv a k) :
    gd_walk_node d (xml_keep_node d node k).1 a = gd_walk_node d node a ∧
      GdInv (gd_walk_node d node a) (xml_keep_node d node k).2 := by
  cases node with
  | text c => exact ⟨rfl, h⟩
  | cdata c => exact ⟨rfl, h⟩
  | other => exact ⟨rfl, h⟩
  | element name props children =>
    by_cases hq : a.control = .running
    · cases hp : vod_streq name DFXP_ELEMENT_P with
      | true =>
        have hdiv := vod_streq_p_not_div name hp
        have hk : k < DFXP_DURATION_ESTIMATE_NODES := (h.2.2 hq).2
        have hkeep : xml_keep_node d (.element name props children) k =
            (.element name props (xml_strip_nodes children), k + 1) := by
          simp only [xml_keep_node, hp, if_true, hk]
        have hex := gd_acc_extract_children name props (xml_strip_nodes children) children a
        have hw : ∀ c : List XmlNode, gd_walk_node d (.element name props c) a =
            if (gd_acc_extract (.element name props c) a).control = .running then
              gd_acc_count (gd_acc_extract (.element name props c) a)
            else gd_acc_extract (.element name props c) a := by
          intro c
          simp only [gd_walk_node, hq, hdiv, Bool.false_eq_true, if_false, hp, Bool.not_true]
          by_cases hc : (gd_acc_extract (.element name props c) a).control = .running
          · simp only [hc, if_true]
          · rw [if_neg hc]
            cases hcc : (gd_acc_extract (.element name props c) a).control <;>
              first | rfl | exact absurd hcc hc
        rw [hkeep]
        refine ⟨by rw [hw, hw, hex], ?_⟩
        rw [hw]
        have hinv := gd_acc_extract_inv (.element name props children) a k h
        by_cases hc2 : (gd_acc_extract (.element name props children) a).control = .running
        · rw [if_pos hc2]
          exact gd_acc_count_inv _ k hinv hc2
        · rw [if_neg hc2]
          exact hinv.stopped _ hc2
      | false =>
        have ha1 : ∀ c : List XmlNode,
            (if vod_streq name DFXP_ELEMENT_DIV then
              gd_acc_extract (.element name props c) a else a) =
            (if vod_streq name DFXP_ELEMENT_DIV then
              gd_acc_extract (.element name props children) a else a) := by
          intro c
          split
          · exact gd_acc_extract_children name props c children a
          · rfl
        have hinv1 : GdInv (if vod_streq name DFXP_ELEMENT_DIV then
            gd_acc_extract (.element name props children) a else a) k := by
          split
          · exact gd_acc_extract_inv _ a k h
          · exact h
        generalize hA : (if vod_streq name DFXP_ELEMENT_DIV then
            gd_acc_extract (.element name props children) a else a) = a1 at ha1 hinv1
        have hw : ∀ c : List XmlNode, gd_walk_node d (.element name props c) a =
            if a1.control = .running then
              if c.isEmpty || decide (d ≥ DFXP_MAX_STACK_DEPTH) then a1
              else gd_walk_nodes (d + 1) c a1
            else a1 := by
          intro c
          simp only [gd_walk_node, hq, ha1 c, hp, Bool.not_false, if_true]
          by_cases hc : a1.control = .running
          · simp only [hc, if_true]
          · rw [if_neg hc]
            cases hcc : a1.control <;> first | rfl | exact absurd hcc hc
        cases hd : (children.isEmpty || decide (d ≥ DFXP_MAX_STACK_DEPTH)) with
        | true =>
          have hkeep : xml_keep_node d (.element name props children) k =
              (.element name props (xml_strip_nodes children), k) := by
            simp only [xml_keep_node, hp, Bool.false_eq_true, if_false, hd, if_true]
          have hd1 : ((xml_strip_nodes children).isEmpty ||
              decide (d ≥ DFXP_MAX_STACK_DEPTH)) = true := by
            rw [xml_strip_nodes_isEmpty]; exact hd
          rw [hkeep]
          refine ⟨?_, ?_⟩
          · rw [hw, hw, hd, hd1]
            simp only [if_true]
          · rw [hw, hd]
            by_cases hc1 : a1.control = .running
            · rw [if_pos hc1, if_pos rfl]; exact hinv1
            · rw [if_neg hc1]; exact hinv1
        | false =>
          have hkeep : xml_keep_node d (.element name props children) k =
              (.element name props (xml_keep_nodes (d + 1) children k).1,
                (xml_keep_nodes (d + 1) children k).2) := by
            simp only [xml_keep_node, hp, Bool.false_eq_true, if_false, hd]
          have hd1 : ((xml_keep_nodes (d + 1) children k).1.isEmpty ||
              decide (d ≥ DFXP_MAX_STACK_DEPTH)) = false := by
            rw [xml_keep_nodes_isEmpty]; exact hd
          have ih := gd_walk_keep_nodes (d + 1) children k a1 hinv1
          rw [hkeep]
          refine ⟨?_, ?_⟩
          · rw [hw, hw, hd, hd1, ih.1]
          · rw [hw, hd]
            by_cases hc1 : a1.control = .running
            · rw [if_pos hc1, if_neg (by simp)]; exact ih.2
            · rw [if_neg hc1]; exact hinv1.stopped _ hc1
    · rw [gd_walk_node_stopped d _ a hq, gd_walk_node_stopped d _ a hq]
      exact ⟨rfl, h.stopped _ hq⟩
theorem gd_walk_keep_nodes (d : Nat) (nodes : List XmlNode) (k : Nat) (a : gd_acc)
    (h : GdInv a k) :
    gd_walk_nodes d (xml_keep_nodes d nodes k).1 a = gd_walk_nodes d nodes a ∧
      GdInv (gd_walk_nodes d nodes a) (xml_keep_nodes d nodes k).2 := by
  cases nodes with
  | nil => exact ⟨rfl, h⟩
  | cons node next =>
    obtain ⟨i1, i2⟩ := gd_walk_keep_nodes d next k a h
    obtain ⟨j1, j2⟩ := gd_walk_keep_node d node (xml_keep_nodes d next k).2
      (gd_walk_nodes d next a) i2
    simp only [xml_keep_nodes, gd_walk_nodes]
    rw [i1]
    exact ⟨j1, j2⟩
end

theorem gd_acc_init_inv : GdInv gd_acc_init 0 := by
  refine ⟨by decide, by decide, fun _ => ⟨by decide, by decide⟩⟩

theorem gd_acc_finish_control (a : gd_acc) : (gd_acc_finish a).control ≠ .running := by
  unfold gd_acc_finish
  cases hc : a.control <;> simp [hc]

theorem gd_acc_finish_fields (a : gd_acc) :
    (gd_acc_finish a).nodes_left = a.nodes_left ∧ (gd_acc_finish a).result = a.result := by
  unfold gd_acc_finish
  cases a.control <;> exact ⟨rfl, rfl⟩

theorem xml_root_cases : ∀ doc : List XmlNode,
    xml_root doc = [] ∨ ∃ name props children, xml_root doc = [.element name props children]
  | [] => Or.inl rfl
  | n :: ns => by
    cases n with
    | element name props children =>
      right
      exact ⟨name, props, children, by simp [xml_root, xmlDocGetRootElement, XmlNode.type]⟩
    | text c =>
      have : xml_root (.text c :: ns) = xml_root ns := by
        simp [xml_root, xmlDocGetRootElement, XmlNode.type]
      rw [this]; exact xml_root_cases ns
    | cdata c =>
      have : xml_root (.cdata c :: ns) = xml_root ns := by
        simp [xml_root, xmlDocGetRootElement, XmlNode.type]
      rw [this]; exact xml_root_cases ns
    | other =>
      have : xml_root (.other :: ns) = xml_root ns := by
        simp [xml_root, xmlDocGetRootElement, XmlNode.type]
      rw [this]; exact xml_root_cases ns

/-- The tree in which the other `p` elements have lost their attributes is a document
whose root element is that tree. -/
theorem xml_root_keep (doc : List XmlNode) : xml_root (xml_keep doc) = xml_keep doc := by
  unfold xml_keep
  rcases xml_root_cases doc with h | ⟨name, props, children, h⟩
  · rw [h]; rfl
  · rw [h]
    simp only [xml_keep_nodes, xml_keep_node]
    split
    · simp [xml_root, xmlDocGetRootElement, XmlNode.type]
    · split <;> simp [xml_root, xmlDocGetRootElement, XmlNode.type]

/-- C22: on every document `dfxp_get_duration` leaves its loop with `nodes_left`
between 0 and 10, so it examines at most 10 `p` elements. Its outcome (how it stands,
`result`, the returned value) is the same on two documents whose root trees agree once
the attributes of every `p` element other than the last 10 reachable ones are removed
(`xml_keep`; reachable: at most 10 element ancestors, none of them a `p`); in
particular it is the same on the document with these attributes removed. -/
theorem dfxp_get_duration_last_ten :
    (∀ doc : List XmlNode,
      (dfxp_get_duration doc).control ≠ .running ∧
      0 ≤ (dfxp_get_duration doc).nodes_left ∧
      (dfxp_get_duration doc).nodes_left ≤ (DFXP_DURATION_ESTIMATE_NODES : Nat)) ∧
    (∀ doc doc1 : List XmlNode, xml_keep doc = xml_keep doc1 →
      (dfxp_get_duration doc).control = (dfxp_get_duration doc1).control ∧
      (dfxp_get_duration doc).result = (dfxp_get_duration doc1).result ∧
      gd_return (dfxp_get_duration doc) = gd_return (dfxp_get_duration doc1)) ∧
    (∀ doc : List XmlNode,
      (dfxp_get_duration (xml_keep doc)).control = (dfxp_get_duration doc).control ∧
      (dfxp_get_duration (xml_keep doc)).result = (dfxp_get_duration doc).result ∧
      gd_return (dfxp_get_duration (xml_keep doc)) = gd_return (dfxp_get_duration doc)) := by
  have key : ∀ doc : List XmlNode,
      gd_walk_nodes 0 (xml_keep doc) gd_acc_init =
        gd_walk_nodes 0 (xml_root doc) gd_acc_init ∧
      GdInv (gd_walk_nodes 0 (xml_root doc) gd_acc_init)
        (xml_keep_nodes 0 (xml_root doc) 0).2 :=
    fun doc => gd_walk_keep_nodes 0 (xml_root doc) 0 gd_acc_init gd_acc_init_inv
  have hacc : ∀ doc : List XmlNode,
      (dfxp_get_duration doc).control =
        (gd_acc_finish (gd_walk_nodes 0 (xml_root doc) gd_acc_init)).control ∧
      (dfxp_get_duration doc).nodes_left =
        (gd_acc_finish (gd_walk_nodes 0 (xml_root doc) gd_acc_init)).nodes_left ∧
      (dfxp_get_duration doc).result =
        (gd_acc_finish (gd_walk_nodes 0 (xml_root doc) gd_acc_init)).result := by
    intro doc
    have := dfxp_get_duration_acc doc
    rw [← this]
    exact ⟨rfl, rfl, rfl⟩
  refine ⟨?_, ?_, ?_⟩
  · intro doc
    obtain ⟨c1, c2, _⟩ := hacc doc
    obtain ⟨i1, i2, _⟩ := (key doc).2
    rw [c1, c2, (gd_acc_finish_fields _).1]
    exact ⟨gd_acc_finish_control _, i1, i2⟩
  · intro doc doc1 hk
    obtain ⟨c1, _, c3⟩ := hacc doc
    obtain ⟨e1, _, e3⟩ := hacc doc1
    have hw : gd_walk_nodes 0 (xml_root doc) gd_acc_init =
        gd_walk_nodes 0 (xml_root doc1) gd_acc_init := by
      rw [← (key doc).1, ← (key doc1).1, hk]
    unfold gd_return
    rw [c1, c3, e1, e3, hw]
    exact ⟨rfl, rfl, rfl⟩
  · intro doc
    obtain ⟨c1, _, c3⟩ := hacc doc
    obtain ⟨e1, _, e3⟩ := hacc (xml_keep doc)
    unfold gd_return
    rw [c1, c3, e1, e3, xml_root_keep, (key doc).1]
    exact ⟨rfl, rfl, rfl⟩

/-- Witness for C22: eleven cues in one `div`; altering the `end` of the first from 99s
to 50s leaves the tree of `xml_keep` and the returned 10000 unchanged, and `nodes_left`
is 0 on return. -/
theorem dfxp_get_duration_last_ten_witness :
    xml_keep example_eleven_cues = xml_keep example_eleven_cues_altered ∧
    gd_return (dfxp_get_duration example_eleven_cues) =
      gd_return (dfxp_get_duration example_eleven_cues_altered) ∧
    gd_return (dfxp_get_duration example_eleven_cues) = 10000 ∧
    (dfxp_get_duration example_eleven_cues).nodes_left = 0 :=
  ⟨rfl,
    (dfxp_get_duration_last_ten.2.1 example_eleven_cues example_eleven_cues_altered rfl).2.2,
    by decide, by decide⟩

/-- The value of a clock-form string when nothing overflows. -/
theorem clock_form_value (H : List Nat) (m1 m2 s1 s2 : Nat)
    (hH : IsDigits H) (hM : IsDigits [m1, m2]) (hS : IsDigits [s1, s2]) :
    (clockSeconds H m1 m2 s1 s2 * 1000 < 2 ^ 63 →
      dfxp_parse_timestamp (clockString H m1 m2 s1 s2 []) =
        some ((clockSeconds H m1 m2 s1 s2 * 1000 : Nat) : Int)) ∧
    (∀ F : List Nat, IsDigits F → 10 ^ F.length < 2 ^ 63 →
      (clockSeconds H m1 m2 s1 s2 * 10 ^ F.length + digitsValue F) * 1000 < 2 ^ 63 →
      dfxp_parse_timestamp (clockString H m1 m2 s1 s2 (46 :: F)) =
        some (((clockSeconds H m1 m2 s1 s2 * 10 ^ F.length + digitsValue F) * 1000
          / 10 ^ F.length : Nat) : Int)) ∧
    (∀ FF : List Nat, IsDigits FF → digitsValue FF * 1000 < 2 ^ 63 →
      clockSeconds H m1 m2 s1 s2 * 1000 + digitsValue FF * 1000 / 30 < 2 ^ 63 →
      dfxp_parse_timestamp (clockString H m1 m2 s1 s2 (58 :: FF)) =
        some ((clockSeconds H m1 m2 s1 s2 * 1000 + digitsValue FF * 1000 / 30 : Nat) : Int)) := by
  have hm1 : isdigit m1 = true := hM.2 m1 (by simp)
  have hm2 : isdigit m2 = true := hM.2 m2 (by simp)
  have hs1 : isdigit s1 = true := hS.2 s1 (by simp)
  have hs2 : isdigit s2 = true := hS.2 s2 (by simp)
  have key : ∀ suffix : List Nat, clockSeconds H m1 m2 s1 s2 < 9223372036854775808 →
      dfxp_parse_timestamp (clockString H m1 m2 s1 s2 suffix) =
        dfxp_clock_time (digitsValue H : Nat) (m1 :: m2 :: 58 :: s1 :: s2 :: suffix) := by
    intro suffix hb
    unfold clockSeconds at hb
    exact parse_clock_prefix H _ hH (by omega)
  have k1000 : ∀ a : Nat, a * 1000 < 9223372036854775808 →
      mul64 (a : Int) 1000 = ((a * 1000 : Nat) : Int) := fun a h => mul64_natCast a 1000 h
  simp only [clockSeconds] at key ⊢
  refine ⟨?_, ?_, ?_⟩
  · intro hb
    norm_num at hb
    rw [key [] (by omega), clock_time_fields _ _ _ _ _ _ hm1 hm2 hs1 hs2 (by omega)]
    simp only [peek, List.getD_nil, if_true]
    rw [k1000 _ hb]
  · intro F hF hden hb
    norm_num at hb hden
    have hpow : 0 < 10 ^ F.length := Nat.pos_pow_of_pos _ (by omega)
    have hsec : digitsValue H * 3600 + digitsValue [m1, m2] * 60 + digitsValue [s1, s2]
        < 9223372036854775808 := by
      have := Nat.mul_le_mul_left
        (digitsValue H * 3600 + digitsValue [m1, m2] * 60 + digitsValue [s1, s2]) hpow
      omega
    rw [key _ hsec, clock_time_fields _ _ _ _ _ _ hm1 hm2 hs1 hs2 hsec]
    have hF0 := isdigit_peek_append hF []
    rw [List.append_nil] at hF0
    have hrun := scan_fraction_run F []
      (digitsValue H * 3600 + digitsValue [m1, m2] * 60 + digitsValue [s1, s2]) 1 hF.1 hF.2 rfl
      (by rw [digitsFrom_eq]; omega) (by omega)
    rw [List.append_nil, digitsFrom_eq, Nat.cast_one, Nat.one_mul] at hrun
    simp only [peek, List.getD_cons_zero, List.drop_succ_cons, List.drop_zero]
    simp only [peek] at hF0
    simp only [hF0, hrun, List.getD_nil]
    rw [k1000 _ hb]
    exact div64_natCast _ _ hpow
  · intro FF hF hfb hb
    norm_num at hb hfb
    have hsec : digitsValue H * 3600 + digitsValue [m1, m2] * 60 + digitsValue [s1, s2]
        < 9223372036854775808 := by omega
    rw [key _ hsec, clock_time_fields _ _ _ _ _ _ hm1 hm2 hs1 hs2 hsec]
    have hF0 := isdigit_peek_append hF []
    rw [List.append_nil] at hF0
    have hrun := scan_digits_run FF [] 0 hF.1 hF.2 rfl (by show digitsValue FF < _; omega)
    rw [List.append_nil, Nat.cast_zero] at hrun
    simp only [peek, List.getD_cons_zero, List.drop_succ_cons, List.drop_zero]
    simp only [peek] at hF0
    simp only [hF0, hrun, List.getD_nil]
    have h30 : div64 (mul64 ((digitsFrom 0 FF : Nat) : Int) 1000) 30 =
        some ((digitsValue FF * 1000 / 30 : Nat) : Int) := by
      show div64 (mul64 ((digitsValue FF : Nat) : Int) 1000) 30 = _
      rw [k1000 _ hfb]
      exact div64_natCast _ 30 (by omega)
    rw [h30, k1000 _ (by omega)]
    simp only [add64, Option.map_some', ← Nat.cast_add]
    rw [wrap64_natCast (by omega)]
    simp

/-- The value of an offset-form string when nothing overflows. -/
theorem offset_form_value (N frac : List Nat) (u : Metric)
    (hN : IsDigits N) (hF : frac = [] ∨ IsDigits frac)
    (hnum : digitsValue (N ++ frac) * u.mul < 2 ^ 63)
    (hden : 10 ^ frac.length * u.den < 2 ^ 63) :
    dfxp_parse_timestamp (offsetString N frac u) = some ((offsetValue N frac u : Nat) : Int) := by
  norm_num at hnum hden
  have hmul := metric_mul_pos u
  have hdpos := metric_den_pos u
  have hval : digitsValue (N ++ frac) = digitsFrom (digitsValue N) frac := by
    simp [digitsValue, digitsFrom_append]
  have hle1 : digitsValue (N ++ frac) ≤ digitsValue (N ++ frac) * u.mul :=
    Nat.le_mul_of_pos_right _ hmul
  have hle2 : digitsValue N ≤ digitsValue (N ++ frac) := by
    rw [hval]; exact le_digitsFrom _ _
  have hle3 : 10 ^ frac.length ≤ 10 ^ frac.length * u.den := Nat.le_mul_of_pos_right _ hdpos
  have hpow : 0 < 10 ^ frac.length := Nat.pos_pow_of_pos _ (by omega)
  unfold offsetString offsetValue dfxp_parse_timestamp
  rw [isdigit_peek_append hN]
  rcases hF with hF | hF
  · subst hF
    have hrun := scan_digits_run N (u.bytes ++ []) 0 hN.1 hN.2 (metric_head_not_digit u [])
      (by show digitsValue N < _; omega)
    simp only [List.append_nil, Nat.cast_zero] at hrun hnum hle1 ⊢
    have hne := metric_head_ne u []
    rw [List.append_nil] at hne
    simp only [if_true, List.nil_append, hrun, Bool.not_true, Bool.false_eq_true, if_false,
      hne.1, dfxp_offset_time, hne.2]
    have := offset_metric_eval (digitsValue N) 1 u hnum (by simpa using hden) (by omega)
    simpa [digitsValue] using this
  · have hfne : frac ≠ [] := hF.1
    have hrun := scan_digits_run N (46 :: (frac ++ u.bytes)) 0 hN.1 hN.2 rfl
      (by show digitsValue N < _; omega)
    have hfr := scan_fraction_run frac u.bytes (digitsValue N) 1 hF.1 hF.2
      (by simpa using metric_head_not_digit u []) (by omega) (by omega)
    simp only [Nat.cast_zero] at hrun
    change scan_digits 0 _ = (((digitsValue N : Nat) : Int), _) at hrun
    simp only [Nat.cast_one, Nat.one_mul] at hfr
    simp only [if_neg hfne, List.cons_append, hrun, Bool.not_true, Bool.false_eq_true, if_false,
      dfxp_offset_time, peek, List.getD_cons_zero, List.drop_succ_cons, List.drop_zero]
    have hd0 := isdigit_peek_append hF u.bytes
    simp only [peek] at hd0
    simp only [Nat.reduceEqDiff, if_false, if_true, hd0, Bool.not_true,
      Bool.false_eq_true, hfr]
    rw [hval]
    exact offset_metric_eval _ _ u (by rw [← hval]; exact hnum) hden hpow

/-- A string of neither form is rejected. -/
theorem neither_form_rejected (s : List Nat) (h0 : ∀ c ∈ s, c ≠ 0)
    (hc : ¬ ClockForm s) (ho : ¬ OffsetForm s) :
    dfxp_parse_timestamp s = some (-1) := by
  unfold dfxp_parse_timestamp
  by_cases hd : isdigit (peek s 0) = true
  · simp only [hd, Bool.not_true, Bool.false_eq_true, if_false]
    obtain ⟨ds, rest, a1, a2, a3, a4⟩ := scan_digits_split 0 s hd
    have hrest : ∀ x ∈ rest, x ≠ 0 := fun x hx => h0 x (by rw [a1]; simp [hx])
    rw [a4]
    by_cases h58 : peek rest 0 = 58
    · rw [if_pos h58]
      cases rest with
      | nil => exact absurd h58 (by simp [peek])
      | cons c p =>
        have hc58 : c = 58 := h58
        have hp : ∀ x ∈ p, x ≠ 0 := fun x hx => hrest x (List.mem_cons_of_mem _ hx)
        rcases clock_time_cases (scan_digits 0 s).1 p hp with h | ⟨m1, m2, s1, s2, suffix, b1, b2, b3, b4⟩
        · exact h
        · exact absurd ⟨ds, m1, m2, s1, s2, suffix, a2, b1, b2, b3, by rw [a1, hc58, b4]; rfl⟩ hc
    · rw [if_neg h58]
      rcases offset_time_cases (scan_digits 0 s).1 rest hrest with h | ⟨frac, u, b1, b2⟩
      · exact h
      · exact absurd ⟨ds, frac, u, a2, b1, by rw [a1, b2]; rfl⟩ ho
  · simp [hd]

/-- C21 (counterexample): `9223372036854775809ms` has no NUL byte; its digit run
overflows the 64-bit accumulator and `dfxp_parse_timestamp` returns
`-9223372036854775807`, a negative value other than -1. -/
theorem dfxp_parse_timestamp_negative_result :
    (∀ c ∈ cstr "9223372036854775809ms", c ≠ 0) ∧
    dfxp_parse_timestamp (cstr "9223372036854775809ms") = some (-9223372036854775807) ∧
    (-9223372036854775807 : Int) < 0 ∧ (-9223372036854775807 : Int) ≠ -1 := by
  decide

/-- C21 (amended): for every NUL-terminated byte string, with signed 64-bit
two's-complement arithmetic, `dfxp_parse_timestamp` returns -1 when the string matches
neither grammar, and a non-negative value when the string is of clock form or of offset
form and its quantities fit in 63 bits (the seconds times 1000, the fraction's power of
ten and scaled numerator, the frame count times 1000; `num * mul` and `den`). -/
theorem dfxp_parse_timestamp_sign (s : List Nat) (h0 : ∀ c ∈ s, c ≠ 0) :
    (¬ ClockForm s → ¬ OffsetForm s → dfxp_parse_timestamp s = some (-1)) ∧
    (∀ (H : List Nat) (m1 m2 s1 s2 : Nat),
      IsDigits H → IsDigits [m1, m2] → IsDigits [s1, s2] →
      (s = clockString H m1 m2 s1 s2 [] → clockSeconds H m1 m2 s1 s2 * 1000 < 2 ^ 63 →
        ∃ v, dfxp_parse_timestamp s = some v ∧ 0 ≤ v) ∧
      (∀ F : List Nat, IsDigits F → s = clockString H m1 m2 s1 s2 (46 :: F) →
        10 ^ F.length < 2 ^ 63 →
        (clockSeconds H m1 m2 s1 s2 * 10 ^ F.length + digitsValue F) * 1000 < 2 ^ 63 →
        ∃ v, dfxp_parse_timestamp s = some v ∧ 0 ≤ v) ∧
      (∀ FF : List Nat, IsDigits FF → s = clockString H m1 m2 s1 s2 (58 :: FF) →
        digitsValue FF * 1000 < 2 ^ 63 →
        clockSeconds H m1 m2 s1 s2 * 1000 + digitsValue FF * 1000 / 30 < 2 ^ 63 →
        ∃ v, dfxp_parse_timestamp s = some v ∧ 0 ≤ v)) ∧
    (∀ (N frac : List Nat) (u : Metric), IsDigits N → (frac = [] ∨ IsDigits frac) →
      s = offsetString N frac u →
      digitsValue (N ++ frac) * u.mul < 2 ^ 63 → 10 ^ frac.length * u.den < 2 ^ 63 →
      ∃ v, dfxp_parse_timestamp s = some v ∧ 0 ≤ v) := by
  refine ⟨neither_form_rejected s h0, ?_, ?_⟩
  · intro H m1 m2 s1 s2 hH hM hS
    obtain ⟨c1, c2, c3⟩ := clock_form_value H m1 m2 s1 s2 hH hM hS
    refine ⟨?_, ?_, ?_⟩
    · intro hs hb
      rw [hs]
      exact ⟨_, c1 hb, Int.ofNat_nonneg _⟩
    · intro F hF hs hd hb
      rw [hs]
      exact ⟨_, c2 F hF hd hb, Int.ofNat_nonneg _⟩
    · intro FF hF hs hfb hb
      rw [hs]
      exact ⟨_, c3 FF hF hfb hb, Int.ofNat_nonneg _⟩
  · intro N frac u hN hF hs hnum hden
    rw [hs]
    exact ⟨_, offset_form_value N frac u hN hF hnum hden, Int.ofNat_nonneg _⟩

/-- Witness for C21 (amended): `1:02:03` and `1.5s` give non-negative values, the
empty string gives -1. -/
theorem dfxp_parse_timestamp_sign_witness :
    (∀ c ∈ ([] : List Nat), c ≠ 0) ∧ dfxp_parse_timestamp [] = some (-1) ∧
    (∀ c ∈ clockString [49] 48 50 48 51 [], c ≠ 0) ∧
    (∃ v, dfxp_parse_timestamp (clockString [49] 48 50 48 51 []) = some v ∧ 0 ≤ v) ∧
    (∀ c ∈ offsetString [49] [53] Metric.s, c ≠ 0) ∧
    (∃ v, dfxp_parse_timestamp (offsetString [49] [53] Metric.s) = some v ∧ 0 ≤ v) :=
  ⟨by simp,
    (dfxp_parse_timestamp_sign [] (by simp)).1 not_clockForm_nil not_offsetForm_nil,
    by decide,
    ((dfxp_parse_timestamp_sign (clockString [49] 48 50 48 51 []) (by decide)).2.1
      [49] 48 50 48 51 (by decide) (by decide) (by decide)).1 rfl (by decide),
    by decide,
    (dfxp_parse_timestamp_sign (offsetString [49] [53] Metric.s) (by decide)).2.2
      [49] [53] Metric.s (by decide) (Or.inr (by decide)) rfl (by decide) (by decide)⟩

theorem dfxp_append_text_node_write (flag depth lflag : Nat) (node : XmlNode) (p : List Nat) :
    dfxp_append_text_node dfxp_append_string flag depth lflag node p =
      p ++ dfxp_append_text_node dfxp_append_string flag depth lflag node [] := by
  obtain ⟨out, hf, _⟩ := dfxp_append_text_node_agree flag depth lflag node
  simp only [hf, List.nil_append]

theorem dfxp_append_text_nodes_join (flag depth lflag : Nat) : ∀ (nodes : List XmlNode)
    (p : List Nat),
    dfxp_append_text_nodes dfxp_append_string flag depth lflag nodes p =
      p ++ (nodes.map
        (fun n => dfxp_append_text_node dfxp_append_string flag depth lflag n [])).flatten
  | [], p => by simp [dfxp_append_text_nodes]
  | node :: next, p => by
    simp only [dfxp_append_text_nodes, List.map_cons, List.flatten_cons]
    rw [dfxp_append_text_nodes_join flag depth lflag next, dfxp_append_text_node_write]
    simp only [List.append_assoc]

theorem dfxp_add_textflags_none (n : XmlNode) (flag : Nat)
    (h : ∀ e ∈ decorationtab, dfxp_has_attr_value n e.attr e.name = false) :
    dfxp_add_textflags n flag = flag := by
  have h0 := h _ (List.mem_cons_self _ _)
  have h1 := h _ (List.mem_cons_of_mem _ (List.mem_cons_self _ _))
  have h2 := h _ (List.mem_cons_of_mem _ (List.mem_cons_of_mem _ (List.mem_cons_self _ _)))
  simp only [dfxp_add_textflags, dfxp_add_textflags_loop, decorationtab, h0, h1, h2,
    Bool.false_eq_true, if_false, Nat.zero_shiftLeft, Nat.or_zero]

/-- C23: the body written by `dfxp_append_text_content` for cue-level flag `flag` is the
concatenation of what each direct child writes at depth 0 with no bit yet written.
A text or CDATA child writes its bytes alone and a `br` child writes a newline alone,
whatever `flag` is. A top-level `span` with children writes the opening tags of its own
flag (`dfxp_add_textflags`), its content, and the closing tags of that flag; a `span`
without children writes nothing; without a decoration attribute its own flag is `flag`.
Every bit of `flag` is in a node's own flag and is not opened again inside a node whose
enclosing flag already has it. On `a<span>b</span>c<br/>` with bold the body is
`a<b>b</b>c` and a newline. -/
theorem dfxp_append_text_content_cue_level_bits :
    (∀ (node : List XmlNode) (flag : Nat) (p : List Nat),
      dfxp_append_text_content node p flag dfxp_append_string =
        p ++ (node.map
          (fun n => dfxp_append_text_node dfxp_append_string flag 0 0 n [])).flatten) ∧
    (∀ (flag : Nat) (content : List Nat),
      dfxp_append_text_node dfxp_append_string flag 0 0 (.text content) [] =
        content.takeWhile (fun c => c != 0) ∧
      dfxp_append_text_node dfxp_append_string flag 0 0 (.cdata content) [] =
        content.takeWhile (fun c => c != 0)) ∧
    (∀ (flag : Nat) (name : List Nat) (properties : List XmlAttr) (children : List XmlNode),
      vod_streq name DFXP_ELEMENT_BR = true →
      dfxp_append_text_node dfxp_append_string flag 0 0 (.element name properties children) [] =
        cstr "\n") ∧
    (∀ (flag : Nat) (name : List Nat) (properties : List XmlAttr) (children : List XmlNode),
      vod_streq name DFXP_ELEMENT_SPAN = true →
      dfxp_append_text_node dfxp_append_string flag 0 0 (.element name properties children) [] =
        (if children.isEmpty then []
         else
          open_tags (dfxp_add_textflags (.element name properties children) flag) ++
          dfxp_append_text_nodes dfxp_append_string flag 1
            (dfxp_add_textflags (.element name properties children) flag) children [] ++
          close_tags (dfxp_add_textflags (.element name properties children) flag)) ∧
      ((∀ e ∈ decorationtab,
          dfxp_has_attr_value (.element name properties children) e.attr e.name = false) →
        dfxp_add_textflags (.element name properties children) flag = flag)) ∧
    (∀ (flag lflag : Nat) (node : XmlNode),
      (∀ i, flag.testBit i = true → lflag.testBit i = true) →
      (∀ i, flag.testBit i = true →
        (dfxp_add_textflags node flag).testBit i = true ∧
        (dfxp_add_textflags node flag &&&
          (dfxp_add_textflags node flag ^^^ lflag)).testBit i = false)) ∧
    dfxp_append_text_content example_plain_span [] DECO_SET_BOLD dfxp_append_string =
      cstr "a<b>b</b>c\n" := by
  refine ⟨?_, ?_, ?_, ?_, ?_, by decide⟩
  · intro node flag p
    exact dfxp_append_text_nodes_join flag 0 0 node p
  · intro flag content
    exact ⟨rfl, rfl⟩
  · intro flag name properties children hbr
    simp only [dfxp_append_text_node, hbr, if_true]
    rfl
  · intro flag name properties children hspan
    have hbr := vod_streq_span_not_br name hspan
    refine ⟨?_, dfxp_add_textflags_none _ flag⟩
    cases children with
    | nil =>
      simp [dfxp_append_text_node, hbr, hspan]
    | cons c cs =>
      have hd : decide (0 ≥ DFXP_MAX_STACK_DEPTH) = false := by decide
      simp only [dfxp_append_text_node, hbr, hspan, hd, List.isEmpty_cons, Bool.false_eq_true,
        if_false, Bool.not_true, Bool.or_self, reduceCtorEq]
      rw [dfxp_append_tag_close, dfxp_append_text_nodes_write, dfxp_append_tag_open]
      simp only [Nat.xor_zero, Nat.and_self, List.nil_append, Nat.zero_add]
  · intro flag lflag node hsub i hi
    refine ⟨dfxp_add_textflags_ge node flag i hi, ?_⟩
    simp only [Nat.testBit_and, Nat.testBit_xor, dfxp_add_textflags_ge node flag i hi,
      hsub i hi]
    rfl
/-- Witness for C23: under a bold cue, the top-level span `<span>b</span>` without
attributes is written as `<b>b</b>`, its own flag being the cue-level flag. -/
theorem dfxp_append_text_content_cue_level_bits_witness :
    dfxp_append_text_node dfxp_append_string DECO_SET_BOLD 0 0
        (.element (cstr "span") [] [.text (cstr "b")]) [] = cstr "<b>b</b>" ∧
    dfxp_add_textflags (.element (cstr "span") [] [.text (cstr "b")]) DECO_SET_BOLD =
      DECO_SET_BOLD ∧
    (dfxp_add_textflags (.element (cstr "span") [] []) DECO_SET_BOLD).testBit 0 = true :=
  ⟨((dfxp_append_text_content_cue_level_bits.2.2.2.1 DECO_SET_BOLD (cstr "span") []
        [.text (cstr "b")] (by decide)).1).trans (by decide),
    (dfxp_append_text_content_cue_level_bits.2.2.2.1 DECO_SET_BOLD (cstr "span") []
        [.text (cstr "b")] (by decide)).2 (by decide),
    ((dfxp_append_text_content_cue_level_bits.2.2.2.2.1 DECO_SET_BOLD DECO_SET_BOLD
        (.element (cstr "span") [] []) (fun _ h => h)) 0 (by decide)).1⟩

end Dfxp
